import Mathlib

/-!
# Buffer manager (`buf.C`): shallow embedding and verified properties

The buffer manager of `buf.C` is embedded as pure functions on an explicit
state `BufMgr`.  Every member function of the C++ class becomes a function
that takes the state and returns a result record holding the returned
`Status`, the value of the out-parameters, the list of page-store calls that
were made, and the state afterwards.

The page store (`class File`) is outside the buffer manager.  The status that
each of its calls returns is an argument of the embedded operation, so that
every theorem quantifies over all outcomes of the store.
-/

namespace Buf

/-! ## Data model -/

/-- Status codes.  The named constructors are the constants that occur in
`buf.C`; `OTHER` stands for every further value of the enumeration, which the
page store may return. -/
inductive Status where
  | OK
  | UNIXERR
  | BUFFEREXCEEDED
  | HASHNOTFOUND
  | PAGENOTPINNED
  | HASHTBLERROR
  | PAGEPINNED
  | BADBUFFER
  | OTHER (code : Nat)
  deriving DecidableEq

/-- Content of one page buffer (`Page`), kept abstract as a number; `0` is the
all-zero page produced by `memset`. -/
abbrev Page := Nat

/-- A `File*`: `none` is `NULL`, `some f` points to the file object `f`. -/
abbrev FilePtr := Option Nat

/-- Value that a 32-bit `int` holds after an arithmetic operation whose exact
result is `x`: the result wrapped around into the range from `-2147483648`
to `2147483647` (two's complement). -/
def wrapInt (x : Int) : Int :=
  (x + 2147483648) % 4294967296 - 2147483648

/-- Frame descriptor (`BufDesc`), the fields that `buf.C` reads and writes.
`pinCnt` is a 32-bit `int`: `buf.C` changes it with `++` and `--`, which are
embedded with `wrapInt`. -/
structure BufDesc where
  file : FilePtr
  pageNo : Int
  frameNo : Nat
  pinCnt : Int
  dirty : Bool
  valid : Bool
  refbit : Bool
  deriving DecidableEq

/-- Modelled from the spec: `BufDesc::Clear` is declared in `buf.h`, which is
not among the sources.  The spec describes a cleared frame as
"file = null, pageNo = invalid sentinel, pinCnt = 0, dirty = false,
refbit = false", not valid; `flushFile` in `buf.C` writes the sentinel as `-1`. -/
def BufDesc.Clear (d : BufDesc) : BufDesc :=
  { d with file := none, pageNo := -1, pinCnt := 0, dirty := false, valid := false, refbit := false }

/-- Modelled from the spec: `BufDesc::Set` is declared in `buf.h`, which is
not among the sources.  The spec initialises the descriptor with "pinCnt = 1,
refbit per initialization policy, dirty = false, valid = true"; the policy for
the reference bit is the parameter `refInit`. -/
def BufDesc.Set (refInit : Bool) (d : BufDesc) (file : FilePtr) (pageNo : Int) : BufDesc :=
  { d with file := file, pageNo := pageNo, pinCnt := 1, dirty := false, valid := true, refbit := refInit }

/-- Modelled from the spec: the Identity Index (`BufHashTbl`, implemented
outside `buf.C`) is "a mapping from (file-identity, page-number) to frame
index; supports insert, lookup, remove; no duplicate keys". -/
structure BufHashTbl where
  map : FilePtr → Int → Option Nat

/-- Modelled from the spec: `lookup(file, pageNo) -> frameIdx` fails with
`NotFound` if absent; `none` is that failure. -/
def BufHashTbl.lookup (t : BufHashTbl) (file : FilePtr) (pageNo : Int) : Option Nat :=
  t.map file pageNo

/-- Modelled from the spec: `insert(file, pageNo, frameIdx)` fails with
`DuplicateKey` if the identity is already present (status `HASHTBLERROR`, the
one `allocPage` reports), and leaves the index as it was. -/
def BufHashTbl.insert (t : BufHashTbl) (file : FilePtr) (pageNo : Int) (frameNo : Nat) :
    Status × BufHashTbl :=
  match t.map file pageNo with
  | some _ => (Status.HASHTBLERROR, t)
  | none => (Status.OK, ⟨fun f p => if f = file ∧ p = pageNo then some frameNo else t.map f p⟩)

/-- Modelled from the spec: `remove(file, pageNo)` fails with `NotFound` if the
identity is absent, and leaves the index as it was. -/
def BufHashTbl.remove (t : BufHashTbl) (file : FilePtr) (pageNo : Int) : Status × BufHashTbl :=
  match t.map file pageNo with
  | none => (Status.HASHNOTFOUND, t)
  | some _ => (Status.OK, ⟨fun f p => if f = file ∧ p = pageNo then none else t.map f p⟩)

/-- One call made to the page store. -/
inductive StoreCall where
  | readPage (file : FilePtr) (pageNo : Int)
  | writePage (file : FilePtr) (pageNo : Int) (content : Page)
  | allocatePage (file : FilePtr)
  | disposePage (file : FilePtr) (pageNo : Int)
  deriving DecidableEq

/-- State of the buffer manager (`numBufs`, `bufTable`, `bufPool`,
`hashTable`, `clockHand`) together with `disk`, the durable content of the
page store.  The arrays are total functions; only the indices below `numBufs`
exist in the program.  `clockHand` is an `int` in the source and `-1` for a
pool of zero frames, where it is never read; here it is a natural number. -/
structure BufMgr where
  numBufs : Nat
  bufTable : Nat → BufDesc
  bufPool : Nat → Page
  hashTable : BufHashTbl
  clockHand : Nat
  disk : FilePtr → Int → Page

/-- Result of `allocBuf`, `readPage`, `unPinPage`, `disposePage` and
`flushFile`: returned status, the frame index written to the out-parameter
(`frame`, or the frame that `page` points into) when it was written, the calls
made to the page store in order, and the state afterwards. -/
structure Res where
  status : Status
  frame : Option Nat
  calls : List StoreCall
  st : BufMgr

/-- Result of `allocPage`: as `Res`, with the out-parameter `pageNo`. -/
structure AllocPageRes where
  status : Status
  pageNo : Int
  frame : Option Nat
  calls : List StoreCall
  st : BufMgr

namespace BufMgr

/-- Constructor `BufMgr::BufMgr(bufs)`: descriptors zeroed by `memset` (so
`pageNo = 0`, `file = NULL`), `frameNo = i`, `valid = false`, zeroed pool,
empty hash table, clock hand on the last frame. -/
def init (bufs : Nat) (disk : FilePtr → Int → Page) : BufMgr :=
  { numBufs := bufs
    bufTable := fun i =>
      { file := none, pageNo := 0, frameNo := i, pinCnt := 0, dirty := false, valid := false,
        refbit := false }
    bufPool := fun _ => 0
    hashTable := ⟨fun _ _ => none⟩
    clockHand := bufs - 1
    disk := disk }

/-- Assignment `bufTable[i] = d`. -/
def setDesc (s : BufMgr) (i : Nat) (d : BufDesc) : BufMgr :=
  { s with bufTable := Function.update s.bufTable i d }

/-- Modelled from the spec: `advanceClock` is declared in `buf.h`, which is not
among the sources; the hand is "a single index into the frame table",
"advancing circularly". -/
def advanceClock (s : BufMgr) : BufMgr :=
  { s with clockHand := (s.clockHand + 1) % s.numBufs }

/-- Modelled from the spec: `File::writePage(pageNo, buffer)` "persists
`buffer` as the page's durable content"; it does so when it returns `OK`
(status `wr`), and a failed call leaves the store as it was. -/
def storeWrite (s : BufMgr) (wr : Status) (file : FilePtr) (pageNo : Int) (content : Page) :
    BufMgr :=
  if wr = Status.OK then
    { s with disk := fun f p => if f = file ∧ p = pageNo then content else s.disk f p }
  else s

/-- Lines 113-115 of `allocBuf`: remove the page of frame `i` from the hash
table and clear the descriptor. -/
def evict (s : BufMgr) (i : Nat) : BufMgr :=
  { s with
    hashTable := (s.hashTable.remove (s.bufTable i).file (s.bufTable i).pageNo).2
    bufTable := Function.update s.bufTable i (s.bufTable i).Clear }

/-- The loop of `allocBuf` with `attempts` iterations left.  `wr` is the
status the page store returns if `writePage` is called. -/
def allocBufLoop (wr : Status) : Nat → BufMgr → Res
  | 0, s => ⟨Status.BUFFEREXCEEDED, none, [], s⟩
  | attempts + 1, s =>
    let currFrame := s.bufTable s.clockHand
    if currFrame.valid = false then
      ⟨Status.OK, some s.clockHand, [], (s.setDesc s.clockHand currFrame.Clear).advanceClock⟩
    else if currFrame.refbit = true then
      allocBufLoop wr attempts (s.setDesc s.clockHand { currFrame with refbit := false })
    else if currFrame.pinCnt = 0 then
      if currFrame.dirty = true then
        let call := StoreCall.writePage currFrame.file currFrame.pageNo (s.bufPool s.clockHand)
        if wr = Status.UNIXERR then
          ⟨Status.UNIXERR, none, [call], s⟩
        else
          ⟨Status.OK, some s.clockHand, [call],
            (s.storeWrite wr currFrame.file currFrame.pageNo (s.bufPool s.clockHand)).evict
              s.clockHand⟩
      else
        ⟨Status.OK, some s.clockHand, [], s.evict s.clockHand⟩
    else
      allocBufLoop wr attempts s.advanceClock

/-- Function `BufMgr::allocBuf`: `attempts = numBufs`. -/
def allocBuf (s : BufMgr) (wr : Status) : Res :=
  allocBufLoop wr s.numBufs s

/-- Function `BufMgr::readPage(file, PageNo, page)`.  `wr` and `rd` are the
statuses of the page store for `writePage` and `readPage`.
Modelled from the spec: `File::readPage` "fills `bufferOut` with the page's
durable content" when it returns `OK`; a failed call leaves the buffer as it
was. -/
def readPage (s : BufMgr) (refInit : Bool) (wr rd : Status) (file : Nat) (PageNo : Int) : Res :=
  match s.hashTable.lookup (some file) PageNo with
  | some frameNo =>
    let d := s.bufTable frameNo
    ⟨Status.OK, some frameNo, [],
      s.setDesc frameNo { d with pinCnt := wrapInt (d.pinCnt + 1), refbit := true }⟩
  | none =>
    let r := s.allocBuf wr
    match r.status, r.frame with
    | Status.OK, some frameNo =>
      let calls := r.calls ++ [StoreCall.readPage (some file) PageNo]
      if rd = Status.OK then
        let s1 : BufMgr :=
          { r.st with bufPool := Function.update r.st.bufPool frameNo (r.st.disk (some file) PageNo) }
        let ins := s1.hashTable.insert (some file) PageNo frameNo
        let s2 : BufMgr := { s1 with hashTable := ins.2 }
        ⟨ins.1, some frameNo, calls,
          s2.setDesc frameNo ((s2.bufTable frameNo).Set refInit (some file) PageNo)⟩
      else
        ⟨rd, none, calls, r.st⟩
    | rc, _ => ⟨rc, none, r.calls, r.st⟩

/-- Function `BufMgr::unPinPage(file, PageNo, dirty)`. -/
def unPinPage (s : BufMgr) (file : Nat) (PageNo : Int) (dirty : Bool) : Res :=
  match s.hashTable.lookup (some file) PageNo with
  | none => ⟨Status.HASHNOTFOUND, none, [], s⟩
  | some frameNo =>
    let currFrame := s.bufTable frameNo
    if currFrame.pinCnt ≤ 0 then
      ⟨Status.PAGENOTPINNED, none, [], s⟩
    else
      let d1 : BufDesc := { currFrame with pinCnt := wrapInt (currFrame.pinCnt - 1) }
      let d2 : BufDesc := if dirty = true then { d1 with dirty := true } else d1
      ⟨Status.OK, none, [], s.setDesc frameNo d2⟩

/-- Function `BufMgr::allocPage(file, pageNo, page)`.  `al` is the status of
`File::allocatePage` and `newPage` the page number it hands out; `wr` is the
status of `writePage`. -/
def allocPage (s : BufMgr) (refInit : Bool) (al : Status) (newPage : Int) (wr : Status)
    (file : Nat) : AllocPageRes :=
  let call := StoreCall.allocatePage (some file)
  if al ≠ Status.OK then
    ⟨Status.UNIXERR, newPage, none, [call], s⟩
  else
    let r := s.allocBuf wr
    match r.status, r.frame with
    | Status.OK, some frameNo =>
      let ins := r.st.hashTable.insert (some file) newPage frameNo
      if ins.1 ≠ Status.OK then
        ⟨Status.HASHTBLERROR, newPage, none, call :: r.calls, { r.st with hashTable := ins.2 }⟩
      else
        let s2 : BufMgr := { r.st with hashTable := ins.2 }
        ⟨Status.OK, newPage, some frameNo, call :: r.calls,
          s2.setDesc frameNo ((s2.bufTable frameNo).Set refInit (some file) newPage)⟩
    | rc, _ => ⟨rc, newPage, none, call :: r.calls, r.st⟩

/-- Function `BufMgr::disposePage(file, pageNo)`.  `dp` is the status of
`File::disposePage`. -/
def disposePage (s : BufMgr) (dp : Status) (file : Nat) (pageNo : Int) : Res :=
  let s1 : BufMgr :=
    match s.hashTable.lookup (some file) pageNo with
    | some frameNo => s.setDesc frameNo (s.bufTable frameNo).Clear
    | none => s
  let s2 : BufMgr := { s1 with hashTable := (s1.hashTable.remove (some file) pageNo).2 }
  ⟨dp, none, [StoreCall.disposePage (some file) pageNo], s2⟩

/-- The loop of `flushFile` at index `i` with `todo` iterations left; `calls`
are the store calls made so far.  `wr i` is the status of the page store for
the `writePage` of frame `i`. -/
def flushLoop (wr : Nat → Status) (file : FilePtr) :
    Nat → Nat → List StoreCall → BufMgr → Res
  | 0, _, calls, s => ⟨Status.OK, none, calls, s⟩
  | todo + 1, i, calls, s =>
    let tmpbuf := s.bufTable i
    if tmpbuf.valid = true ∧ tmpbuf.file = file then
      if tmpbuf.pinCnt > 0 then
        ⟨Status.PAGEPINNED, none, calls, s⟩
      else if tmpbuf.dirty = true then
        let call := StoreCall.writePage tmpbuf.file tmpbuf.pageNo (s.bufPool i)
        if wr i ≠ Status.OK then
          ⟨wr i, none, calls ++ [call], s⟩
        else
          let s1 := s.storeWrite (wr i) tmpbuf.file tmpbuf.pageNo (s.bufPool i)
          let s2 : BufMgr :=
            { s1 with
              hashTable := (s1.hashTable.remove file tmpbuf.pageNo).2
              bufTable := Function.update s1.bufTable i
                { tmpbuf with dirty := false, file := none, pageNo := -1, valid := false } }
          flushLoop wr file todo (i + 1) (calls ++ [call]) s2
      else
        let s2 : BufMgr :=
          { s with
            hashTable := (s.hashTable.remove file tmpbuf.pageNo).2
            bufTable := Function.update s.bufTable i
              { tmpbuf with file := none, pageNo := -1, valid := false } }
        flushLoop wr file todo (i + 1) calls s2
    else if tmpbuf.valid = false ∧ tmpbuf.file = file then
      ⟨Status.BADBUFFER, none, calls, s⟩
    else
      flushLoop wr file todo (i + 1) calls s

/-- Function `BufMgr::flushFile(file)`. -/
def flushFile (s : BufMgr) (wr : Nat → Status) (file : FilePtr) : Res :=
  flushLoop wr file s.numBufs 0 [] s

/-- The holder of a page reference stores `content` into the buffer of frame
`frame` (a write through the `Page*` handed out by `readPage` or
`allocPage`). -/
def writeFrame (s : BufMgr) (frame : Nat) (content : Page) : BufMgr :=
  { s with bufPool := Function.update s.bufPool frame content }

end BufMgr

/-- States reachable from a freshly constructed buffer manager of `bufs`
frames by calls of the public operations, with every outcome of the page
store, and by writes of callers into page buffers. -/
inductive Reachable (refInit : Bool) (bufs : Nat) : BufMgr → Prop
  | init (disk : FilePtr → Int → Page) : Reachable refInit bufs (BufMgr.init bufs disk)
  | readPage {s : BufMgr} (wr rd : Status) (file : Nat) (PageNo : Int) :
      Reachable refInit bufs s → Reachable refInit bufs (s.readPage refInit wr rd file PageNo).st
  | unPinPage {s : BufMgr} (file : Nat) (PageNo : Int) (dirty : Bool) :
      Reachable refInit bufs s → Reachable refInit bufs (s.unPinPage file PageNo dirty).st
  | allocPage {s : BufMgr} (al : Status) (newPage : Int) (wr : Status) (file : Nat) :
      Reachable refInit bufs s → Reachable refInit bufs (s.allocPage refInit al newPage wr file).st
  | disposePage {s : BufMgr} (dp : Status) (file : Nat) (pageNo : Int) :
      Reachable refInit bufs s → Reachable refInit bufs (s.disposePage dp file pageNo).st
  | flushFile {s : BufMgr} (wr : Nat → Status) (file : FilePtr) :
      Reachable refInit bufs s → Reachable refInit bufs (s.flushFile wr file).st
  | writeFrame {s : BufMgr} (frame : Nat) (content : Page) :
      Reachable refInit bufs s → Reachable refInit bufs (s.writeFrame frame content)


/-! ## Auxiliary notions for the proofs -/

/-- The descriptors `d` and `e` agree on every field except possibly `refbit`. -/
def BufDesc.sameButRef (d e : BufDesc) : Prop :=
  ({ d with refbit := false } : BufDesc) = { e with refbit := false }

/-- Description of the result `r` of the replacement loop started in state
`s`: the four ways in which the loop can end. -/
def AllocPost (wr : Status) (s : BufMgr) (r : Res) : Prop :=
  r.st.numBufs = s.numBufs ∧ r.st.bufPool = s.bufPool ∧ r.st.clockHand < s.numBufs ∧
  ((r.status = Status.BUFFEREXCEEDED ∧ r.frame = none ∧ r.calls = [] ∧
      r.st.hashTable = s.hashTable ∧ r.st.disk = s.disk ∧
      ∀ i, (s.bufTable i).sameButRef (r.st.bufTable i)) ∨
   (r.status = Status.UNIXERR ∧ wr = Status.UNIXERR ∧ r.frame = none ∧
      r.st.hashTable = s.hashTable ∧ r.st.disk = s.disk ∧
      (∀ i, (s.bufTable i).sameButRef (r.st.bufTable i)) ∧
      ∃ v, v < s.numBufs ∧ (s.bufTable v).valid = true ∧ (s.bufTable v).pinCnt = 0 ∧
        (s.bufTable v).dirty = true ∧
        r.calls = [StoreCall.writePage (s.bufTable v).file (s.bufTable v).pageNo (s.bufPool v)]) ∨
   (∃ f, r.status = Status.OK ∧ r.frame = some f ∧ f < s.numBufs ∧
      (s.bufTable f).valid = false ∧ r.calls = [] ∧
      r.st.hashTable = s.hashTable ∧ r.st.disk = s.disk ∧
      r.st.bufTable f = (s.bufTable f).Clear ∧
      (∀ i, i ≠ f → (s.bufTable i).sameButRef (r.st.bufTable i)) ∧
      r.st.clockHand = (f + 1) % s.numBufs) ∨
   (∃ f, r.status = Status.OK ∧ r.frame = some f ∧ f < s.numBufs ∧
      (s.bufTable f).valid = true ∧ (s.bufTable f).pinCnt = 0 ∧
      ((s.bufTable f).dirty = true → wr ≠ Status.UNIXERR) ∧
      r.calls = (if (s.bufTable f).dirty = true then
        [StoreCall.writePage (s.bufTable f).file (s.bufTable f).pageNo (s.bufPool f)] else []) ∧
      r.st.hashTable = (s.hashTable.remove (s.bufTable f).file (s.bufTable f).pageNo).2 ∧
      r.st.disk = (if (s.bufTable f).dirty = true then
        (s.storeWrite wr (s.bufTable f).file (s.bufTable f).pageNo (s.bufPool f)).disk
        else s.disk) ∧
      r.st.bufTable f = (s.bufTable f).Clear ∧
      (∀ i, i ≠ f → (s.bufTable i).sameButRef (r.st.bufTable i)) ∧
      r.st.clockHand = f))

/-- Consistency of frame table, identity index and clock hand.  It does not
mention reference bits, page contents or the page store. -/
structure Inv (s : BufMgr) : Prop where
  hand : 0 < s.numBufs → s.clockHand < s.numBufs
  resident : ∀ i, (s.bufTable i).valid = true →
    s.hashTable.lookup (s.bufTable i).file (s.bufTable i).pageNo = some i
  entry : ∀ file pageNo i, s.hashTable.lookup file pageNo = some i →
    i < s.numBufs ∧ (s.bufTable i).valid = true ∧ (s.bufTable i).file = file ∧
      (s.bufTable i).pageNo = pageNo
  pinRange : ∀ i, -2147483648 ≤ (s.bufTable i).pinCnt ∧ (s.bufTable i).pinCnt ≤ 2147483647
  free : ∀ i, (s.bufTable i).valid = false →
    (s.bufTable i).file = none ∧ (s.bufTable i).pinCnt ≤ 0 ∧ (s.bufTable i).dirty = false ∧
      ((s.bufTable i).pageNo = -1 ∨ (s.bufTable i).pageNo = 0)
  owned : ∀ i, (s.bufTable i).valid = true → (s.bufTable i).file ≠ none

/-- The descriptor `e` replaces `d` without changing residency or identity. -/
def BufDesc.Keeps (d e : BufDesc) : Prop :=
  e.valid = d.valid ∧ (d.valid = true → e.file = d.file ∧ e.pageNo = d.pageNo) ∧
    (-2147483648 ≤ e.pinCnt ∧ e.pinCnt ≤ 2147483647) ∧
    (e.valid = false →
      e.file = none ∧ e.pinCnt ≤ 0 ∧ e.dirty = false ∧ (e.pageNo = -1 ∨ e.pageNo = 0))


/-- The content `c` of page (`file`, `pageNo`) is safe in state `s`: either a
valid frame holds the page with content `c` and is dirty or the page store
holds `c` as well, or the page is absent from the index and the page store
holds `c`. -/
def Holds (file : Nat) (pageNo : Int) (c : Page) (s : BufMgr) : Prop :=
  (∃ f, (s.bufTable f).valid = true ∧ (s.bufTable f).file = some file ∧
      (s.bufTable f).pageNo = pageNo ∧ s.bufPool f = c ∧
      ((s.bufTable f).dirty = true ∨ s.disk (some file) pageNo = c)) ∨
    (s.hashTable.lookup (some file) pageNo = none ∧ s.disk (some file) pageNo = c)

/-- Sequences of fetches and unpins during which every call to the page store
succeeds: `FetchUnpin refInit s t` says that such a sequence leads from `s` to
`t`.  A step is a `readPage` of any page, whatever status it returns, or an
`unPinPage` of any page with any dirty flag. -/
inductive FetchUnpin (refInit : Bool) : BufMgr → BufMgr → Prop
  | refl (s : BufMgr) : FetchUnpin refInit s s
  | fetch {s t : BufMgr} (g : Nat) (q : Int) :
      FetchUnpin refInit s t →
      FetchUnpin refInit s (t.readPage refInit Status.OK Status.OK g q).st
  | unpin {s t : BufMgr} (g : Nat) (q : Int) (dirty : Bool) :
      FetchUnpin refInit s t → FetchUnpin refInit s (t.unPinPage g q dirty).st

/-- The descriptor that `flushFile` leaves behind when it drops a page. -/
def BufDesc.flushed (d : BufDesc) : BufDesc :=
  { d with dirty := false, file := none, pageNo := -1, valid := false }

/-- State after `flushFile(file)` has dropped the page of frame `i` (lines
255-259): the entry leaves the hash table, the descriptor loses its owner. -/
def BufMgr.flushDrop (s : BufMgr) (file : FilePtr) (i : Nat) : BufMgr :=
  { s with
    hashTable := (s.hashTable.remove file (s.bufTable i).pageNo).2
    bufTable := Function.update s.bufTable i (s.bufTable i).flushed }

/-- The `writePage` calls that a flush of `file` makes for the frames
`lo, ..., lo + k - 1` of state `s`: one for each valid dirty frame of the
file, in the order of the frames, with the frame's page number and content. -/
def flushWrites (file : Nat) (s : BufMgr) (lo k : Nat) : List StoreCall :=
  (List.range' lo k).filterMap (fun i =>
    if (s.bufTable i).valid = true ∧ (s.bufTable i).file = some file ∧
        (s.bufTable i).dirty = true then
      some (StoreCall.writePage (some file) (s.bufTable i).pageNo (s.bufPool i))
    else none)

/-- State `t` is state `s` after the pages of `file` in the frames
`lo, ..., hi - 1` have been dropped: these frames are flushed and their
entries are gone from the index; every other frame and entry, the clock hand
and the page buffers are as in `s`. -/
def FlushRel (file : Nat) (lo hi : Nat) (s t : BufMgr) : Prop :=
  t.numBufs = s.numBufs ∧ t.clockHand = s.clockHand ∧ t.bufPool = s.bufPool ∧
  (∀ j, lo ≤ j → j < hi → (s.bufTable j).valid = true → (s.bufTable j).file = some file →
    t.bufTable j = (s.bufTable j).flushed) ∧
  (∀ j, ¬ (lo ≤ j ∧ j < hi ∧ (s.bufTable j).valid = true ∧ (s.bufTable j).file = some file) →
    t.bufTable j = s.bufTable j) ∧
  (∀ j, lo ≤ j → j < hi → (s.bufTable j).valid = true → (s.bufTable j).file = some file →
    t.hashTable.lookup (some file) (s.bufTable j).pageNo = none) ∧
  (∀ g q, (∀ j, lo ≤ j → j < hi → (s.bufTable j).valid = true →
      (s.bufTable j).file = some file → ¬ (g = some file ∧ q = (s.bufTable j).pageNo)) →
    t.hashTable.lookup g q = s.hashTable.lookup g q)

/-- Number of frames of the pool whose refbit is set. -/
def refCount (s : BufMgr) : Nat :=
  (List.range s.numBufs).countP (fun j => (s.bufTable j).refbit)

/-- Number of steps the clock hand has to advance, circularly, to reach
frame `c`. -/
def handDist (s : BufMgr) (c : Nat) : Nat :=
  if s.clockHand ≤ c then c - s.clockHand else c + s.numBufs - s.clockHand

/-! ## Concrete states used to exercise the theorems -/

/-- Page store in which page `p` of every file holds the content `p + 100`. -/
def exDisk : FilePtr → Int → Page := fun _ p => p.toNat + 100

/-- A fresh pool of three frames. -/
def ex3 : BufMgr := BufMgr.init 3 exDisk

/-- Pool of three frames after fetching page 10 of file 1 (it lands in frame 2). -/
def exA (refInit : Bool) : BufMgr := (ex3.readPage refInit Status.OK Status.OK 1 10).st

/-- Pool of three frames after fetching pages 10, 11 and 12 of file 1: every
frame is valid and pinned once. -/
def exABC (refInit : Bool) : BufMgr :=
  ((((exA refInit).readPage refInit Status.OK Status.OK 1 11).st).readPage refInit Status.OK
    Status.OK 1 12).st

/-- Pool of one frame whose only frame holds page 10 of file 1, fetched twice
and unpinned twice: the frame is valid, unpinned and recently referenced. -/
def exOne (refInit : Bool) : BufMgr :=
  ((((((((BufMgr.init 1 exDisk).readPage refInit Status.OK Status.OK 1 10).st).readPage refInit
    Status.OK Status.OK 1 10).st).unPinPage 1 10 false).st).unPinPage 1 10 false).st

/-- The scenario of three frames: pages 10, 11, 12 fetched, the fetch of page
13 attempted, page 10 unpinned. -/
def exScenario (refInit : Bool) : BufMgr :=
  (((exABC refInit).readPage refInit Status.OK Status.OK 1 13).st.unPinPage 1 10 false).st

/-- Pool of two frames holding pages 11 (frame 1) and 12 (frame 0) of file 1,
both unpinned; the clock hand is on frame 1. -/
def exTwo (refInit : Bool) : BufMgr :=
  ((((((((BufMgr.init 2 exDisk).readPage refInit Status.OK Status.OK 1 11).st).readPage refInit
    Status.OK Status.OK 1 12).st).unPinPage 1 11 false).st).unPinPage 1 12 false).st

/-- From `exTwo`: page 10 of file 1 is allocated (in frame 1), the content 77 is
written into its frame, and the page is unpinned as dirty. -/
def exTwoDirty (refInit : Bool) : BufMgr :=
  ((((exTwo refInit).allocPage refInit Status.OK 10 Status.OK 1).st.writeFrame 1 77).unPinPage 1
    10 true).st

/-- From `exTwoDirty`: the state in which `allocBuf` meets the dirty, unpinned
page 10 in frame 1 under the clock hand. -/
def exVictim (refInit : Bool) : BufMgr := exTwoDirty refInit

/-- Pool of two frames, `Set` installing a set refbit: pages 11 (frame 1) and
12 (frame 0) of file 1 are fetched, a fetch of page 13 fails, both pages are
unpinned.  The clock hand is on frame 0, which is valid, unpinned and
referenced; the next frame 1 is valid, unpinned and not referenced. -/
def exSecondSet : BufMgr :=
  ((((((((((BufMgr.init 2 exDisk).readPage true Status.OK Status.OK 1 11).st).readPage true
    Status.OK Status.OK 1 12).st).readPage true Status.OK Status.OK 1 13).st).unPinPage
    1 11 false).st).unPinPage 1 12 false).st

/-- Pool of two frames, `Set` installing a clear refbit: pages 11 (frame 1) and
12 (frame 0) of file 1 are fetched, page 11 is fetched again, page 11 is
unpinned twice and page 12 once.  The clock hand is on frame 1, which is
valid, unpinned and referenced; the next frame 0 is valid, unpinned and not
referenced. -/
def exSecondClear : BufMgr :=
  ((((((((((((BufMgr.init 2 exDisk).readPage false Status.OK Status.OK 1 11).st).readPage false
    Status.OK Status.OK 1 12).st).readPage false Status.OK Status.OK 1 11).st).unPinPage
    1 11 false).st).unPinPage 1 11 false).st).unPinPage 1 12 false).st

/-- From a fresh pool of three frames: page 10 of file 1 is allocated (in
frame 2), the content 77 is written into its frame, and the page is unpinned as
dirty. -/
def exRoundDirty (refInit : Bool) : BufMgr :=
  (((ex3.allocPage refInit Status.OK 10 Status.OK 1).st.writeFrame 2 77).unPinPage 1 10 true).st

/-- From `exRoundDirty`: the pool is filled by fetching pages 11, 12 and 13 of
file 1; the fetch of page 13 evicts page 10, and all three frames are pinned. -/
def exRoundFull (refInit : Bool) : BufMgr :=
  ((((((exRoundDirty refInit).readPage refInit Status.OK Status.OK 1 11).st).readPage refInit
    Status.OK Status.OK 1 12).st).readPage refInit Status.OK Status.OK 1 13).st

/-- From `exRoundFull`: page 11 is unpinned and a fetch of page 10 is attempted. -/
def exRoundEvicted (refInit : Bool) : BufMgr :=
  ((((exRoundFull refInit).unPinPage 1 11 false).st).readPage refInit Status.OK Status.OK 1
    10).st

/-- A fresh pool of one frame, `Set` installing a set refbit: page 10 of file 1
is allocated, filled with 77 and unpinned as dirty; page 11 is fetched twice
(the first fetch fails and clears the reference bit, the second evicts page
10) and unpinned, and a fetch of page 10 is attempted. -/
def exRoundOne : BufMgr :=
  (((((((((((BufMgr.init 1 exDisk).allocPage true Status.OK 10 Status.OK 1).st.writeFrame 0
    77).unPinPage 1 10 true).st.readPage true Status.OK Status.OK 1 11).st).readPage true
    Status.OK Status.OK 1 11).st).unPinPage 1 11 false).st).readPage true Status.OK Status.OK 1
    10).st

/-- State after `k` further calls `readPage(file, PageNo)`, each with
succeeding store calls. -/
def BufMgr.fetchTimes (s : BufMgr) (refInit : Bool) (file : Nat) (PageNo : Int) : Nat → BufMgr
  | 0 => s
  | k + 1 =>
    ((BufMgr.fetchTimes s refInit file PageNo k).readPage refInit Status.OK Status.OK file
      PageNo).st

/-- The pool `exA` after page 10 has been fetched 2147483646 more times without
an unpin: its pin count is the largest 32-bit `int`. -/
def exMax : BufMgr := (exA true).fetchTimes true 1 10 2147483646

/-- The pool `exA` after page 10 has been fetched 2147483647 more times without
an unpin: its pin count has wrapped around. -/
def exOver : BufMgr := (exA true).fetchTimes true 1 10 2147483647

/-! ## Arithmetic of the 32-bit pin count -/

theorem wrapInt_range (x : Int) : -2147483648 ≤ wrapInt x ∧ wrapInt x ≤ 2147483647 := by
  unfold wrapInt
  omega

theorem wrapInt_of_range (x : Int) (h1 : -2147483648 ≤ x) (h2 : x ≤ 2147483647) :
    wrapInt x = x := by
  unfold wrapInt
  omega

theorem wrapInt_succ (x : Int) : wrapInt (wrapInt x + 1) = wrapInt (x + 1) := by
  unfold wrapInt
  omega

theorem pin_zero_range : (-2147483648 : Int) ≤ 0 ∧ (0 : Int) ≤ 2147483647 := by
  constructor <;> decide

theorem pin_one_range : (-2147483648 : Int) ≤ 1 ∧ (1 : Int) ≤ 2147483647 := by
  constructor <;> decide

/-! ## The identity index -/

theorem BufHashTbl.lookup_remove (t : BufHashTbl) (file : FilePtr) (pageNo : Int) (f : FilePtr)
    (p : Int) :
    (t.remove file pageNo).2.lookup f p =
      if f = file ∧ p = pageNo then none else t.lookup f p := by
  unfold BufHashTbl.remove BufHashTbl.lookup
  cases h : t.map file pageNo with
  | none =>
    by_cases hk : f = file ∧ p = pageNo
    · rw [if_pos hk, hk.1, hk.2]; exact h
    · rw [if_neg hk]
  | some j => rfl

theorem BufHashTbl.insert_of_none (t : BufHashTbl) (file : FilePtr) (pageNo : Int) (i : Nat)
    (h : t.lookup file pageNo = none) :
    (t.insert file pageNo i).1 = Status.OK ∧
      ∀ f p, (t.insert file pageNo i).2.lookup f p =
        if f = file ∧ p = pageNo then some i else t.lookup f p := by
  unfold BufHashTbl.lookup at h
  unfold BufHashTbl.insert BufHashTbl.lookup
  rw [h]
  exact ⟨rfl, fun _ _ => rfl⟩

theorem BufHashTbl.insert_of_some (t : BufHashTbl) (file : FilePtr) (pageNo : Int) (i j : Nat)
    (h : t.lookup file pageNo = some j) :
    t.insert file pageNo i = (Status.HASHTBLERROR, t) := by
  unfold BufHashTbl.lookup at h
  unfold BufHashTbl.insert
  rw [h]

/-! ## Descriptors that differ in the reference bit only -/

theorem BufDesc.sameButRef.refl (d : BufDesc) : d.sameButRef d := rfl

theorem BufDesc.sameButRef.trans {d e g : BufDesc} (h1 : d.sameButRef e) (h2 : e.sameButRef g) :
    d.sameButRef g := Eq.trans h1 h2

theorem BufDesc.sameButRef.setRef (d : BufDesc) (b : Bool) :
    d.sameButRef { d with refbit := b } := rfl

theorem BufDesc.sameButRef.valid_eq {d e : BufDesc} (h : d.sameButRef e) : e.valid = d.valid :=
  (congrArg BufDesc.valid h).symm

theorem BufDesc.sameButRef.file_eq {d e : BufDesc} (h : d.sameButRef e) : e.file = d.file :=
  (congrArg BufDesc.file h).symm

theorem BufDesc.sameButRef.pageNo_eq {d e : BufDesc} (h : d.sameButRef e) : e.pageNo = d.pageNo :=
  (congrArg BufDesc.pageNo h).symm

theorem BufDesc.sameButRef.pinCnt_eq {d e : BufDesc} (h : d.sameButRef e) : e.pinCnt = d.pinCnt :=
  (congrArg BufDesc.pinCnt h).symm

theorem BufDesc.sameButRef.dirty_eq {d e : BufDesc} (h : d.sameButRef e) : e.dirty = d.dirty :=
  (congrArg BufDesc.dirty h).symm

theorem BufDesc.sameButRef.frameNo_eq {d e : BufDesc} (h : d.sameButRef e) :
    e.frameNo = d.frameNo :=
  (congrArg BufDesc.frameNo h).symm

theorem BufDesc.sameButRef.clear_eq {d e : BufDesc} (h : d.sameButRef e) : e.Clear = d.Clear := by
  unfold BufDesc.Clear
  rw [h.frameNo_eq]

/-! ## What one call of `allocBuf` does -/

/-- The description of a result carries over from a state `s1` to a state `s`
that differs from it in reference bits and the clock hand only. -/
theorem AllocPost.transfer {wr : Status} (s s1 : BufMgr) {r : Res}
    (hn : s1.numBufs = s.numBufs) (hp : s1.bufPool = s.bufPool)
    (ht : s1.hashTable = s.hashTable) (hd : s1.disk = s.disk)
    (hb : ∀ i, (s.bufTable i).sameButRef (s1.bufTable i))
    (h : AllocPost wr s1 r) : AllocPost wr s r := by
  obtain ⟨h1, h2, h3, h4⟩ := h
  refine ⟨h1.trans hn, h2.trans hp, hn ▸ h3, ?_⟩
  have hsw : ∀ f p c, (s1.storeWrite wr f p c).disk = (s.storeWrite wr f p c).disk := by
    intro f p c
    unfold BufMgr.storeWrite
    split <;> simp [hd]
  rcases h4 with ⟨a1, a2, a3, a4, a5, a6⟩ | ⟨a1, a2, a3, a4, a5, a6, v, b1, b2, b3, b4, b5⟩ |
    ⟨f, a1, a2, a3, a4, a5, a6, a7, a8, a9, a10⟩ |
    ⟨f, a1, a2, a3, a4, a5, a6, a7, a8, a9, a10, a11, a12⟩
  · exact Or.inl ⟨a1, a2, a3, a4.trans ht, a5.trans hd, fun i => (hb i).trans (a6 i)⟩
  · refine Or.inr (Or.inl ⟨a1, a2, a3, a4.trans ht, a5.trans hd, fun i => (hb i).trans (a6 i),
      v, hn ▸ b1, ?_, ?_, ?_, ?_⟩)
    · rw [← (hb v).valid_eq]; exact b2
    · rw [← (hb v).pinCnt_eq]; exact b3
    · rw [← (hb v).dirty_eq]; exact b4
    · rw [b5, (hb v).file_eq, (hb v).pageNo_eq, hp]
  · refine Or.inr (Or.inr (Or.inl ⟨f, a1, a2, hn ▸ a3, ?_, a5, a6.trans ht, a7.trans hd, ?_,
      fun i hi => (hb i).trans (a9 i hi), hn ▸ a10⟩))
    · rw [← (hb f).valid_eq]; exact a4
    · rw [a8, (hb f).clear_eq]
  · have hf := hb f
    rw [hf.valid_eq] at a4
    rw [hf.pinCnt_eq] at a5
    rw [hf.dirty_eq] at a6 a7 a9
    rw [hf.file_eq, hf.pageNo_eq, hp] at a7
    rw [hf.file_eq, hf.pageNo_eq, ht] at a8
    rw [hf.file_eq, hf.pageNo_eq, hp, hsw, hd] at a9
    rw [hf.clear_eq] at a10
    exact Or.inr (Or.inr (Or.inr ⟨f, a1, a2, hn ▸ a3, a4, a5, a6, a7, a8, a9, a10,
      fun i hi => (hb i).trans (a11 i hi), a12⟩))

theorem allocBufLoop_post (wr : Status) (k : Nat) (s : BufMgr) (hh : s.clockHand < s.numBufs) :
    AllocPost wr s (BufMgr.allocBufLoop wr k s) := by
  induction k generalizing s with
  | zero =>
    exact ⟨rfl, rfl, hh, Or.inl ⟨rfl, rfl, rfl, rfl, rfl, fun i => BufDesc.sameButRef.refl _⟩⟩
  | succ k ih =>
    have hpos : 0 < s.numBufs := Nat.lt_of_le_of_lt (Nat.zero_le _) hh
    unfold BufMgr.allocBufLoop
    simp only []
    by_cases hv : (s.bufTable s.clockHand).valid = false
    · rw [if_pos hv]
      refine ⟨rfl, rfl, Nat.mod_lt _ hpos, Or.inr (Or.inr (Or.inl ⟨s.clockHand, rfl, rfl, hh, hv,
        rfl, rfl, rfl, ?_, ?_, rfl⟩))⟩
      · simp [BufMgr.advanceClock, BufMgr.setDesc]
      · intro i hi
        simp [BufMgr.advanceClock, BufMgr.setDesc, Function.update_noteq hi]
        exact BufDesc.sameButRef.refl _
    · rw [if_neg hv]
      have hv1 : (s.bufTable s.clockHand).valid = true := by
        cases hx : (s.bufTable s.clockHand).valid
        · exact absurd hx hv
        · rfl
      by_cases hr : (s.bufTable s.clockHand).refbit = true
      · rw [if_pos hr]
        refine AllocPost.transfer s
          (s.setDesc s.clockHand { s.bufTable s.clockHand with refbit := false }) rfl rfl rfl rfl ?_
          (ih (s.setDesc s.clockHand { s.bufTable s.clockHand with refbit := false }) hh)
        intro i
        by_cases hi : i = s.clockHand
        · rw [hi]
          simp only [BufMgr.setDesc, Function.update_same]
          exact BufDesc.sameButRef.setRef _ _
        · simp only [BufMgr.setDesc, Function.update_noteq hi]
          exact BufDesc.sameButRef.refl _
      · rw [if_neg hr]
        by_cases hp : (s.bufTable s.clockHand).pinCnt = 0
        · rw [if_pos hp]
          by_cases hd : (s.bufTable s.clockHand).dirty = true
          · rw [if_pos hd]
            by_cases hw : wr = Status.UNIXERR
            · rw [if_pos hw]
              exact ⟨rfl, rfl, hh, Or.inr (Or.inl ⟨rfl, hw, rfl, rfl, rfl,
                fun i => BufDesc.sameButRef.refl _, s.clockHand, hh, hv1, hp, hd, rfl⟩)⟩
            · rw [if_neg hw]
              refine ⟨?_, ?_, ?_, Or.inr (Or.inr (Or.inr ⟨s.clockHand, rfl, rfl, hh, hv1, hp,
                fun _ => hw,
                ?_, ?_, ?_, ?_, ?_, ?_⟩))⟩
              all_goals (unfold BufMgr.evict BufMgr.storeWrite; split)
              all_goals simp_all [Function.update_noteq]
              all_goals exact fun i _ => BufDesc.sameButRef.refl _
          · rw [if_neg hd]
            refine ⟨rfl, rfl, hh, Or.inr (Or.inr (Or.inr ⟨s.clockHand, rfl, rfl, hh, hv1, hp,
              fun h => absurd h hd, ?_, ?_, ?_, ?_, ?_, ?_⟩))⟩
            all_goals (unfold BufMgr.evict)
            all_goals simp_all [Function.update_noteq]
            all_goals exact fun i _ => BufDesc.sameButRef.refl _
        · rw [if_neg hp]
          exact AllocPost.transfer s s.advanceClock rfl rfl rfl rfl
            (fun i => BufDesc.sameButRef.refl _)
            (ih s.advanceClock (Nat.mod_lt _ hpos))

/-! ## The invariant of the frame table and the identity index -/

theorem Inv.keeps_refl {s : BufMgr} (h : Inv s) (i : Nat) :
    (s.bufTable i).Keeps (s.bufTable i) :=
  ⟨rfl, fun _ => ⟨rfl, rfl⟩, h.pinRange i, h.free i⟩

theorem Inv.keeps_of_sameButRef {s : BufMgr} (h : Inv s) (i : Nat) {e : BufDesc}
    (he : (s.bufTable i).sameButRef e) : (s.bufTable i).Keeps e := by
  refine ⟨he.valid_eq, fun _ => ⟨he.file_eq, he.pageNo_eq⟩, ?_, ?_⟩
  · rw [he.pinCnt_eq]; exact h.pinRange i
  · rw [he.valid_eq, he.file_eq, he.pinCnt_eq, he.dirty_eq, he.pageNo_eq]; exact h.free i

theorem bool_eq_true_of_ne_false {b : Bool} (h : ¬ b = false) : b = true := by
  cases b
  · exact absurd rfl h
  · rfl

/-- The invariant survives every change that keeps the index and, frame by
frame, residency and identity. -/
theorem Inv.of_keeps {s s1 : BufMgr} (h : Inv s) (hn : s1.numBufs = s.numBufs)
    (hh : 0 < s1.numBufs → s1.clockHand < s1.numBufs)
    (ht : s1.hashTable = s.hashTable)
    (hb : ∀ i, (s.bufTable i).Keeps (s1.bufTable i)) : Inv s1 := by
  refine ⟨hh, ?_, ?_, fun i => (hb i).2.2.1, fun i => (hb i).2.2.2, ?_⟩
  · intro i hv
    obtain ⟨k1, k2, -, -⟩ := hb i
    rw [k1] at hv
    rw [(k2 hv).1, (k2 hv).2, ht]
    exact h.resident i hv
  · intro file pageNo i hl
    rw [ht] at hl
    obtain ⟨e1, e2, e3, e4⟩ := h.entry file pageNo i hl
    obtain ⟨k1, k2, -, -⟩ := hb i
    exact ⟨hn ▸ e1, k1.trans e2, (k2 e2).1.trans e3, (k2 e2).2.trans e4⟩
  · intro i hv
    obtain ⟨k1, k2, -, -⟩ := hb i
    rw [k1] at hv
    rw [(k2 hv).1]
    exact h.owned i hv

/-- The invariant survives dropping the page of a valid frame `v`: its key
leaves the index and its descriptor becomes invalid. -/
theorem Inv.drop {s s1 : BufMgr} (h : Inv s) (v : Nat) (hv : (s.bufTable v).valid = true)
    (hn : s1.numBufs = s.numBufs)
    (hh : 0 < s1.numBufs → s1.clockHand < s1.numBufs)
    (ht : ∀ f p, s1.hashTable.lookup f p =
      if f = (s.bufTable v).file ∧ p = (s.bufTable v).pageNo then none
      else s.hashTable.lookup f p)
    (hc : (s1.bufTable v).valid = false ∧ (s1.bufTable v).file = none ∧
      (-2147483648 ≤ (s1.bufTable v).pinCnt ∧ (s1.bufTable v).pinCnt ≤ 0) ∧
      (s1.bufTable v).dirty = false ∧
      ((s1.bufTable v).pageNo = -1 ∨ (s1.bufTable v).pageNo = 0))
    (hb : ∀ i, i ≠ v → (s.bufTable i).Keeps (s1.bufTable i)) : Inv s1 := by
  refine ⟨hh, ?_, ?_, ?_, ?_, ?_⟩
  · intro i hi
    by_cases hiv : i = v
    · rw [hiv, hc.1] at hi
      exact absurd hi (by simp)
    · obtain ⟨k1, k2, -, -⟩ := hb i hiv
      rw [k1] at hi
      rw [(k2 hi).1, (k2 hi).2, ht, if_neg]
      · exact h.resident i hi
      · intro hk
        have h1 := h.resident i hi
        rw [hk.1, hk.2, h.resident v hv] at h1
        exact hiv (Option.some.inj h1).symm
  · intro file pageNo i hl
    rw [ht] at hl
    by_cases hk : file = (s.bufTable v).file ∧ pageNo = (s.bufTable v).pageNo
    · rw [if_pos hk] at hl
      exact absurd hl (by simp)
    · rw [if_neg hk] at hl
      obtain ⟨e1, e2, e3, e4⟩ := h.entry file pageNo i hl
      have hiv : i ≠ v := by
        intro hiv
        rw [hiv] at e3 e4
        exact hk ⟨e3.symm, e4.symm⟩
      obtain ⟨k1, k2, -, -⟩ := hb i hiv
      exact ⟨hn ▸ e1, k1.trans e2, (k2 e2).1.trans e3, (k2 e2).2.trans e4⟩
  · intro i
    by_cases hiv : i = v
    · rw [hiv]
      exact ⟨hc.2.2.1.1, le_trans hc.2.2.1.2 pin_zero_range.2⟩
    · exact (hb i hiv).2.2.1
  · intro i hi
    by_cases hiv : i = v
    · rw [hiv]
      exact ⟨hc.2.1, hc.2.2.1.2, hc.2.2.2⟩
    · exact (hb i hiv).2.2.2 hi
  · intro i hi
    by_cases hiv : i = v
    · rw [hiv, hc.1] at hi
      exact absurd hi (by simp)
    · obtain ⟨k1, k2, -, -⟩ := hb i hiv
      rw [k1] at hi
      rw [(k2 hi).1]
      exact h.owned i hi

/-- The invariant survives installing a page that is not resident into an
invalid frame `v`. -/
theorem Inv.install {s s1 : BufMgr} (h : Inv s) (v : Nat) (file : Nat) (pageNo : Int)
    (hv : (s.bufTable v).valid = false) (hlt : v < s.numBufs)
    (hnone : s.hashTable.lookup (some file) pageNo = none)
    (hn : s1.numBufs = s.numBufs)
    (hh : 0 < s1.numBufs → s1.clockHand < s1.numBufs)
    (ht : ∀ f p, s1.hashTable.lookup f p =
      if f = some file ∧ p = pageNo then some v else s.hashTable.lookup f p)
    (hc : (s1.bufTable v).valid = true ∧ (s1.bufTable v).file = some file ∧
      (s1.bufTable v).pageNo = pageNo ∧
      (-2147483648 ≤ (s1.bufTable v).pinCnt ∧ (s1.bufTable v).pinCnt ≤ 2147483647))
    (hb : ∀ i, i ≠ v → (s.bufTable i).Keeps (s1.bufTable i)) : Inv s1 := by
  refine ⟨hh, ?_, ?_, ?_, ?_, ?_⟩
  · intro i hi
    by_cases hiv : i = v
    · rw [hiv, hc.2.1, hc.2.2.1, ht, if_pos ⟨rfl, rfl⟩]
    · obtain ⟨k1, k2, -, -⟩ := hb i hiv
      rw [k1] at hi
      rw [(k2 hi).1, (k2 hi).2, ht, if_neg]
      · exact h.resident i hi
      · intro hk
        have h1 := h.resident i hi
        rw [hk.1, hk.2, hnone] at h1
        exact absurd h1 (by simp)
  · intro f p i hl
    rw [ht] at hl
    by_cases hk : f = some file ∧ p = pageNo
    · rw [if_pos hk] at hl
      have hiv : i = v := (Option.some.inj hl).symm
      rw [hiv, hk.1, hk.2]
      exact ⟨hn ▸ hlt, hc.1, hc.2.1, hc.2.2.1⟩
    · rw [if_neg hk] at hl
      obtain ⟨e1, e2, e3, e4⟩ := h.entry f p i hl
      have hiv : i ≠ v := by
        intro hiv
        rw [hiv, hv] at e2
        exact absurd e2 (by simp)
      obtain ⟨k1, k2, -, -⟩ := hb i hiv
      exact ⟨hn ▸ e1, k1.trans e2, (k2 e2).1.trans e3, (k2 e2).2.trans e4⟩
  · intro i
    by_cases hiv : i = v
    · rw [hiv]
      exact hc.2.2.2
    · exact (hb i hiv).2.2.1
  · intro i hi
    by_cases hiv : i = v
    · rw [hiv, hc.1] at hi
      exact absurd hi (by simp)
    · exact (hb i hiv).2.2.2 hi
  · intro i hi
    by_cases hiv : i = v
    · rw [hiv, hc.2.1]
      simp
    · obtain ⟨k1, k2, -, -⟩ := hb i hiv
      rw [k1] at hi
      rw [(k2 hi).1]
      exact h.owned i hi

theorem Inv.init (bufs : Nat) (disk : FilePtr → Int → Page) : Inv (BufMgr.init bufs disk) := by
  refine ⟨?_, ?_, ?_, ?_, ?_, ?_⟩
  · intro h
    show bufs - 1 < bufs
    exact Nat.sub_lt h Nat.one_pos
  · intro i hi
    exact absurd hi (by simp [BufMgr.init])
  · intro f p i hl
    exact absurd hl (by simp [BufMgr.init, BufHashTbl.lookup])
  · intro i
    simp [BufMgr.init]
  · intro i _
    simp [BufMgr.init]
  · intro i hi
    exact absurd hi (by simp [BufMgr.init])

/-! ## The operations keep the invariant -/

@[simp] theorem storeWrite_numBufs (s : BufMgr) (wr : Status) (f : FilePtr) (p : Int) (c : Page) :
    (s.storeWrite wr f p c).numBufs = s.numBufs := by
  unfold BufMgr.storeWrite; split <;> rfl

@[simp] theorem storeWrite_bufTable (s : BufMgr) (wr : Status) (f : FilePtr) (p : Int) (c : Page) :
    (s.storeWrite wr f p c).bufTable = s.bufTable := by
  unfold BufMgr.storeWrite; split <;> rfl

@[simp] theorem storeWrite_bufPool (s : BufMgr) (wr : Status) (f : FilePtr) (p : Int) (c : Page) :
    (s.storeWrite wr f p c).bufPool = s.bufPool := by
  unfold BufMgr.storeWrite; split <;> rfl

@[simp] theorem storeWrite_hashTable (s : BufMgr) (wr : Status) (f : FilePtr) (p : Int)
    (c : Page) : (s.storeWrite wr f p c).hashTable = s.hashTable := by
  unfold BufMgr.storeWrite; split <;> rfl

@[simp] theorem storeWrite_clockHand (s : BufMgr) (wr : Status) (f : FilePtr) (p : Int)
    (c : Page) : (s.storeWrite wr f p c).clockHand = s.clockHand := by
  unfold BufMgr.storeWrite; split <;> rfl

theorem storeWrite_disk_ok (s : BufMgr) (f : FilePtr) (p : Int) (c : Page) (g : FilePtr)
    (q : Int) :
    (s.storeWrite Status.OK f p c).disk g q = if g = f ∧ q = p then c else s.disk g q := rfl

theorem allocBuf_zero (s : BufMgr) (wr : Status) (h : s.numBufs = 0) :
    s.allocBuf wr = ⟨Status.BUFFEREXCEEDED, none, [], s⟩ := by
  unfold BufMgr.allocBuf
  rw [h]
  rfl

theorem allocBuf_post (s : BufMgr) (wr : Status) (h : Inv s) (hpos : 0 < s.numBufs) :
    AllocPost wr s (s.allocBuf wr) :=
  allocBufLoop_post wr s.numBufs s (h.hand hpos)

theorem clear_keeps_free (s : BufMgr) (f : Nat) (hv : (s.bufTable f).valid = false) :
    (s.bufTable f).Keeps (s.bufTable f).Clear :=
  ⟨hv.symm, fun h1 => absurd (hv.symm.trans h1) (by simp), pin_zero_range,
    fun _ => ⟨rfl, le_refl (0 : Int), rfl, Or.inl rfl⟩⟩

/-- A result described by `AllocPost` leaves a consistent state. -/
theorem AllocPost.inv_st {wr : Status} {s : BufMgr} {r : Res} (h : Inv s) (hp : AllocPost wr s r) :
    Inv r.st := by
  obtain ⟨h1, -, h3, h4⟩ := hp
  have hh : 0 < r.st.numBufs → r.st.clockHand < r.st.numBufs := fun _ => h1 ▸ h3
  rcases h4 with ⟨-, -, -, a4, -, a6⟩ | ⟨-, -, -, a4, -, a6, -⟩ |
    ⟨f, -, -, -, a4, -, a6, -, a8, a9, -⟩ | ⟨f, -, -, -, a4, -, -, -, a8, -, a10, a11, -⟩
  · exact h.of_keeps h1 hh a4 (fun i => h.keeps_of_sameButRef i (a6 i))
  · exact h.of_keeps h1 hh a4 (fun i => h.keeps_of_sameButRef i (a6 i))
  · refine h.of_keeps h1 hh a6 (fun i => ?_)
    by_cases hi : i = f
    · rw [hi, a8]
      exact clear_keeps_free s f a4
    · exact h.keeps_of_sameButRef i (a9 i hi)
  · refine h.drop f a4 h1 hh ?_ ?_ (fun i hi => h.keeps_of_sameButRef i (a11 i hi))
    · intro g p
      rw [a8, BufHashTbl.lookup_remove]
    · rw [a10]
      exact ⟨rfl, rfl, ⟨pin_zero_range.1, le_refl (0 : Int)⟩, rfl, Or.inl rfl⟩

theorem allocBuf_inv (s : BufMgr) (wr : Status) (h : Inv s) : Inv (s.allocBuf wr).st := by
  rcases Nat.eq_zero_or_pos s.numBufs with h0 | hpos
  · rw [allocBuf_zero s wr h0]
    exact h
  · exact (allocBuf_post s wr h hpos).inv_st h

/-- Outcome of `allocBuf` in a consistent state, as the callers see it: either
it fails and hands out no frame, or it returns `OK` with an invalid (cleared)
frame `f` below `numBufs`; a key that was absent from the index stays absent,
and every key other than the evicted one keeps its entry. -/
theorem allocBuf_outcome (s : BufMgr) (wr : Status) (h : Inv s) :
    ((s.allocBuf wr).status ≠ Status.OK ∧ (s.allocBuf wr).frame = none) ∨
    (∃ f, (s.allocBuf wr).status = Status.OK ∧ (s.allocBuf wr).frame = some f ∧
      f < s.numBufs ∧ ((s.allocBuf wr).st.bufTable f) = (s.bufTable f).Clear ∧
      ((s.bufTable f).valid = true → (s.bufTable f).pinCnt = 0) ∧
      (∀ i, i ≠ f → (s.bufTable i).sameButRef ((s.allocBuf wr).st.bufTable i)) ∧
      (∀ g p, (s.allocBuf wr).st.hashTable.lookup g p =
        if (s.bufTable f).valid = true ∧ g = (s.bufTable f).file ∧ p = (s.bufTable f).pageNo
        then none else s.hashTable.lookup g p)) := by
  rcases Nat.eq_zero_or_pos s.numBufs with h0 | hpos
  · rw [allocBuf_zero s wr h0]
    exact Or.inl ⟨by simp, rfl⟩
  · obtain ⟨-, -, -, h4⟩ := allocBuf_post s wr h hpos
    rcases h4 with ⟨a1, a2, -⟩ | ⟨a1, -, a3, -⟩ |
      ⟨f, a1, a2, a3, a4, -, a6, -, a8, a9, -⟩ |
      ⟨f, a1, a2, a3, a4, a5, -, -, a8, -, a10, a11, -⟩
    · exact Or.inl ⟨by rw [a1]; simp, a2⟩
    · exact Or.inl ⟨by rw [a1]; simp, a3⟩
    · refine Or.inr ⟨f, a1, a2, a3, a8, fun hv => absurd (a4.symm.trans hv) (by simp), a9, ?_⟩
      intro g p
      rw [a6, a4]
      simp
    · refine Or.inr ⟨f, a1, a2, a3, a10, fun _ => a5, a11, ?_⟩
      intro g p
      rw [a8, BufHashTbl.lookup_remove, a4]
      simp

/-! ### `readPage` case by case -/

theorem readPage_hit (s : BufMgr) (refInit : Bool) (wr rd : Status) (file : Nat) (PageNo : Int)
    (f : Nat) (h : s.hashTable.lookup (some file) PageNo = some f) :
    s.readPage refInit wr rd file PageNo =
      ⟨Status.OK, some f, [],
        s.setDesc f
          { s.bufTable f with pinCnt := wrapInt ((s.bufTable f).pinCnt + 1), refbit := true }⟩ := by
  unfold BufMgr.readPage
  rw [h]

theorem readPage_miss_fail (s : BufMgr) (refInit : Bool) (wr rd : Status) (file : Nat)
    (PageNo : Int) (h : s.hashTable.lookup (some file) PageNo = none)
    (hst : (s.allocBuf wr).status ≠ Status.OK) :
    s.readPage refInit wr rd file PageNo =
      ⟨(s.allocBuf wr).status, none, (s.allocBuf wr).calls, (s.allocBuf wr).st⟩ := by
  unfold BufMgr.readPage
  rw [h]
  simp only []
  split
  · next h1 _ => exact absurd h1 hst
  · rfl

theorem readPage_miss_rdfail (s : BufMgr) (refInit : Bool) (wr rd : Status) (file : Nat)
    (PageNo : Int) (f : Nat) (h : s.hashTable.lookup (some file) PageNo = none)
    (hst : (s.allocBuf wr).status = Status.OK) (hf : (s.allocBuf wr).frame = some f)
    (hrd : rd ≠ Status.OK) :
    s.readPage refInit wr rd file PageNo =
      ⟨rd, none, (s.allocBuf wr).calls ++ [StoreCall.readPage (some file) PageNo],
        (s.allocBuf wr).st⟩ := by
  unfold BufMgr.readPage
  rw [h]
  simp only []
  rw [hst, hf]
  simp only []
  rw [if_neg hrd]

theorem readPage_miss_ok (s : BufMgr) (refInit : Bool) (wr : Status) (file : Nat)
    (PageNo : Int) (f : Nat) (h : s.hashTable.lookup (some file) PageNo = none)
    (hst : (s.allocBuf wr).status = Status.OK) (hf : (s.allocBuf wr).frame = some f) :
    s.readPage refInit wr Status.OK file PageNo =
      ⟨((s.allocBuf wr).st.hashTable.insert (some file) PageNo f).1, some f,
        (s.allocBuf wr).calls ++ [StoreCall.readPage (some file) PageNo],
        { (s.allocBuf wr).st with
          bufPool := Function.update (s.allocBuf wr).st.bufPool f
            ((s.allocBuf wr).st.disk (some file) PageNo)
          hashTable := ((s.allocBuf wr).st.hashTable.insert (some file) PageNo f).2
          bufTable := Function.update (s.allocBuf wr).st.bufTable f
            (((s.allocBuf wr).st.bufTable f).Set refInit (some file) PageNo) }⟩ := by
  unfold BufMgr.readPage
  rw [h]
  simp only []
  rw [hst, hf]
  simp only [if_true]
  rfl

theorem allocBufLoop_numBufs (wr : Status) (k : Nat) (s : BufMgr) :
    (BufMgr.allocBufLoop wr k s).st.numBufs = s.numBufs := by
  induction k generalizing s with
  | zero => rfl
  | succ k ih =>
    unfold BufMgr.allocBufLoop
    simp only []
    split
    · rfl
    · split
      · rw [ih]; rfl
      · split
        · split
          · split
            · rfl
            · simp [BufMgr.evict]
          · rfl
        · rw [ih]; rfl

theorem allocBuf_numBufs (s : BufMgr) (wr : Status) : (s.allocBuf wr).st.numBufs = s.numBufs :=
  allocBufLoop_numBufs wr s.numBufs s

theorem BufHashTbl.remove_of_none (t : BufHashTbl) (file : FilePtr) (pageNo : Int)
    (h : t.lookup file pageNo = none) : (t.remove file pageNo).2 = t := by
  unfold BufHashTbl.lookup at h
  unfold BufHashTbl.remove
  rw [h]

theorem readPage_inv (s : BufMgr) (refInit : Bool) (wr rd : Status) (file : Nat) (PageNo : Int)
    (h : Inv s) : Inv (s.readPage refInit wr rd file PageNo).st := by
  cases hl : s.hashTable.lookup (some file) PageNo with
  | some f =>
    rw [readPage_hit s refInit wr rd file PageNo f hl]
    obtain ⟨-, e2, -, -⟩ := h.entry _ _ _ hl
    refine h.of_keeps rfl h.hand rfl (fun i => ?_)
    by_cases hi : i = f
    · rw [hi]
      simp only [BufMgr.setDesc, Function.update_same]
      exact ⟨rfl, fun _ => ⟨rfl, rfl⟩, wrapInt_range _,
        fun hv => absurd (e2.symm.trans hv) (by simp)⟩
    · simp only [BufMgr.setDesc, Function.update_noteq hi]
      exact h.keeps_refl i
  | none =>
    have hi := allocBuf_inv s wr h
    rcases allocBuf_outcome s wr h with ⟨a1, -⟩ | ⟨f, a1, a2, a3, a4, -, a6, a7⟩
    · rw [readPage_miss_fail s refInit wr rd file PageNo hl a1]
      exact hi
    · by_cases hrd : rd = Status.OK
      · subst hrd
        rw [readPage_miss_ok s refInit wr file PageNo f hl a1 a2]
        have hnone : (s.allocBuf wr).st.hashTable.lookup (some file) PageNo = none := by
          rw [a7, hl]; simp
        refine hi.install f file PageNo (by rw [a4]; rfl) (by rw [allocBuf_numBufs]; exact a3)
          hnone rfl hi.hand ((BufHashTbl.insert_of_none _ _ _ f hnone).2) ?_ ?_
        · simp only [Function.update_same]
          exact ⟨rfl, rfl, rfl, pin_one_range⟩
        · intro i hif
          simp only [Function.update_noteq hif]
          exact hi.keeps_refl i
      · rw [readPage_miss_rdfail s refInit wr rd file PageNo f hl a1 a2 hrd]
        exact hi

theorem unPinPage_inv (s : BufMgr) (file : Nat) (PageNo : Int) (dirty : Bool) (h : Inv s) :
    Inv (s.unPinPage file PageNo dirty).st := by
  unfold BufMgr.unPinPage
  cases hl : s.hashTable.lookup (some file) PageNo with
  | none => exact h
  | some f =>
    simp only []
    obtain ⟨-, e2, -, -⟩ := h.entry _ _ _ hl
    split
    · exact h
    · next hp =>
      refine h.of_keeps rfl h.hand rfl (fun i => ?_)
      by_cases hi : i = f
      · rw [hi]
        simp only [BufMgr.setDesc, Function.update_same]
        cases dirty
        · exact ⟨rfl, fun _ => ⟨rfl, rfl⟩, wrapInt_range _,
            fun hv => absurd (e2.symm.trans hv) (by simp)⟩
        · exact ⟨rfl, fun _ => ⟨rfl, rfl⟩, wrapInt_range _,
            fun hv => absurd (e2.symm.trans hv) (by simp)⟩
      · simp only [BufMgr.setDesc, Function.update_noteq hi]
        exact h.keeps_refl i

theorem allocPage_inv (s : BufMgr) (refInit : Bool) (al : Status) (newPage : Int) (wr : Status)
    (file : Nat) (h : Inv s) : Inv (s.allocPage refInit al newPage wr file).st := by
  unfold BufMgr.allocPage
  simp only []
  split
  · exact h
  · have hi := allocBuf_inv s wr h
    rcases allocBuf_outcome s wr h with ⟨a1, -⟩ | ⟨f, a1, a2, a3, a4, -, a6, a7⟩
    · split
      · next h1 _ => exact absurd h1 a1
      · exact hi
    · rw [a1, a2]
      simp only []
      cases hl : (s.allocBuf wr).st.hashTable.lookup (some file) newPage with
      | some j =>
        rw [BufHashTbl.insert_of_some _ _ _ f j hl]
        simp only [ne_eq, not_false_eq_true, if_true, reduceCtorEq]
        exact hi
      | none =>
        obtain ⟨i1, i2⟩ := BufHashTbl.insert_of_none _ (some file) newPage f hl
        rw [i1]
        simp only [ne_eq, not_true_eq_false, if_false]
        refine hi.install f file newPage (by rw [a4]; rfl) (by rw [allocBuf_numBufs]; exact a3)
          hl rfl hi.hand i2 ?_ ?_
        · simp only [BufMgr.setDesc, Function.update_same]
          exact ⟨rfl, rfl, rfl, pin_one_range⟩
        · intro i hif
          simp only [BufMgr.setDesc, Function.update_noteq hif]
          exact hi.keeps_refl i

theorem disposePage_inv (s : BufMgr) (dp : Status) (file : Nat) (pageNo : Int) (h : Inv s) :
    Inv (s.disposePage dp file pageNo).st := by
  unfold BufMgr.disposePage
  cases hl : s.hashTable.lookup (some file) pageNo with
  | none =>
    simp only []
    rw [BufHashTbl.remove_of_none _ _ _ hl]
    exact h
  | some f =>
    simp only []
    obtain ⟨-, e2, e3, e4⟩ := h.entry _ _ _ hl
    refine h.drop f e2 rfl h.hand ?_ ?_ ?_
    · intro g p
      simp only [BufMgr.setDesc]
      rw [BufHashTbl.lookup_remove, e3, e4]
    · simp only [BufMgr.setDesc, Function.update_same]
      exact ⟨rfl, rfl, ⟨pin_zero_range.1, le_refl (0 : Int)⟩, rfl, Or.inl rfl⟩
    · intro i hif
      simp only [BufMgr.setDesc, Function.update_noteq hif]
      exact h.keeps_refl i

theorem flushLoop_inv (wr : Nat → Status) (file : FilePtr) (todo : Nat) (i : Nat)
    (calls : List StoreCall) (s : BufMgr) (h : Inv s) :
    Inv (BufMgr.flushLoop wr file todo i calls s).st := by
  induction todo generalizing i calls s with
  | zero => exact h
  | succ todo ih =>
    unfold BufMgr.flushLoop
    simp only []
    split
    · next hc =>
      split
      · exact h
      · next hp =>
        have hp0 : (s.bufTable i).pinCnt ≤ 0 := not_lt.mp hp
        have hp1 := (h.pinRange i).1
        split
        · split
          · exact h
          · apply ih
            refine h.drop i hc.1 (by simp) (by simpa using h.hand) ?_ ?_ ?_
            · intro g p
              simp only [storeWrite_hashTable]
              rw [BufHashTbl.lookup_remove, hc.2]
            · refine ⟨?_, ?_, ⟨?_, ?_⟩, ?_, ?_⟩ <;> simp [hp0, hp1]
            · intro j hj
              simp only [storeWrite_bufTable, Function.update_noteq hj]
              exact h.keeps_refl j
        · next hd =>
          apply ih
          refine h.drop i hc.1 rfl h.hand ?_ ?_ ?_
          · intro g p
            simp only []
            rw [BufHashTbl.lookup_remove, hc.2]
          · refine ⟨?_, ?_, ⟨?_, ?_⟩, ?_, ?_⟩ <;> simp [hp0, hp1, hd]
          · intro j hj
            simp only [Function.update_noteq hj]
            exact h.keeps_refl j
    · split
      · exact h
      · exact ih _ _ _ h

theorem flushFile_inv (s : BufMgr) (wr : Nat → Status) (file : FilePtr) (h : Inv s) :
    Inv (s.flushFile wr file).st :=
  flushLoop_inv wr file s.numBufs 0 [] s h

theorem writeFrame_inv (s : BufMgr) (frame : Nat) (content : Page) (h : Inv s) :
    Inv (s.writeFrame frame content) :=
  h.of_keeps rfl h.hand rfl (fun i => h.keeps_refl i)

/-- Every reachable state is consistent. -/
theorem Reachable.toInv {refInit : Bool} {bufs : Nat} {s : BufMgr} (h : Reachable refInit bufs s) :
    Inv s := by
  induction h with
  | init disk => exact Inv.init bufs disk
  | readPage wr rd file PageNo _ ih => exact readPage_inv _ refInit wr rd file PageNo ih
  | unPinPage file PageNo dirty _ ih => exact unPinPage_inv _ file PageNo dirty ih
  | allocPage al newPage wr file _ ih => exact allocPage_inv _ refInit al newPage wr file ih
  | disposePage dp file pageNo _ ih => exact disposePage_inv _ dp file pageNo ih
  | flushFile wr file _ ih => exact flushFile_inv _ wr file ih
  | writeFrame frame content _ ih => exact writeFrame_inv _ frame content ih


/-! ## Further facts about `allocBuf` in a consistent state -/

theorem Inv.valid_of_pinned {s : BufMgr} (h : Inv s) (i : Nat) (hp : 0 < (s.bufTable i).pinCnt) :
    (s.bufTable i).valid = true := by
  apply bool_eq_true_of_ne_false
  intro hv
  have := (h.free i hv).2.1
  omega

/-- A frame with a positive pin count is left alone by `allocBuf`, up to its
reference bit, and stays in the index. -/
theorem allocBuf_keeps_pinned (s : BufMgr) (wr : Status) (h : Inv s) (i : Nat)
    (hp : 0 < (s.bufTable i).pinCnt) :
    (s.bufTable i).sameButRef ((s.allocBuf wr).st.bufTable i) ∧
      (s.allocBuf wr).st.hashTable.lookup (s.bufTable i).file (s.bufTable i).pageNo = some i := by
  have hv := h.valid_of_pinned i hp
  rcases Nat.eq_zero_or_pos s.numBufs with h0 | hpos
  · rw [allocBuf_zero s wr h0]
    exact ⟨BufDesc.sameButRef.refl _, h.resident i hv⟩
  · obtain ⟨-, -, -, h4⟩ := allocBuf_post s wr h hpos
    rcases h4 with ⟨-, -, -, a4, -, a6⟩ | ⟨-, -, -, a4, -, a6, -⟩ |
      ⟨f, -, -, -, a4, -, a6, -, -, a9, -⟩ | ⟨f, -, -, -, a4, a5, -, -, a8, -, -, a11, -⟩
    · exact ⟨a6 i, by rw [a4]; exact h.resident i hv⟩
    · exact ⟨a6 i, by rw [a4]; exact h.resident i hv⟩
    · have hif : i ≠ f := by
        intro hif
        rw [hif, a4] at hv
        exact absurd hv (by simp)
      exact ⟨a9 i hif, by rw [a6]; exact h.resident i hv⟩
    · have hif : i ≠ f := by
        intro hif
        rw [hif, a5] at hp
        exact absurd hp (lt_irrefl _)
      refine ⟨a11 i hif, ?_⟩
      rw [a8, BufHashTbl.lookup_remove, if_neg]
      · exact h.resident i hv
      · intro hk
        have h1 := h.resident i hv
        rw [hk.1, hk.2, h.resident f a4] at h1
        exact hif (Option.some.inj h1).symm

/-- The frame handed out by a successful `allocBuf` was invalid or unpinned. -/
theorem allocBuf_frame_free (s : BufMgr) (wr : Status) (h : Inv s)
    (hok : (s.allocBuf wr).status = Status.OK) :
    ∃ f, (s.allocBuf wr).frame = some f ∧ f < s.numBufs ∧
      ((s.bufTable f).valid = false ∨ (s.bufTable f).pinCnt = 0) := by
  rcases allocBuf_outcome s wr h with ⟨a1, -⟩ | ⟨f, -, a2, a3, -, a5, -, -⟩
  · exact absurd hok a1
  · refine ⟨f, a2, a3, ?_⟩
    cases hv : (s.bufTable f).valid
    · exact Or.inl rfl
    · exact Or.inr (a5 hv)

/-- When every frame is valid and pinned, `allocBuf` fails with
`BUFFEREXCEEDED`, calls the store not at all, and changes reference bits and
the clock hand only. -/
theorem allocBuf_all_pinned (s : BufMgr) (wr : Status) (h : Inv s)
    (hall : ∀ i, i < s.numBufs → (s.bufTable i).valid = true ∧ 0 < (s.bufTable i).pinCnt) :
    (s.allocBuf wr).status = Status.BUFFEREXCEEDED ∧ (s.allocBuf wr).frame = none ∧
      (s.allocBuf wr).calls = [] ∧ (s.allocBuf wr).st.hashTable = s.hashTable ∧
      (s.allocBuf wr).st.disk = s.disk ∧ (s.allocBuf wr).st.bufPool = s.bufPool ∧
      (s.allocBuf wr).st.numBufs = s.numBufs ∧
      ∀ i, (s.bufTable i).sameButRef ((s.allocBuf wr).st.bufTable i) := by
  rcases Nat.eq_zero_or_pos s.numBufs with h0 | hpos
  · rw [allocBuf_zero s wr h0]
    exact ⟨rfl, rfl, rfl, rfl, rfl, rfl, rfl, fun i => BufDesc.sameButRef.refl _⟩
  · obtain ⟨h1, h2, -, h4⟩ := allocBuf_post s wr h hpos
    rcases h4 with ⟨a1, a2, a3, a4, a5, a6⟩ | ⟨-, -, -, -, -, -, v, b1, -, b3, -⟩ |
      ⟨f, -, -, a3, a4, -⟩ | ⟨f, -, -, a3, -, a5, -⟩
    · exact ⟨a1, a2, a3, a4, a5, h2, h1, a6⟩
    · have := (hall v b1).2
      omega
    · have := (hall f a3).1
      rw [a4] at this
      exact absurd this (by simp)
    · have := (hall f a3).2
      omega

theorem allocBuf_bufPool (s : BufMgr) (wr : Status) (h : Inv s) :
    (s.allocBuf wr).st.bufPool = s.bufPool := by
  rcases Nat.eq_zero_or_pos s.numBufs with h0 | hpos
  · rw [allocBuf_zero s wr h0]
  · exact (allocBuf_post s wr h hpos).2.1

/-- A failed `allocBuf` changes reference bits and the clock hand only. -/
theorem allocBuf_fail_same (s : BufMgr) (wr : Status) (h : Inv s)
    (hst : (s.allocBuf wr).status ≠ Status.OK) :
    (s.allocBuf wr).st.hashTable = s.hashTable ∧ (s.allocBuf wr).st.disk = s.disk ∧
      ∀ i, (s.bufTable i).sameButRef ((s.allocBuf wr).st.bufTable i) := by
  rcases Nat.eq_zero_or_pos s.numBufs with h0 | hpos
  · rw [allocBuf_zero s wr h0]
    exact ⟨rfl, rfl, fun i => BufDesc.sameButRef.refl _⟩
  · obtain ⟨-, -, -, h4⟩ := allocBuf_post s wr h hpos
    rcases h4 with ⟨-, -, -, a4, a5, a6⟩ | ⟨-, -, -, a4, a5, a6, -⟩ | ⟨f, a1, -⟩ | ⟨f, a1, -⟩
    · exact ⟨a4, a5, a6⟩
    · exact ⟨a4, a5, a6⟩
    · exact absurd a1 hst
    · exact absurd a1 hst

/-- The store after a successful `allocBuf`: changed only by the write-back of
a dirty victim. -/
theorem allocBuf_ok_disk (s : BufMgr) (wr : Status) (h : Inv s) (f : Nat)
    (hf : (s.allocBuf wr).frame = some f) :
    (s.allocBuf wr).st.disk =
      if (s.bufTable f).valid = true ∧ (s.bufTable f).dirty = true then
        (s.storeWrite wr (s.bufTable f).file (s.bufTable f).pageNo (s.bufPool f)).disk
      else s.disk := by
  rcases Nat.eq_zero_or_pos s.numBufs with h0 | hpos
  · rw [allocBuf_zero s wr h0] at hf
    exact absurd hf (by simp)
  · obtain ⟨-, -, -, h4⟩ := allocBuf_post s wr h hpos
    rcases h4 with ⟨-, a2, -⟩ | ⟨-, -, a3, -⟩ | ⟨f1, -, a2, -, a4, -, -, a7, -⟩ |
      ⟨f1, -, a2, -, a4, -, -, -, -, a9, -⟩
    · rw [a2] at hf
      exact absurd hf (by simp)
    · rw [a3] at hf
      exact absurd hf (by simp)
    · rw [a2] at hf
      have hff : f1 = f := Option.some.inj hf
      subst hff
      rw [a7, a4]
      simp
    · rw [a2] at hf
      have hff : f1 = f := Option.some.inj hf
      subst hff
      rw [a9, a4]
      simp

/-- The effect of a successful `allocPage` on the frame it hands out. -/
theorem allocPage_ok_post (s : BufMgr) (refInit : Bool) (al : Status) (newPage : Int)
    (wr : Status) (file : Nat) (f : Nat) (h : Inv s)
    (hok : (s.allocPage refInit al newPage wr file).status = Status.OK)
    (hf : (s.allocPage refInit al newPage wr file).frame = some f) :
    f < s.numBufs ∧
    ((s.allocPage refInit al newPage wr file).st.bufTable f).valid = true ∧
    ((s.allocPage refInit al newPage wr file).st.bufTable f).file = some file ∧
    ((s.allocPage refInit al newPage wr file).st.bufTable f).pageNo = newPage ∧
    ((s.allocPage refInit al newPage wr file).st.bufTable f).pinCnt = 1 ∧
    ((s.allocPage refInit al newPage wr file).st.bufTable f).dirty = false ∧
    (s.allocPage refInit al newPage wr file).st.hashTable.lookup (some file) newPage = some f := by
  revert hok hf
  unfold BufMgr.allocPage
  simp only []
  split
  · intro hok
    exact absurd hok (by simp)
  · rcases allocBuf_outcome s wr h with ⟨a1, a2⟩ | ⟨f1, a1, a2, a3, a4, -, a6, a7⟩
    · split
      · next h1 _ => exact absurd h1 a1
      · intro hok
        exact absurd hok a1
    · rw [a1, a2]
      simp only []
      cases hl : (s.allocBuf wr).st.hashTable.lookup (some file) newPage with
      | some j =>
        rw [BufHashTbl.insert_of_some _ _ _ f1 j hl]
        simp only [ne_eq, not_false_eq_true, if_true, reduceCtorEq]
        intro hok
        exact absurd hok (by simp)
      | none =>
        obtain ⟨i1, i2⟩ := BufHashTbl.insert_of_none _ (some file) newPage f1 hl
        rw [i1]
        simp only [ne_eq, not_true_eq_false, if_false]
        intro _ hf
        have hff : f1 = f := Option.some.inj hf
        subst hff
        refine ⟨a3, ?_, ?_, ?_, ?_, ?_, ?_⟩
        · simp only [BufMgr.setDesc, Function.update_same]; rfl
        · simp only [BufMgr.setDesc, Function.update_same]; rfl
        · simp only [BufMgr.setDesc, Function.update_same]; rfl
        · simp only [BufMgr.setDesc, Function.update_same]; rfl
        · simp only [BufMgr.setDesc, Function.update_same]; rfl
        · simp only [BufMgr.setDesc]
          rw [i2, if_pos ⟨rfl, rfl⟩]

/-! ## Repeated fetches of a resident page -/

theorem fetchTimes_reachable {refInit : Bool} {bufs : Nat} {s : BufMgr}
    (h : Reachable refInit bufs s) (file : Nat) (PageNo : Int) (k : Nat) :
    Reachable refInit bufs (s.fetchTimes refInit file PageNo k) := by
  induction k with
  | zero => exact h
  | succ k ih => exact Reachable.readPage Status.OK Status.OK file PageNo ih

/-- After `k` fetches of a page resident in frame `f` the index, the other
frames and all fields of frame `f` but pin count and refbit are as before, and
the pin count is the old one plus `k`, wrapped to 32 bits. -/
theorem fetchTimes_spec (s : BufMgr) (refInit : Bool) (file : Nat) (PageNo : Int) (f : Nat)
    (hl : s.hashTable.lookup (some file) PageNo = some f)
    (hr : -2147483648 ≤ (s.bufTable f).pinCnt ∧ (s.bufTable f).pinCnt ≤ 2147483647) (k : Nat) :
    (s.fetchTimes refInit file PageNo k).hashTable = s.hashTable ∧
    (s.fetchTimes refInit file PageNo k).numBufs = s.numBufs ∧
    (∀ i, i ≠ f → (s.fetchTimes refInit file PageNo k).bufTable i = s.bufTable i) ∧
    ((s.fetchTimes refInit file PageNo k).bufTable f).valid = (s.bufTable f).valid ∧
    ((s.fetchTimes refInit file PageNo k).bufTable f).file = (s.bufTable f).file ∧
    ((s.fetchTimes refInit file PageNo k).bufTable f).pageNo = (s.bufTable f).pageNo ∧
    ((s.fetchTimes refInit file PageNo k).bufTable f).dirty = (s.bufTable f).dirty ∧
    ((s.fetchTimes refInit file PageNo k).bufTable f).pinCnt =
      wrapInt ((s.bufTable f).pinCnt + (k : Int)) := by
  induction k with
  | zero =>
    refine ⟨rfl, rfl, fun _ _ => rfl, rfl, rfl, rfl, rfl, ?_⟩
    show (s.bufTable f).pinCnt = wrapInt ((s.bufTable f).pinCnt + ((0 : Nat) : Int))
    rw [Int.ofNat_zero, Int.add_zero, wrapInt_of_range _ hr.1 hr.2]
  | succ k ih =>
    obtain ⟨i1, i2, i3, i4, i5, i6, i7, i8⟩ := ih
    have hl2 : (s.fetchTimes refInit file PageNo k).hashTable.lookup (some file) PageNo =
        some f := by rw [i1]; exact hl
    have e : s.fetchTimes refInit file PageNo (k + 1) =
        ((s.fetchTimes refInit file PageNo k).readPage refInit Status.OK Status.OK file
          PageNo).st := rfl
    rw [e, readPage_hit _ refInit Status.OK Status.OK file PageNo f hl2]
    refine ⟨i1, i2, ?_, ?_, ?_, ?_, ?_, ?_⟩
    · intro i hi
      simp only [BufMgr.setDesc, Function.update_noteq hi]
      exact i3 i hi
    · simp only [BufMgr.setDesc, Function.update_same]
      exact i4
    · simp only [BufMgr.setDesc, Function.update_same]
      exact i5
    · simp only [BufMgr.setDesc, Function.update_same]
      exact i6
    · simp only [BufMgr.setDesc, Function.update_same]
      exact i7
    · simp only [BufMgr.setDesc, Function.update_same]
      rw [i8, wrapInt_succ]
      congr 1
      push_cast
      ring

theorem unPinPage_notpinned (s : BufMgr) (file : Nat) (PageNo : Int) (dirty : Bool) (f : Nat)
    (hl : s.hashTable.lookup (some file) PageNo = some f) (hp : (s.bufTable f).pinCnt ≤ 0) :
    s.unPinPage file PageNo dirty = ⟨Status.PAGENOTPINNED, none, [], s⟩ := by
  unfold BufMgr.unPinPage
  rw [hl]
  simp only []
  rw [if_pos hp]

theorem exA_facts :
    (exA true).hashTable.lookup (some 1) 10 = some 2 ∧ ((exA true).bufTable 2).pinCnt = 1 ∧
      ((exA true).bufTable 2).valid = true ∧ ((exA true).bufTable 2).file = some 1 ∧
      ((exA true).bufTable 2).dirty = false ∧ (exA true).numBufs = 3 ∧
      ((exA true).bufTable 0).valid = false ∧ ((exA true).bufTable 0).file = none ∧
      ((exA true).bufTable 1).valid = false ∧ ((exA true).bufTable 1).file = none := by
  decide

theorem exMax_pinCnt : (exMax.bufTable 2).pinCnt = 2147483647 := by
  have h := (fetchTimes_spec (exA true) true 1 10 2 exA_facts.1
    (by rw [exA_facts.2.1]; exact pin_one_range) 2147483646).2.2.2.2.2.2.2
  rw [exA_facts.2.1] at h
  rw [show exMax = (exA true).fetchTimes true 1 10 2147483646 from rfl, h]
  unfold wrapInt
  norm_num

theorem exOver_pinCnt : (exOver.bufTable 2).pinCnt = -2147483648 := by
  have h := (fetchTimes_spec (exA true) true 1 10 2 exA_facts.1
    (by rw [exA_facts.2.1]; exact pin_one_range) 2147483647).2.2.2.2.2.2.2
  rw [exA_facts.2.1] at h
  rw [show exOver = (exA true).fetchTimes true 1 10 2147483647 from rfl, h]
  unfold wrapInt
  norm_num

theorem exMax_lookup : exMax.hashTable.lookup (some 1) 10 = some 2 := by
  have h := (fetchTimes_spec (exA true) true 1 10 2 exA_facts.1
    (by rw [exA_facts.2.1]; exact pin_one_range) 2147483646).1
  rw [show exMax = (exA true).fetchTimes true 1 10 2147483646 from rfl, h]
  exact exA_facts.1

theorem exOver_lookup : exOver.hashTable.lookup (some 1) 10 = some 2 := by
  have h := (fetchTimes_spec (exA true) true 1 10 2 exA_facts.1
    (by rw [exA_facts.2.1]; exact pin_one_range) 2147483647).1
  rw [show exOver = (exA true).fetchTimes true 1 10 2147483647 from rfl, h]
  exact exA_facts.1

/-! ## The content of a page survives fetches and unpins -/

/-- The write-back of an eviction does not touch the stored content of a page
that the victim frame does not hold. -/
theorem allocBuf_disk_other (s : BufMgr) (h : Inv s) (f1 : Nat) (file : Nat) (pageNo : Int)
    (hf : (s.allocBuf Status.OK).frame = some f1)
    (hne : (s.bufTable f1).valid = true →
      ¬ ((s.bufTable f1).file = some file ∧ (s.bufTable f1).pageNo = pageNo)) :
    (s.allocBuf Status.OK).st.disk (some file) pageNo = s.disk (some file) pageNo := by
  rw [allocBuf_ok_disk s Status.OK h f1 hf]
  split
  · next hvd =>
    rw [storeWrite_disk_ok, if_neg]
    intro hk
    exact hne hvd.1 ⟨hk.1.symm, hk.2.symm⟩
  · rfl

/-- A fetch of any page, with every store call succeeding, keeps the content
`c` of page (`file`, `pageNo`) safe. -/
theorem readPage_holds (s : BufMgr) (refInit : Bool) (file : Nat) (pageNo : Int)
    (c : Page) (g : Nat) (q : Int) (h : Inv s) (hh : Holds file pageNo c s) :
    Holds file pageNo c (s.readPage refInit Status.OK Status.OK g q).st := by
  cases hl : s.hashTable.lookup (some g) q with
  | some f1 =>
    rw [readPage_hit s refInit Status.OK Status.OK g q f1 hl]
    rcases hh with ⟨f, b1, b2, b3, b4, b5⟩ | ⟨b1, b2⟩
    · refine Or.inl ⟨f, ?_, ?_, ?_, b4, ?_⟩
      all_goals
        by_cases hff : f = f1
        · subst hff
          simp only [BufMgr.setDesc, Function.update_same]
          assumption
        · simp only [BufMgr.setDesc, Function.update_noteq hff]
          assumption
    · exact Or.inr ⟨b1, b2⟩
  | none =>
    have hpool := allocBuf_bufPool s Status.OK h
    rcases allocBuf_outcome s Status.OK h with ⟨a1, -⟩ | ⟨f1, a1, a2, a3, a4, -, a6, a7⟩
    · rw [readPage_miss_fail s refInit Status.OK Status.OK g q hl a1]
      obtain ⟨e1, e2, e3⟩ := allocBuf_fail_same s Status.OK h a1
      rcases hh with ⟨f, b1, b2, b3, b4, b5⟩ | ⟨b1, b2⟩
      · refine Or.inl ⟨f, (e3 f).valid_eq.trans b1, (e3 f).file_eq.trans b2,
          (e3 f).pageNo_eq.trans b3, by rw [hpool]; exact b4, ?_⟩
        rcases b5 with b5 | b5
        · exact Or.inl ((e3 f).dirty_eq.trans b5)
        · exact Or.inr (by rw [e2]; exact b5)
      · exact Or.inr ⟨by rw [e1]; exact b1, by rw [e2]; exact b2⟩
    · rw [readPage_miss_ok s refInit Status.OK g q f1 hl a1 a2]
      have hdisk := allocBuf_ok_disk s Status.OK h f1 a2
      have hgq : (s.allocBuf Status.OK).st.hashTable.lookup (some g) q = none := by
        rw [a7, hl]; simp
      have hins := (BufHashTbl.insert_of_none _ (some g) q f1 hgq).2
      rcases hh with ⟨f, b1, b2, b3, b4, b5⟩ | ⟨b1, b2⟩
      · have hlf : s.hashTable.lookup (some file) pageNo = some f := by
          have := h.resident f b1
          rw [b2, b3] at this
          exact this
        have hkey : ¬ ((some file : FilePtr) = some g ∧ pageNo = q) := by
          intro hk
          rw [← hk.1, ← hk.2, hlf] at hl
          exact absurd hl (by simp)
        by_cases hff : f = f1
        · subst hff
          refine Or.inr ⟨?_, ?_⟩
          · simp only []
            rw [hins, if_neg hkey, a7, if_pos ⟨b1, b2.symm, b3.symm⟩]
          · simp only []
            rw [hdisk]
            rcases b5 with b5 | b5
            · rw [if_pos ⟨b1, b5⟩, b2, b3, b4, storeWrite_disk_ok, if_pos ⟨rfl, rfl⟩]
            · split
              · rw [b2, b3, b4, storeWrite_disk_ok, if_pos ⟨rfl, rfl⟩]
              · exact b5
        · have hother : (s.bufTable f1).valid = true →
              ¬ ((s.bufTable f1).file = some file ∧ (s.bufTable f1).pageNo = pageNo) := by
            intro hv hk
            have := h.resident f1 hv
            rw [hk.1, hk.2, hlf] at this
            exact hff (Option.some.inj this)
          refine Or.inl ⟨f, ?_, ?_, ?_, ?_, ?_⟩
          · simp only [Function.update_noteq hff]
            exact (a6 f hff).valid_eq.trans b1
          · simp only [Function.update_noteq hff]
            exact (a6 f hff).file_eq.trans b2
          · simp only [Function.update_noteq hff]
            exact (a6 f hff).pageNo_eq.trans b3
          · simp only [Function.update_noteq hff]
            rw [hpool]
            exact b4
          · rcases b5 with b5 | b5
            · refine Or.inl ?_
              simp only [Function.update_noteq hff]
              exact (a6 f hff).dirty_eq.trans b5
            · refine Or.inr ?_
              simp only []
              rw [allocBuf_disk_other s h f1 file pageNo a2 hother]
              exact b5
      · have hother : (s.bufTable f1).valid = true →
            ¬ ((s.bufTable f1).file = some file ∧ (s.bufTable f1).pageNo = pageNo) := by
          intro hv hk
          have := h.resident f1 hv
          rw [hk.1, hk.2, b1] at this
          exact absurd this (by simp)
        have hd : (s.allocBuf Status.OK).st.disk (some file) pageNo = c :=
          (allocBuf_disk_other s h f1 file pageNo a2 hother).trans b2
        by_cases hkey : (some file : FilePtr) = some g ∧ pageNo = q
        · have hg : g = file := (Option.some.inj hkey.1).symm
          have hq : q = pageNo := hkey.2.symm
          subst hg
          subst hq
          refine Or.inl ⟨f1, ?_, ?_, ?_, ?_, Or.inr ?_⟩
          · simp only [Function.update_same]
            rfl
          · simp only [Function.update_same]
            rfl
          · simp only [Function.update_same]
            rfl
          · simp only [Function.update_same]
            exact hd
          · simp only []
            exact hd
        · refine Or.inr ⟨?_, ?_⟩
          · simp only []
            rw [hins, if_neg hkey, a7, b1]
            simp
          · simp only []
            exact hd

/-- What `unPinPage` leaves alone: page buffers, page store, index, and in
every descriptor the owner; a dirty frame stays dirty. -/
theorem unPinPage_keeps_page (s : BufMgr) (file : Nat) (PageNo : Int) (dirty : Bool) :
    (s.unPinPage file PageNo dirty).st.bufPool = s.bufPool ∧
    (s.unPinPage file PageNo dirty).st.disk = s.disk ∧
    (s.unPinPage file PageNo dirty).st.hashTable = s.hashTable ∧
    ∀ i, ((s.unPinPage file PageNo dirty).st.bufTable i).valid = (s.bufTable i).valid ∧
      ((s.unPinPage file PageNo dirty).st.bufTable i).file = (s.bufTable i).file ∧
      ((s.unPinPage file PageNo dirty).st.bufTable i).pageNo = (s.bufTable i).pageNo ∧
      ((s.bufTable i).dirty = true →
        ((s.unPinPage file PageNo dirty).st.bufTable i).dirty = true) := by
  unfold BufMgr.unPinPage
  cases hl : s.hashTable.lookup (some file) PageNo with
  | none => exact ⟨rfl, rfl, rfl, fun i => ⟨rfl, rfl, rfl, fun hd => hd⟩⟩
  | some f =>
    simp only []
    split
    · exact ⟨rfl, rfl, rfl, fun i => ⟨rfl, rfl, rfl, fun hd => hd⟩⟩
    · refine ⟨rfl, rfl, rfl, fun i => ?_⟩
      by_cases hi : i = f
      · rw [hi]
        cases dirty
        · simp [BufMgr.setDesc]
        · simp [BufMgr.setDesc]
      · simp [BufMgr.setDesc, Function.update_noteq hi]

/-- An unpin of any page keeps the content `c` of page (`file`, `pageNo`)
safe. -/
theorem unPinPage_holds (s : BufMgr) (file : Nat) (pageNo : Int) (c : Page) (g : Nat) (q : Int)
    (dirty : Bool) (hh : Holds file pageNo c s) :
    Holds file pageNo c (s.unPinPage g q dirty).st := by
  obtain ⟨e1, e2, e3, e4⟩ := unPinPage_keeps_page s g q dirty
  rcases hh with ⟨f, b1, b2, b3, b4, b5⟩ | ⟨b1, b2⟩
  · refine Or.inl ⟨f, (e4 f).1.trans b1, (e4 f).2.1.trans b2, (e4 f).2.2.1.trans b3,
      by rw [e1]; exact b4, ?_⟩
    rcases b5 with b5 | b5
    · exact Or.inl ((e4 f).2.2.2 b5)
    · exact Or.inr (by rw [e2]; exact b5)
  · exact Or.inr ⟨by rw [e3]; exact b1, by rw [e2]; exact b2⟩

/-- Fetches and unpins keep the state consistent and the content safe. -/
theorem FetchUnpin.keeps {refInit : Bool} {s t : BufMgr} (hseq : FetchUnpin refInit s t)
    (file : Nat) (pageNo : Int) (c : Page) (h : Inv s) (hh : Holds file pageNo c s) :
    Inv t ∧ Holds file pageNo c t := by
  induction hseq with
  | refl => exact ⟨h, hh⟩
  | fetch g q _ ih =>
    exact ⟨readPage_inv _ refInit Status.OK Status.OK g q ih.1,
      readPage_holds _ refInit file pageNo c g q ih.1 ih.2⟩
  | unpin g q dirty _ ih =>
    exact ⟨unPinPage_inv _ g q dirty ih.1, unPinPage_holds _ file pageNo c g q dirty ih.2⟩

/-- A successful fetch of a page whose content `c` is safe returns a frame
with content `c`. -/
theorem readPage_of_holds (s : BufMgr) (refInit : Bool) (file : Nat) (pageNo : Int) (c : Page)
    (g : Nat) (h : Inv s) (hh : Holds file pageNo c s)
    (hok : (s.readPage refInit Status.OK Status.OK file pageNo).status = Status.OK)
    (hg : (s.readPage refInit Status.OK Status.OK file pageNo).frame = some g) :
    (s.readPage refInit Status.OK Status.OK file pageNo).st.bufPool g = c := by
  rcases hh with ⟨f, b1, b2, b3, b4, -⟩ | ⟨b1, b2⟩
  · have hl : s.hashTable.lookup (some file) pageNo = some f := by
      have := h.resident f b1
      rw [b2, b3] at this
      exact this
    rw [readPage_hit s refInit Status.OK Status.OK file pageNo f hl] at hg ⊢
    have hgf : f = g := Option.some.inj hg
    rw [← hgf]
    exact b4
  · rcases allocBuf_outcome s Status.OK h with ⟨a1, -⟩ | ⟨f1, a1, a2, -, -, -, -, -⟩
    · rw [readPage_miss_fail s refInit Status.OK Status.OK file pageNo b1 a1] at hok
      exact absurd hok a1
    · rw [readPage_miss_ok s refInit Status.OK file pageNo f1 b1 a1 a2] at hg ⊢
      have hgf : f1 = g := Option.some.inj hg
      subst hgf
      simp only [Function.update_same]
      refine (allocBuf_disk_other s h f1 file pageNo a2 ?_).trans b2
      intro hv hk
      have := h.resident f1 hv
      rw [hk.1, hk.2, b1] at this
      exact absurd this (by simp)

theorem unPinPage_dirty_eq (s : BufMgr) (file : Nat) (PageNo : Int) (f : Nat)
    (hl : s.hashTable.lookup (some file) PageNo = some f) (hp : 0 < (s.bufTable f).pinCnt) :
    s.unPinPage file PageNo true =
      ⟨Status.OK, none, [],
        s.setDesc f
          { s.bufTable f with pinCnt := wrapInt ((s.bufTable f).pinCnt - 1), dirty := true }⟩ := by
  unfold BufMgr.unPinPage
  rw [hl]
  simp only []
  rw [if_neg (not_le.mpr hp)]
  rfl

/-! ## The loop of `flushFile` step by step -/

theorem flushLoop_skip (wr : Nat → Status) (file : FilePtr) (todo i : Nat)
    (calls : List StoreCall) (s : BufMgr)
    (hnot : ¬ ((s.bufTable i).valid = true ∧ (s.bufTable i).file = file))
    (hnb : ¬ ((s.bufTable i).valid = false ∧ (s.bufTable i).file = file)) :
    BufMgr.flushLoop wr file (todo + 1) i calls s =
      BufMgr.flushLoop wr file todo (i + 1) calls s := by
  rw [BufMgr.flushLoop]
  simp only []
  rw [if_neg hnot, if_neg hnb]

theorem flushLoop_badbuffer (wr : Nat → Status) (file : FilePtr) (todo i : Nat)
    (calls : List StoreCall) (s : BufMgr)
    (hb : (s.bufTable i).valid = false ∧ (s.bufTable i).file = file) :
    BufMgr.flushLoop wr file (todo + 1) i calls s = ⟨Status.BADBUFFER, none, calls, s⟩ := by
  have hnot : ¬ ((s.bufTable i).valid = true ∧ (s.bufTable i).file = file) := by
    intro h
    rw [hb.1] at h
    exact absurd h.1 (by simp)
  rw [BufMgr.flushLoop]
  simp only []
  rw [if_neg hnot, if_pos hb]

theorem flushLoop_pinned (wr : Nat → Status) (file : FilePtr) (todo i : Nat)
    (calls : List StoreCall) (s : BufMgr)
    (hv : (s.bufTable i).valid = true ∧ (s.bufTable i).file = file)
    (hp : (s.bufTable i).pinCnt > 0) :
    BufMgr.flushLoop wr file (todo + 1) i calls s = ⟨Status.PAGEPINNED, none, calls, s⟩ := by
  rw [BufMgr.flushLoop]
  simp only []
  rw [if_pos hv, if_pos hp]

theorem flushLoop_wrfail (wr : Nat → Status) (file : FilePtr) (todo i : Nat)
    (calls : List StoreCall) (s : BufMgr)
    (hv : (s.bufTable i).valid = true ∧ (s.bufTable i).file = file)
    (hp : ¬ (s.bufTable i).pinCnt > 0) (hd : (s.bufTable i).dirty = true)
    (hw : wr i ≠ Status.OK) :
    BufMgr.flushLoop wr file (todo + 1) i calls s =
      ⟨wr i, none,
        calls ++ [StoreCall.writePage (s.bufTable i).file (s.bufTable i).pageNo (s.bufPool i)],
        s⟩ := by
  rw [BufMgr.flushLoop]
  simp only []
  rw [if_pos hv, if_neg hp, if_pos hd, if_pos hw]

theorem flushed_of_clean (d : BufDesc) (hd : d.dirty = false) :
    ({ d with file := none, pageNo := -1, valid := false } : BufDesc) = d.flushed := by
  cases d
  simp only [BufDesc.flushed] at hd ⊢
  rw [hd]

theorem flushLoop_clean (wr : Nat → Status) (file : FilePtr) (todo i : Nat)
    (calls : List StoreCall) (s : BufMgr)
    (hv : (s.bufTable i).valid = true ∧ (s.bufTable i).file = file)
    (hp : ¬ (s.bufTable i).pinCnt > 0) (hd : ¬ (s.bufTable i).dirty = true) :
    BufMgr.flushLoop wr file (todo + 1) i calls s =
      BufMgr.flushLoop wr file todo (i + 1) calls (s.flushDrop file i) := by
  have hd0 : (s.bufTable i).dirty = false := by simpa using hd
  rw [BufMgr.flushLoop]
  simp only []
  rw [if_pos hv, if_neg hp, if_neg hd, flushed_of_clean _ hd0]
  rfl

theorem flushLoop_dirty (wr : Nat → Status) (file : FilePtr) (todo i : Nat)
    (calls : List StoreCall) (s : BufMgr)
    (hv : (s.bufTable i).valid = true ∧ (s.bufTable i).file = file)
    (hp : ¬ (s.bufTable i).pinCnt > 0) (hd : (s.bufTable i).dirty = true)
    (hw : wr i = Status.OK) :
    BufMgr.flushLoop wr file (todo + 1) i calls s =
      BufMgr.flushLoop wr file todo (i + 1)
        (calls ++ [StoreCall.writePage (s.bufTable i).file (s.bufTable i).pageNo (s.bufPool i)])
        ((s.storeWrite Status.OK (s.bufTable i).file (s.bufTable i).pageNo
          (s.bufPool i)).flushDrop file i) := by
  rw [BufMgr.flushLoop]
  simp only []
  rw [if_pos hv, if_neg hp, if_pos hd, if_neg (not_not.mpr hw), hw]
  rfl

theorem storeWrite_inv (s : BufMgr) (wr : Status) (f : FilePtr) (p : Int) (c : Page)
    (h : Inv s) : Inv (s.storeWrite wr f p c) :=
  h.of_keeps (by simp) (by simpa using h.hand) (by simp)
    (fun i => by rw [storeWrite_bufTable]; exact h.keeps_refl i)

theorem flushDrop_inv (s : BufMgr) (file : FilePtr) (i : Nat) (h : Inv s)
    (hv : (s.bufTable i).valid = true ∧ (s.bufTable i).file = file)
    (hp : ¬ (s.bufTable i).pinCnt > 0) : Inv (s.flushDrop file i) := by
  have hp0 : (s.bufTable i).pinCnt ≤ 0 := not_lt.mp hp
  refine h.drop i hv.1 rfl h.hand ?_ ?_ ?_
  · intro g p
    simp only [BufMgr.flushDrop]
    rw [BufHashTbl.lookup_remove, hv.2]
  · simp only [BufMgr.flushDrop, Function.update_same]
    exact ⟨rfl, rfl, ⟨(h.pinRange i).1, hp0⟩, rfl, Or.inl rfl⟩
  · intro j hj
    simp only [BufMgr.flushDrop, Function.update_noteq hj]
    exact h.keeps_refl j

theorem flushWrites_zero (file : Nat) (s : BufMgr) (lo : Nat) : flushWrites file s lo 0 = [] :=
  rfl

theorem flushWrites_succ_dirty (file : Nat) (s : BufMgr) (lo k : Nat)
    (hc : (s.bufTable lo).valid = true ∧ (s.bufTable lo).file = some file ∧
      (s.bufTable lo).dirty = true) :
    flushWrites file s lo (k + 1) =
      StoreCall.writePage (some file) (s.bufTable lo).pageNo (s.bufPool lo) ::
        flushWrites file s (lo + 1) k := by
  unfold flushWrites
  rw [List.range'_succ, List.filterMap_cons, if_pos hc]

theorem flushWrites_succ_skip (file : Nat) (s : BufMgr) (lo k : Nat)
    (hc : ¬ ((s.bufTable lo).valid = true ∧ (s.bufTable lo).file = some file ∧
      (s.bufTable lo).dirty = true)) :
    flushWrites file s lo (k + 1) = flushWrites file s (lo + 1) k := by
  unfold flushWrites
  rw [List.range'_succ, List.filterMap_cons, if_neg hc]

theorem flushWrites_congr (file : Nat) (s t : BufMgr) (lo k : Nat)
    (hb : ∀ j, lo ≤ j → t.bufTable j = s.bufTable j) (hp : t.bufPool = s.bufPool) :
    flushWrites file t lo k = flushWrites file s lo k := by
  unfold flushWrites
  apply List.filterMap_congr
  intro j hj
  rw [List.mem_range'_1] at hj
  rw [hb j hj.1, hp]

/-- Relation `FlushRel` extended downwards by a frame that is not a valid
frame of the file. -/
theorem FlushRel.skip {file : Nat} {lo hi : Nat} {s t : BufMgr}
    (hnot : ¬ ((s.bufTable lo).valid = true ∧ (s.bufTable lo).file = some file))
    (h : FlushRel file (lo + 1) hi s t) : FlushRel file lo hi s t := by
  obtain ⟨h1, h2, h3, r1, r2, r3, r4⟩ := h
  have hlo : ∀ j, lo ≤ j → (s.bufTable j).valid = true → (s.bufTable j).file = some file →
      lo + 1 ≤ j := by
    intro j hj hv hf
    rcases Nat.eq_or_lt_of_le hj with e | e
    · rw [← e] at hv hf
      exact absurd ⟨hv, hf⟩ hnot
    · exact e
  refine ⟨h1, h2, h3, ?_, ?_, ?_, ?_⟩
  · intro j hj hjh hv hf
    exact r1 j (hlo j hj hv hf) hjh hv hf
  · intro j hj
    apply r2
    intro hc
    exact hj ⟨Nat.le_of_succ_le hc.1, hc.2⟩
  · intro j hj hjh hv hf
    exact r3 j (hlo j hj hv hf) hjh hv hf
  · intro g q hk
    apply r4
    intro j hj hjh hv hf
    exact hk j (Nat.le_of_succ_le hj) hjh hv hf

/-- Relation `FlushRel` extended downwards by a frame of the file that has
been dropped on the way from `s` to `s2`. -/
theorem FlushRel.cons {file : Nat} {lo hi : Nat} {s t : BufMgr} (s2 : BufMgr) (hlt : lo < hi)
    (hv : (s.bufTable lo).valid = true ∧ (s.bufTable lo).file = some file)
    (e1 : s2.numBufs = s.numBufs) (e2 : s2.clockHand = s.clockHand)
    (e3 : s2.bufPool = s.bufPool)
    (e4 : s2.bufTable = Function.update s.bufTable lo (s.bufTable lo).flushed)
    (e5 : ∀ g q, s2.hashTable.lookup g q =
      if g = some file ∧ q = (s.bufTable lo).pageNo then none else s.hashTable.lookup g q)
    (h : FlushRel file (lo + 1) hi s2 t) : FlushRel file lo hi s t := by
  obtain ⟨h1, h2, h3, r1, r2, r3, r4⟩ := h
  have hne : ∀ j, j ≠ lo → s2.bufTable j = s.bufTable j := by
    intro j hj
    rw [e4, Function.update_noteq hj]
  have hlo2 : s2.bufTable lo = (s.bufTable lo).flushed := by
    rw [e4, Function.update_same]
  have hgt : ∀ j, lo + 1 ≤ j → s2.bufTable j = s.bufTable j :=
    fun j hj => hne j (by omega)
  refine ⟨h1.trans e1, h2.trans e2, h3.trans e3, ?_, ?_, ?_, ?_⟩
  · intro j hj hjh hvj hfj
    rcases Nat.eq_or_lt_of_le hj with e | e
    · rw [← e, ← hlo2]
      apply r2
      intro hc
      omega
    · have := r1 j e hjh (by rw [hgt j e]; exact hvj) (by rw [hgt j e]; exact hfj)
      rw [this, hgt j e]
  · intro j hj
    have hjl : j ≠ lo := by
      intro e
      rw [e] at hj
      exact hj ⟨le_refl _, hlt, hv.1, hv.2⟩
    rw [← hne j hjl]
    apply r2
    intro hc
    rw [hne j hjl] at hc
    exact hj ⟨Nat.le_of_succ_le hc.1, hc.2⟩
  · intro j hj hjh hvj hfj
    rcases Nat.eq_or_lt_of_le hj with e | e
    · rw [← e]
      by_cases hex : ∃ j2, lo + 1 ≤ j2 ∧ j2 < hi ∧ (s2.bufTable j2).valid = true ∧
          (s2.bufTable j2).file = some file ∧ (s.bufTable lo).pageNo = (s2.bufTable j2).pageNo
      · obtain ⟨j2, c1, c2, c3, c4, c5⟩ := hex
        rw [c5]
        exact r3 j2 c1 c2 c3 c4
      · rw [r4, e5, if_pos ⟨rfl, rfl⟩]
        intro j2 c1 c2 c3 c4 c5
        exact hex ⟨j2, c1, c2, c3, c4, c5.2⟩
    · have := r3 j e hjh (by rw [hgt j e]; exact hvj) (by rw [hgt j e]; exact hfj)
      rw [hgt j e] at this
      exact this
  · intro g q hk
    rw [r4, e5, if_neg (hk lo (le_refl _) hlt hv.1 hv.2)]
    intro j c1 c2 c3 c4
    rw [hgt j c1] at c3 c4 ⊢
    exact hk j (Nat.le_of_succ_le c1) c2 c3 c4

theorem FlushRel.same (file : Nat) (lo : Nat) (s : BufMgr) : FlushRel file lo lo s s := by
  refine ⟨rfl, rfl, rfl, ?_, fun _ _ => rfl, ?_, fun _ _ _ => rfl⟩
  · intro j h1 h2
    omega
  · intro j h1 h2
    omega

/-- The loop of `flushFile` runs through `k` frames in which every valid frame
of the file is unpinned and is written successfully if dirty: it reaches
index `lo + k` in a consistent state `t` that is `s` with the pages of the
file in these frames dropped, having made exactly the calls
`flushWrites file s lo k`. -/
theorem flushLoop_prefix (wr : Nat → Status) (file : Nat) (k : Nat) :
    ∀ (lo : Nat) (calls : List StoreCall) (s : BufMgr) (m : Nat), Inv s →
      (∀ j, lo ≤ j → j < lo + k → (s.bufTable j).valid = true →
        (s.bufTable j).file = some file →
        ¬ (s.bufTable j).pinCnt > 0 ∧ ((s.bufTable j).dirty = true → wr j = Status.OK)) →
      ∃ t, BufMgr.flushLoop wr (some file) (k + m) lo calls s =
          BufMgr.flushLoop wr (some file) m (lo + k) (calls ++ flushWrites file s lo k) t ∧
        Inv t ∧ FlushRel file lo (lo + k) s t := by
  induction k with
  | zero =>
    intro lo calls s m h _
    refine ⟨s, ?_, h, FlushRel.same file lo s⟩
    rw [flushWrites_zero, List.append_nil, Nat.zero_add]
    rfl
  | succ k ih =>
    intro lo calls s m h hgood
    have e : k + 1 + m = (k + m) + 1 := by omega
    have e2 : lo + (k + 1) = lo + 1 + k := by omega
    rw [e, e2]
    by_cases hv : (s.bufTable lo).valid = true ∧ (s.bufTable lo).file = some file
    · obtain ⟨hp, hw⟩ := hgood lo (le_refl _) (by omega) hv.1 hv.2
      by_cases hd : (s.bufTable lo).dirty = true
      · rw [flushLoop_dirty wr (some file) (k + m) lo calls s hv hp hd (hw hd)]
        have hi2 := flushDrop_inv _ (some file) lo
          (storeWrite_inv s Status.OK (s.bufTable lo).file (s.bufTable lo).pageNo (s.bufPool lo) h)
          hv hp
        have hb2 : ∀ j, lo + 1 ≤ j →
            ((s.storeWrite Status.OK (s.bufTable lo).file (s.bufTable lo).pageNo
              (s.bufPool lo)).flushDrop (some file) lo).bufTable j = s.bufTable j := by
          intro j hj
          have hjl : j ≠ lo := by omega
          simp only [BufMgr.flushDrop, Function.update_noteq hjl]
          rfl
        obtain ⟨t, ht, hit, hrel⟩ := ih (lo + 1)
          (calls ++ [StoreCall.writePage (s.bufTable lo).file (s.bufTable lo).pageNo
            (s.bufPool lo)]) _ m hi2
          (fun j c1 c2 c3 c4 => by
            rw [hb2 j c1] at c3 c4 ⊢
            exact hgood j (by omega) (by omega) c3 c4)
        refine ⟨t, ?_, hit, ?_⟩
        · rw [ht, flushWrites_congr file s _ (lo + 1) k hb2 rfl,
            flushWrites_succ_dirty file s lo k ⟨hv.1, hv.2, hd⟩, hv.2]
          simp
        · refine FlushRel.cons
            ((s.storeWrite Status.OK (s.bufTable lo).file (s.bufTable lo).pageNo
              (s.bufPool lo)).flushDrop (some file) lo) (by omega) hv rfl rfl rfl rfl ?_ hrel
          intro g q
          simp only [BufMgr.flushDrop]
          rw [BufHashTbl.lookup_remove]
          rfl
      · rw [flushLoop_clean wr (some file) (k + m) lo calls s hv hp hd]
        have hi2 := flushDrop_inv s (some file) lo h hv hp
        have hb2 : ∀ j, lo + 1 ≤ j → (s.flushDrop (some file) lo).bufTable j = s.bufTable j := by
          intro j hj
          have hjl : j ≠ lo := by omega
          simp only [BufMgr.flushDrop, Function.update_noteq hjl]
        obtain ⟨t, ht, hit, hrel⟩ := ih (lo + 1) calls _ m hi2
          (fun j c1 c2 c3 c4 => by
            rw [hb2 j c1] at c3 c4 ⊢
            exact hgood j (by omega) (by omega) c3 c4)
        refine ⟨t, ?_, hit, ?_⟩
        · rw [ht, flushWrites_congr file s _ (lo + 1) k hb2 rfl,
            flushWrites_succ_skip file s lo k (fun hc => hd hc.2.2)]
        · refine FlushRel.cons (s.flushDrop (some file) lo) (by omega) hv rfl rfl rfl rfl ?_ hrel
          intro g q
          simp only [BufMgr.flushDrop]
          rw [BufHashTbl.lookup_remove]
    · have hnb : ¬ ((s.bufTable lo).valid = false ∧ (s.bufTable lo).file = some file) := by
        intro hb
        have := (h.free lo hb.1).1
        rw [hb.2] at this
        exact absurd this (by simp)
      rw [flushLoop_skip wr (some file) (k + m) lo calls s hv hnb]
      obtain ⟨t, ht, hit, hrel⟩ := ih (lo + 1) calls s m h
        (fun j c1 c2 c3 c4 => hgood j (by omega) (by omega) c3 c4)
      refine ⟨t, ?_, hit, FlushRel.skip hv hrel⟩
      rw [ht, flushWrites_succ_skip file s lo k (fun hc => hv ⟨hc.1, hc.2.1⟩)]

/-- In a consistent state the loop of `flushFile` for a file that is not `NULL`
ends with `OK`, with `PAGEPINNED`, or with the failure status of a `writePage`
call it made: the `BADBUFFER` branch is never taken. -/
theorem flushLoop_status (wr : Nat → Status) (file : Nat) (todo : Nat) :
    ∀ (i : Nat) (calls : List StoreCall) (s : BufMgr), Inv s →
      (BufMgr.flushLoop wr (some file) todo i calls s).status = Status.OK ∨
      (BufMgr.flushLoop wr (some file) todo i calls s).status = Status.PAGEPINNED ∨
      ∃ j, (BufMgr.flushLoop wr (some file) todo i calls s).status = wr j ∧
        wr j ≠ Status.OK := by
  induction todo with
  | zero =>
    intro i calls s _
    exact Or.inl rfl
  | succ todo ih =>
    intro i calls s h
    by_cases hv : (s.bufTable i).valid = true ∧ (s.bufTable i).file = some file
    · by_cases hp : (s.bufTable i).pinCnt > 0
      · rw [flushLoop_pinned wr (some file) todo i calls s hv hp]
        exact Or.inr (Or.inl rfl)
      · by_cases hd : (s.bufTable i).dirty = true
        · by_cases hw : wr i = Status.OK
          · rw [flushLoop_dirty wr (some file) todo i calls s hv hp hd hw]
            exact ih _ _ _ (flushDrop_inv _ (some file) i
              (storeWrite_inv s Status.OK (s.bufTable i).file (s.bufTable i).pageNo
                (s.bufPool i) h) hv hp)
          · rw [flushLoop_wrfail wr (some file) todo i calls s hv hp hd hw]
            exact Or.inr (Or.inr ⟨i, rfl, hw⟩)
        · rw [flushLoop_clean wr (some file) todo i calls s hv hp hd]
          exact ih _ _ _ (flushDrop_inv s (some file) i h hv hp)
    · have hnb : ¬ ((s.bufTable i).valid = false ∧ (s.bufTable i).file = some file) := by
        intro hb
        have := (h.free i hb.1).1
        rw [hb.2] at this
        exact absurd this (by simp)
      rw [flushLoop_skip wr (some file) todo i calls s hv hnb]
      exact ih _ _ _ h

/-! ## Progress of the replacement loop -/

theorem allocBufLoop_step_free (wr : Status) (k : Nat) (s : BufMgr)
    (hv : (s.bufTable s.clockHand).valid = false) :
    (BufMgr.allocBufLoop wr (k + 1) s).status = Status.OK := by
  rw [BufMgr.allocBufLoop]
  simp only []
  rw [if_pos hv]

theorem allocBufLoop_step_ref (wr : Status) (k : Nat) (s : BufMgr)
    (hv : ¬ (s.bufTable s.clockHand).valid = false)
    (hr : (s.bufTable s.clockHand).refbit = true) :
    BufMgr.allocBufLoop wr (k + 1) s =
      BufMgr.allocBufLoop wr k
        (s.setDesc s.clockHand { s.bufTable s.clockHand with refbit := false }) := by
  rw [BufMgr.allocBufLoop]
  simp only []
  rw [if_neg hv, if_pos hr]

theorem allocBufLoop_step_pinned (wr : Status) (k : Nat) (s : BufMgr)
    (hv : ¬ (s.bufTable s.clockHand).valid = false)
    (hr : ¬ (s.bufTable s.clockHand).refbit = true)
    (hp : ¬ (s.bufTable s.clockHand).pinCnt = 0) :
    BufMgr.allocBufLoop wr (k + 1) s = BufMgr.allocBufLoop wr k s.advanceClock := by
  rw [BufMgr.allocBufLoop]
  simp only []
  rw [if_neg hv, if_neg hr, if_neg hp]

theorem allocBufLoop_step_victim (wr : Status) (k : Nat) (s : BufMgr)
    (hv : ¬ (s.bufTable s.clockHand).valid = false)
    (hr : ¬ (s.bufTable s.clockHand).refbit = true)
    (hp : (s.bufTable s.clockHand).pinCnt = 0) :
    (BufMgr.allocBufLoop wr (k + 1) s).status ≠ Status.BUFFEREXCEEDED ∧
      (wr ≠ Status.UNIXERR → (BufMgr.allocBufLoop wr (k + 1) s).status = Status.OK) := by
  rw [BufMgr.allocBufLoop]
  simp only []
  rw [if_neg hv, if_neg hr, if_pos hp]
  split
  · split
    · next hw => exact ⟨by simp, fun h => absurd hw h⟩
    · exact ⟨by simp, fun _ => rfl⟩
  · exact ⟨by simp, fun _ => rfl⟩

/-- A loop that has failed with `BUFFEREXCEEDED` after `a` attempts goes on
exactly where it stopped when it is given `b` more attempts. -/
theorem allocBufLoop_add (wr : Status) (a b : Nat) :
    ∀ s : BufMgr, (BufMgr.allocBufLoop wr a s).status = Status.BUFFEREXCEEDED →
      BufMgr.allocBufLoop wr (a + b) s =
        BufMgr.allocBufLoop wr b (BufMgr.allocBufLoop wr a s).st := by
  induction a with
  | zero =>
    intro s _
    rw [Nat.zero_add]
    rfl
  | succ a ih =>
    intro s hst
    have e : a + 1 + b = (a + b) + 1 := by omega
    rw [e]
    by_cases hv : (s.bufTable s.clockHand).valid = false
    · rw [allocBufLoop_step_free wr a s hv] at hst
      exact absurd hst (by simp)
    · by_cases hr : (s.bufTable s.clockHand).refbit = true
      · rw [allocBufLoop_step_ref wr a s hv hr] at hst ⊢
        rw [allocBufLoop_step_ref wr (a + b) s hv hr]
        exact ih _ hst
      · by_cases hp : (s.bufTable s.clockHand).pinCnt = 0
        · exact absurd hst (allocBufLoop_step_victim wr a s hv hr hp).1
        · rw [allocBufLoop_step_pinned wr a s hv hr hp] at hst ⊢
          rw [allocBufLoop_step_pinned wr (a + b) s hv hr hp]
          exact ih _ hst

theorem countP_clear_one (l : List Nat) (hnd : l.Nodup) (x : Nat) (hx : x ∈ l)
    (p q : Nat → Bool) (hp : p x = true) (hq : q x = false) (hne : ∀ j, j ≠ x → q j = p j) :
    l.countP q + 1 = l.countP p := by
  induction l with
  | nil => exact absurd hx (List.not_mem_nil x)
  | cons a l ih =>
    rw [List.nodup_cons] at hnd
    by_cases hax : a = x
    · subst hax
      have hcong : l.countP q = l.countP p := by
        apply List.countP_congr
        intro j hj
        have hja : j ≠ a := by
          intro e
          rw [e] at hj
          exact hnd.1 hj
        rw [hne j hja]
      rw [List.countP_cons, List.countP_cons, hp, hq, hcong]
      simp
    · have hxl : x ∈ l := by
        rcases List.mem_cons.mp hx with e | e
        · exact absurd e.symm hax
        · exact e
      have := ih hnd.2 hxl
      rw [List.countP_cons, List.countP_cons, hne a hax]
      omega

theorem refCount_le (s : BufMgr) : refCount s ≤ s.numBufs := by
  unfold refCount
  have := @List.countP_le_length _ (fun j => (s.bufTable j).refbit) (List.range s.numBufs)
  rw [List.length_range] at this
  exact this

theorem refCount_clear (s : BufMgr) (hh : s.clockHand < s.numBufs)
    (hr : (s.bufTable s.clockHand).refbit = true) :
    refCount (s.setDesc s.clockHand { s.bufTable s.clockHand with refbit := false }) + 1 =
      refCount s := by
  unfold refCount
  apply countP_clear_one (List.range s.numBufs) (List.nodup_range _) s.clockHand
    (List.mem_range.mpr hh)
  · exact hr
  · simp only [BufMgr.setDesc, Function.update_same]
  · intro j hj
    simp only [BufMgr.setDesc, Function.update_noteq hj]

theorem handDist_lt (s : BufMgr) (c : Nat) (hh : s.clockHand < s.numBufs) (hc : c < s.numBufs) :
    handDist s c < s.numBufs := by
  unfold handDist
  split <;> omega

theorem handDist_advance (s : BufMgr) (c : Nat) (hh : s.clockHand < s.numBufs)
    (hc : c < s.numBufs) (hne : s.clockHand ≠ c) :
    handDist s.advanceClock c + 1 = handDist s c := by
  unfold handDist BufMgr.advanceClock
  simp only []
  by_cases hl : s.clockHand + 1 < s.numBufs
  · rw [Nat.mod_eq_of_lt hl]
    split <;> split <;> omega
  · have e : s.clockHand + 1 = s.numBufs := by omega
    rw [e, Nat.mod_self]
    split <;> split <;> omega

/-- With successful writes, the loop returns `OK` as soon as its number of
attempts exceeds the number of set refbits plus the distance of the hand from
a frame that is invalid or unpinned. -/
theorem allocBufLoop_progress (k : Nat) :
    ∀ (s : BufMgr) (c : Nat), s.clockHand < s.numBufs → c < s.numBufs →
      ((s.bufTable c).valid = false ∨ (s.bufTable c).pinCnt = 0) →
      refCount s + handDist s c < k →
      (BufMgr.allocBufLoop Status.OK k s).status = Status.OK := by
  induction k with
  | zero =>
    intro s c _ _ _ hk
    exact absurd hk (Nat.not_lt_zero _)
  | succ k ih =>
    intro s c hh hc hfree hk
    by_cases hv : (s.bufTable s.clockHand).valid = false
    · exact allocBufLoop_step_free Status.OK k s hv
    · by_cases hr : (s.bufTable s.clockHand).refbit = true
      · rw [allocBufLoop_step_ref Status.OK k s hv hr]
        refine ih (s.setDesc s.clockHand { s.bufTable s.clockHand with refbit := false }) c hh hc
          ?_ ?_
        · by_cases hch : c = s.clockHand
          · rw [hch]
            simp only [BufMgr.setDesc, Function.update_same]
            rw [hch] at hfree
            exact hfree
          · simp only [BufMgr.setDesc, Function.update_noteq hch]
            exact hfree
        · have h1 := refCount_clear s hh hr
          have h2 : handDist
              (s.setDesc s.clockHand { s.bufTable s.clockHand with refbit := false }) c =
              handDist s c := rfl
          omega
      · by_cases hp : (s.bufTable s.clockHand).pinCnt = 0
        · exact (allocBufLoop_step_victim Status.OK k s hv hr hp).2 (by simp)
        · rw [allocBufLoop_step_pinned Status.OK k s hv hr hp]
          have hne : s.clockHand ≠ c := by
            intro e
            rw [← e] at hfree
            rcases hfree with h1 | h1
            · exact hv h1
            · exact hp h1
          have hpos : 0 < s.numBufs := Nat.lt_of_le_of_lt (Nat.zero_le _) hh
          refine ih s.advanceClock c (Nat.mod_lt _ hpos) hc hfree ?_
          have h1 := handDist_advance s c hh hc hne
          have h2 : refCount s.advanceClock = refCount s := rfl
          omega

theorem exA_reachable (refInit : Bool) : Reachable refInit 3 (exA refInit) :=
  Reachable.readPage Status.OK Status.OK 1 10 (Reachable.init exDisk)

theorem exABC_reachable (refInit : Bool) : Reachable refInit 3 (exABC refInit) :=
  Reachable.readPage Status.OK Status.OK 1 12
    (Reachable.readPage Status.OK Status.OK 1 11 (exA_reachable refInit))

/-! ## The claims -/

/-- C1 (identity invariant).  In every state reachable from a freshly
constructed buffer manager by `readPage`, `unPinPage`, `allocPage`,
`disposePage` and `flushFile` calls with arbitrary outcomes of the page store
(and by writes of callers into page buffers), every valid frame's
(file, pageNo) pair is held by no other valid frame, the identity index maps
that pair to exactly that frame, and every entry of the index points to a
frame below `numBufs` that is valid and holds the entry's pair. -/
theorem identity_invariant (refInit : Bool) (bufs : Nat) (s : BufMgr)
    (h : Reachable refInit bufs s) :
    (∀ i, i < s.numBufs → (s.bufTable i).valid = true →
      (∀ j, j < s.numBufs → (s.bufTable j).valid = true →
        (s.bufTable j).file = (s.bufTable i).file →
        (s.bufTable j).pageNo = (s.bufTable i).pageNo → j = i) ∧
      s.hashTable.lookup (s.bufTable i).file (s.bufTable i).pageNo = some i) ∧
    (∀ file pageNo i, s.hashTable.lookup file pageNo = some i →
      i < s.numBufs ∧ (s.bufTable i).valid = true ∧ (s.bufTable i).file = file ∧
        (s.bufTable i).pageNo = pageNo) := by
  have hi := h.toInv
  refine ⟨fun i _ hv => ⟨fun j _ hvj hf hp => ?_, hi.resident i hv⟩, hi.entry⟩
  have h1 := hi.resident j hvj
  rw [hf, hp, hi.resident i hv] at h1
  exact (Option.some.inj h1).symm

/-- Witness for C1: after one fetch in a pool of three frames the index maps
page 10 of file 1 to frame 2, and the entry for it is the valid frame 2. -/
theorem identity_invariant_witness :
    Reachable true 3 (exA true) ∧
      (exA true).hashTable.lookup (some 1) 10 = some 2 ∧
      (2 < (exA true).numBufs ∧ ((exA true).bufTable 2).valid = true ∧
        ((exA true).bufTable 2).file = some 1 ∧ ((exA true).bufTable 2).pageNo = 10) :=
  ⟨exA_reachable true,
    ((identity_invariant true 3 (exA true) (exA_reachable true)).1 2 (by decide) (by decide)).2,
    (identity_invariant true 3 (exA true) (exA_reachable true)).2 (some 1) 10 2 (by decide)⟩

/-- C2 (a pinned page is never evicted by replacement).  In every reachable
state and for every outcome of the page store: if `allocBuf` returns `OK` it
hands out a frame `f` that in the pre-state was not valid or had `pinCnt = 0`;
and every frame that had `pinCnt > 0` in the pre-state is, after the call,
still valid with the same file, pageNo, pinCnt and dirty flag, and its page is
still mapped to it by the identity index. -/
theorem pinned_never_evicted (refInit : Bool) (bufs : Nat) (s : BufMgr)
    (h : Reachable refInit bufs s) (wr : Status) :
    ((s.allocBuf wr).status = Status.OK →
      ∃ f, (s.allocBuf wr).frame = some f ∧ f < s.numBufs ∧
        ((s.bufTable f).valid = false ∨ (s.bufTable f).pinCnt = 0)) ∧
    (∀ i, i < s.numBufs → 0 < (s.bufTable i).pinCnt →
      ((s.allocBuf wr).st.bufTable i).valid = true ∧
      ((s.allocBuf wr).st.bufTable i).file = (s.bufTable i).file ∧
      ((s.allocBuf wr).st.bufTable i).pageNo = (s.bufTable i).pageNo ∧
      ((s.allocBuf wr).st.bufTable i).pinCnt = (s.bufTable i).pinCnt ∧
      ((s.allocBuf wr).st.bufTable i).dirty = (s.bufTable i).dirty ∧
      (s.allocBuf wr).st.hashTable.lookup (s.bufTable i).file (s.bufTable i).pageNo = some i) := by
  have hi := h.toInv
  refine ⟨allocBuf_frame_free s wr hi, fun i _ hp => ?_⟩
  obtain ⟨k, hl⟩ := allocBuf_keeps_pinned s wr hi i hp
  exact ⟨k.valid_eq.trans (hi.valid_of_pinned i hp), k.file_eq, k.pageNo_eq, k.pinCnt_eq,
    k.dirty_eq, hl⟩

/-- Witness for C2: with page 10 pinned in frame 2 of a pool of three frames,
`allocBuf` hands out frame 0 and frame 2 still holds page 10, pinned once. -/
theorem pinned_never_evicted_witness :
    Reachable true 3 (exA true) ∧
      (((exA true).allocBuf Status.OK).st.bufTable 2).valid = true ∧
      (((exA true).allocBuf Status.OK).st.bufTable 2).pinCnt = ((exA true).bufTable 2).pinCnt ∧
      ((exA true).allocBuf Status.OK).st.hashTable.lookup (some 1) 10 = some 2 :=
  ⟨exA_reachable true,
    ((pinned_never_evicted true 3 (exA true) (exA_reachable true) Status.OK).2 2 (by decide)
      (by decide)).1,
    ((pinned_never_evicted true 3 (exA true) (exA_reachable true) Status.OK).2 2 (by decide)
      (by decide)).2.2.2.1,
    ((pinned_never_evicted true 3 (exA true) (exA_reachable true) Status.OK).2 2 (by decide)
      (by decide)).2.2.2.2.2⟩

/-- C3 (the code fails the claim).  `allocBuf` returns `BUFFEREXCEEDED` although
a frame is unpinned: in a reachable pool of one frame whose page was fetched
twice and unpinned twice, the frame is valid with `pinCnt = 0`, the store
reports no failure, and yet `allocBuf` and a `readPage` of another page return
`BUFFEREXCEEDED`, whatever reference bit `Set` installs.  In the scenario
of three frames (fetch 10, 11, 12, fail to fetch 13, unpin 10) the next
`readPage` of page 13 returns `BUFFEREXCEEDED` when `Set` installs a set
reference bit, and only the retry after it succeeds in frame 2; it succeeds at
once in frame 2 when `Set` installs a clear reference bit. -/
theorem allocBuf_exceeded_with_unpinned_frame :
    ∀ refInit : Bool,
      Reachable refInit 1 (exOne refInit) ∧
      (1 ≤ (exOne refInit).numBufs ∧ ((exOne refInit).bufTable 0).valid = true ∧
        ((exOne refInit).bufTable 0).pinCnt = 0 ∧
        ((exOne refInit).allocBuf Status.OK).status = Status.BUFFEREXCEEDED ∧
        ((exOne refInit).readPage refInit Status.OK Status.OK 1 11).status =
          Status.BUFFEREXCEEDED) ∧
      (((exABC true).readPage true Status.OK Status.OK 1 13).status = Status.BUFFEREXCEEDED ∧
        ((exScenario true).bufTable 2).pinCnt = 0 ∧
        ((exScenario true).readPage true Status.OK Status.OK 1 13).status =
          Status.BUFFEREXCEEDED ∧
        ((((exScenario true).readPage true Status.OK Status.OK 1 13).st).readPage true Status.OK
          Status.OK 1 13).frame = some 2 ∧
        ((exScenario false).readPage false Status.OK Status.OK 1 13).status = Status.OK ∧
        ((exScenario false).readPage false Status.OK Status.OK 1 13).frame = some 2) := by
  intro refInit
  refine ⟨?_, ?_, ?_⟩
  · exact Reachable.unPinPage 1 10 false (Reachable.unPinPage 1 10 false
      (Reachable.readPage Status.OK Status.OK 1 10
        (Reachable.readPage Status.OK Status.OK 1 10 (Reachable.init exDisk))))
  · cases refInit <;> decide
  · decide

/-- C4 (every frame pinned).  In a reachable state in which every frame is
valid and has `pinCnt > 0`, `allocBuf` returns `BUFFEREXCEEDED`, makes no call
to the page store, and leaves the identity index, the store, the page buffers
and every frame's valid, file, pageNo, pinCnt and dirty fields unchanged; and
so does `readPage` of a page that is not resident. -/
theorem all_pinned_pool_exhausted (refInit : Bool) (bufs : Nat) (s : BufMgr)
    (h : Reachable refInit bufs s)
    (hall : ∀ i, i < s.numBufs → (s.bufTable i).valid = true ∧ 0 < (s.bufTable i).pinCnt)
    (wr rd : Status) :
    ((s.allocBuf wr).status = Status.BUFFEREXCEEDED ∧ (s.allocBuf wr).calls = [] ∧
      (s.allocBuf wr).st.hashTable = s.hashTable ∧ (s.allocBuf wr).st.disk = s.disk ∧
      (s.allocBuf wr).st.bufPool = s.bufPool ∧
      ∀ i, ((s.allocBuf wr).st.bufTable i).valid = (s.bufTable i).valid ∧
        ((s.allocBuf wr).st.bufTable i).file = (s.bufTable i).file ∧
        ((s.allocBuf wr).st.bufTable i).pageNo = (s.bufTable i).pageNo ∧
        ((s.allocBuf wr).st.bufTable i).pinCnt = (s.bufTable i).pinCnt ∧
        ((s.allocBuf wr).st.bufTable i).dirty = (s.bufTable i).dirty) ∧
    (∀ (file : Nat) (PageNo : Int), s.hashTable.lookup (some file) PageNo = none →
      (s.readPage refInit wr rd file PageNo).status = Status.BUFFEREXCEEDED ∧
      (s.readPage refInit wr rd file PageNo).calls = [] ∧
      (s.readPage refInit wr rd file PageNo).st.hashTable = s.hashTable ∧
      (s.readPage refInit wr rd file PageNo).st.disk = s.disk ∧
      (s.readPage refInit wr rd file PageNo).st.bufPool = s.bufPool ∧
      ∀ i, ((s.readPage refInit wr rd file PageNo).st.bufTable i).valid = (s.bufTable i).valid ∧
        ((s.readPage refInit wr rd file PageNo).st.bufTable i).file = (s.bufTable i).file ∧
        ((s.readPage refInit wr rd file PageNo).st.bufTable i).pageNo = (s.bufTable i).pageNo ∧
        ((s.readPage refInit wr rd file PageNo).st.bufTable i).pinCnt = (s.bufTable i).pinCnt ∧
        ((s.readPage refInit wr rd file PageNo).st.bufTable i).dirty = (s.bufTable i).dirty) := by
  obtain ⟨a1, -, a3, a4, a5, a6, -, a8⟩ := allocBuf_all_pinned s wr h.toInv hall
  have hf : ∀ i, ((s.allocBuf wr).st.bufTable i).valid = (s.bufTable i).valid ∧
      ((s.allocBuf wr).st.bufTable i).file = (s.bufTable i).file ∧
      ((s.allocBuf wr).st.bufTable i).pageNo = (s.bufTable i).pageNo ∧
      ((s.allocBuf wr).st.bufTable i).pinCnt = (s.bufTable i).pinCnt ∧
      ((s.allocBuf wr).st.bufTable i).dirty = (s.bufTable i).dirty :=
    fun i => ⟨(a8 i).valid_eq, (a8 i).file_eq, (a8 i).pageNo_eq, (a8 i).pinCnt_eq, (a8 i).dirty_eq⟩
  refine ⟨⟨a1, a3, a4, a5, a6, hf⟩, fun file PageNo hl => ?_⟩
  rw [readPage_miss_fail s refInit wr rd file PageNo hl (by rw [a1]; simp)]
  exact ⟨a1, a3, a4, a5, a6, hf⟩

/-- Witness for C4: three pinned pages in a pool of three frames; the fetch of a
fourth page returns `BUFFEREXCEEDED` without any call to the store. -/
theorem all_pinned_pool_exhausted_witness :
    (Reachable true 3 (exABC true) ∧
      ∀ i, i < (exABC true).numBufs →
        ((exABC true).bufTable i).valid = true ∧ 0 < ((exABC true).bufTable i).pinCnt) ∧
    ((exABC true).readPage true Status.OK Status.OK 1 13).status = Status.BUFFEREXCEEDED ∧
    ((exABC true).readPage true Status.OK Status.OK 1 13).calls = [] :=
  ⟨⟨exABC_reachable true, by decide⟩,
    ((all_pinned_pool_exhausted true 3 (exABC true) (exABC_reachable true) (by decide) Status.OK
      Status.OK).2 1 13 (by decide)).1,
    ((all_pinned_pool_exhausted true 3 (exABC true) (exABC_reachable true) (by decide) Status.OK
      Status.OK).2 1 13 (by decide)).2.1⟩

theorem exMax_reachable : Reachable true 3 exMax :=
  fetchTimes_reachable (exA_reachable true) 1 10 2147483646

theorem exOver_reachable : Reachable true 3 exOver :=
  fetchTimes_reachable (exA_reachable true) 1 10 2147483647

/-- Counterexample for C5 as stated: page 10 of file 1, resident in frame 2, has
been fetched 2147483648 times without an unpin, so that its 32-bit pin count
has wrapped to `-2147483648`.  The page is in the index and its `pinCnt` is
not 0, and yet `unPinPage` does not return `OK` but `PAGENOTPINNED`. -/
theorem unPinPage_overflow_counterexample :
    Reachable true 3 exOver ∧ exOver.hashTable.lookup (some 1) 10 = some 2 ∧
      (exOver.bufTable 2).pinCnt = -2147483648 ∧ ¬ (exOver.bufTable 2).pinCnt = 0 ∧
      (exOver.unPinPage 1 10 false).status = Status.PAGENOTPINNED ∧
      ¬ (exOver.unPinPage 1 10 false).status = Status.OK := by
  have hp : (exOver.bufTable 2).pinCnt ≤ 0 := by
    rw [exOver_pinCnt]
    decide
  refine ⟨exOver_reachable, exOver_lookup, exOver_pinCnt, ?_, ?_, ?_⟩
  · rw [exOver_pinCnt]
    decide
  · rw [unPinPage_notpinned exOver 1 10 false 2 exOver_lookup hp]
  · rw [unPinPage_notpinned exOver 1 10 false 2 exOver_lookup hp]
    decide

/-- C5, amended (`unPinPage`).  In every reachable state,
`unPinPage(file, PageNo, dirty)` returns `HASHNOTFOUND` and changes nothing if
the page is not in the index; returns `PAGENOTPINNED` and changes nothing if
the resident frame's `pinCnt` is 0 or negative; otherwise (`pinCnt > 0`)
returns `OK`, lowers that frame's `pinCnt` by exactly 1 to a value that is not
negative, sets `dirty` to (old dirty or the argument), and leaves refbit,
valid, file, pageNo, the index, the clock hand, the page buffers, the store
and all other frames unchanged.  No call to the page store is made. -/
theorem unPinPage_spec (refInit : Bool) (bufs : Nat) (s : BufMgr)
    (h : Reachable refInit bufs s) (file : Nat) (PageNo : Int) (dirty : Bool) :
    (s.unPinPage file PageNo dirty).calls = [] ∧
    (s.hashTable.lookup (some file) PageNo = none →
      (s.unPinPage file PageNo dirty).status = Status.HASHNOTFOUND ∧
      (s.unPinPage file PageNo dirty).st = s) ∧
    (∀ f, s.hashTable.lookup (some file) PageNo = some f → (s.bufTable f).pinCnt ≤ 0 →
      (s.unPinPage file PageNo dirty).status = Status.PAGENOTPINNED ∧
      (s.unPinPage file PageNo dirty).st = s) ∧
    (∀ f, s.hashTable.lookup (some file) PageNo = some f → 0 < (s.bufTable f).pinCnt →
      (s.unPinPage file PageNo dirty).status = Status.OK ∧
      ((s.unPinPage file PageNo dirty).st.bufTable f).pinCnt = (s.bufTable f).pinCnt - 1 ∧
      0 ≤ ((s.unPinPage file PageNo dirty).st.bufTable f).pinCnt ∧
      ((s.unPinPage file PageNo dirty).st.bufTable f).dirty = ((s.bufTable f).dirty || dirty) ∧
      ((s.unPinPage file PageNo dirty).st.bufTable f).refbit = (s.bufTable f).refbit ∧
      ((s.unPinPage file PageNo dirty).st.bufTable f).valid = (s.bufTable f).valid ∧
      ((s.unPinPage file PageNo dirty).st.bufTable f).file = (s.bufTable f).file ∧
      ((s.unPinPage file PageNo dirty).st.bufTable f).pageNo = (s.bufTable f).pageNo ∧
      ((s.unPinPage file PageNo dirty).st.bufTable f).frameNo = (s.bufTable f).frameNo ∧
      (∀ i, i ≠ f → (s.unPinPage file PageNo dirty).st.bufTable i = s.bufTable i) ∧
      (s.unPinPage file PageNo dirty).st.hashTable = s.hashTable ∧
      (s.unPinPage file PageNo dirty).st.clockHand = s.clockHand ∧
      (s.unPinPage file PageNo dirty).st.bufPool = s.bufPool ∧
      (s.unPinPage file PageNo dirty).st.disk = s.disk ∧
      (s.unPinPage file PageNo dirty).st.numBufs = s.numBufs) := by
  have hi := h.toInv
  refine ⟨?_, ?_, ?_, ?_⟩
  · unfold BufMgr.unPinPage
    split
    · rfl
    · simp only []
      split <;> rfl
  · intro hl
    unfold BufMgr.unPinPage
    rw [hl]
    exact ⟨rfl, rfl⟩
  · intro f hl hp
    rw [unPinPage_notpinned s file PageNo dirty f hl hp]
    exact ⟨rfl, rfl⟩
  · intro f hl hp
    have hpos : ¬ (s.bufTable f).pinCnt ≤ 0 := not_le.mpr hp
    have hw : wrapInt ((s.bufTable f).pinCnt - 1) = (s.bufTable f).pinCnt - 1 := by
      have := (hi.pinRange f).2
      apply wrapInt_of_range <;> omega
    unfold BufMgr.unPinPage
    rw [hl]
    simp only []
    rw [if_neg hpos, hw]
    refine ⟨rfl, ?_, ?_, ?_, ?_, ?_, ?_, ?_, ?_, ?_, rfl, rfl, rfl, rfl, rfl⟩
    all_goals simp only [BufMgr.setDesc, Function.update_same]
    · cases dirty <;> rfl
    · have : (0 : Int) ≤ (s.bufTable f).pinCnt - 1 := by omega
      cases dirty <;> exact this
    · cases dirty <;> simp
    · cases dirty <;> rfl
    · cases dirty <;> rfl
    · cases dirty <;> rfl
    · cases dirty <;> rfl
    · cases dirty <;> rfl
    · intro i hif
      exact Function.update_noteq hif _ _

/-- Witness for C5: unpinning the once-pinned page 10 returns `OK` and leaves
its pin count at 0; unpinning page 11, which is not resident, returns
`HASHNOTFOUND`. -/
theorem unPinPage_spec_witness :
    (Reachable true 3 (exA true) ∧ (exA true).hashTable.lookup (some 1) 10 = some 2 ∧
      0 < ((exA true).bufTable 2).pinCnt ∧ (exA true).hashTable.lookup (some 1) 11 = none) ∧
    ((exA true).unPinPage 1 10 true).status = Status.OK ∧
    ((((exA true).unPinPage 1 10 true).st.bufTable 2).pinCnt =
      ((exA true).bufTable 2).pinCnt - 1) ∧
    ((exA true).unPinPage 1 11 true).status = Status.HASHNOTFOUND :=
  ⟨⟨exA_reachable true, by decide, by decide, by decide⟩,
    ((unPinPage_spec true 3 (exA true) (exA_reachable true) 1 10 true).2.2.2 2 (by decide)
      (by decide)).1,
    ((unPinPage_spec true 3 (exA true) (exA_reachable true) 1 10 true).2.2.2 2 (by decide)
      (by decide)).2.1,
    ((unPinPage_spec true 3 (exA true) (exA_reachable true) 1 11 true).2.1 (by decide)).1⟩

/-- Counterexample for C6 as stated: page 10 of file 1, resident in frame 2, has
been fetched 2147483647 times without an unpin, so that its pin count is the
largest 32-bit `int`, 2147483647.  One more `readPage` of the page does not
raise the pin count by 1: the count wraps to `-2147483648`. -/
theorem readPage_overflow_counterexample :
    Reachable true 3 exMax ∧ exMax.hashTable.lookup (some 1) 10 = some 2 ∧
      (exMax.bufTable 2).pinCnt = 2147483647 ∧
      ((exMax.readPage true Status.OK Status.OK 1 10).st.bufTable 2).pinCnt = -2147483648 ∧
      ¬ ((exMax.readPage true Status.OK Status.OK 1 10).st.bufTable 2).pinCnt =
        (exMax.bufTable 2).pinCnt + 1 := by
  have hnew : ((exMax.readPage true Status.OK Status.OK 1 10).st.bufTable 2).pinCnt =
      -2147483648 := by
    rw [readPage_hit exMax true Status.OK Status.OK 1 10 2 exMax_lookup]
    simp only [BufMgr.setDesc, Function.update_same]
    rw [exMax_pinCnt]
    unfold wrapInt
    norm_num
  refine ⟨exMax_reachable, exMax_lookup, exMax_pinCnt, hnew, ?_⟩
  rw [hnew, exMax_pinCnt]
  decide

/-- C6, amended (`readPage` of a resident page).  In a reachable state, if the
index maps (file, PageNo) to frame `f`, `readPage` returns `OK` with a
reference to frame `f`, sets that frame's refbit, makes no call to the page
store and changes nothing but the frame's pin count and refbit (index, clock
hand, dirty flag, identity, page buffers, store, other frames); the pin count
is raised by exactly 1 as long as it is below 2147483647, the largest value of
the 32-bit `int` (there it wraps to `-2147483648`).  A second `readPage` of the
same page again returns `OK` with frame `f` and no call to the store, and
leaves the pin count raised by exactly 2 as long as it was below
2147483646. -/
theorem readPage_resident (refInit : Bool) (bufs : Nat) (s : BufMgr)
    (h : Reachable refInit bufs s) (wr rd wr2 rd2 : Status) (file : Nat)
    (PageNo : Int) (f : Nat) (hl : s.hashTable.lookup (some file) PageNo = some f) :
    ((s.readPage refInit wr rd file PageNo).status = Status.OK ∧
      (s.readPage refInit wr rd file PageNo).frame = some f ∧
      (s.readPage refInit wr rd file PageNo).calls = [] ∧
      ((s.readPage refInit wr rd file PageNo).st.bufTable f).pinCnt =
        wrapInt ((s.bufTable f).pinCnt + 1) ∧
      ((s.bufTable f).pinCnt < 2147483647 →
        ((s.readPage refInit wr rd file PageNo).st.bufTable f).pinCnt =
          (s.bufTable f).pinCnt + 1) ∧
      ((s.readPage refInit wr rd file PageNo).st.bufTable f).refbit = true ∧
      ((s.readPage refInit wr rd file PageNo).st.bufTable f).dirty = (s.bufTable f).dirty ∧
      ((s.readPage refInit wr rd file PageNo).st.bufTable f).valid = (s.bufTable f).valid ∧
      ((s.readPage refInit wr rd file PageNo).st.bufTable f).file = (s.bufTable f).file ∧
      ((s.readPage refInit wr rd file PageNo).st.bufTable f).pageNo = (s.bufTable f).pageNo ∧
      ((s.readPage refInit wr rd file PageNo).st.bufTable f).frameNo = (s.bufTable f).frameNo ∧
      (∀ i, i ≠ f → (s.readPage refInit wr rd file PageNo).st.bufTable i = s.bufTable i) ∧
      (s.readPage refInit wr rd file PageNo).st.hashTable = s.hashTable ∧
      (s.readPage refInit wr rd file PageNo).st.clockHand = s.clockHand ∧
      (s.readPage refInit wr rd file PageNo).st.bufPool = s.bufPool ∧
      (s.readPage refInit wr rd file PageNo).st.disk = s.disk ∧
      (s.readPage refInit wr rd file PageNo).st.numBufs = s.numBufs) ∧
    (((s.readPage refInit wr rd file PageNo).st.readPage refInit wr2 rd2 file PageNo).status =
        Status.OK ∧
      ((s.readPage refInit wr rd file PageNo).st.readPage refInit wr2 rd2 file PageNo).frame =
        some f ∧
      ((s.readPage refInit wr rd file PageNo).st.readPage refInit wr2 rd2 file PageNo).calls =
        [] ∧
      ((s.bufTable f).pinCnt < 2147483646 →
        (((s.readPage refInit wr rd file PageNo).st.readPage refInit wr2 rd2 file
          PageNo).st.bufTable f).pinCnt = (s.bufTable f).pinCnt + 2)) := by
  have hlo := (h.toInv.pinRange f).1
  have e1 := readPage_hit s refInit wr rd file PageNo f hl
  have hl2 : (s.readPage refInit wr rd file PageNo).st.hashTable.lookup (some file) PageNo =
      some f := by
    rw [e1]; exact hl
  have e2 := readPage_hit (s.readPage refInit wr rd file PageNo).st refInit wr2 rd2 file PageNo f
    hl2
  have hp1 : ((s.readPage refInit wr rd file PageNo).st.bufTable f).pinCnt =
      wrapInt ((s.bufTable f).pinCnt + 1) := by
    rw [e1]
    simp only [BufMgr.setDesc, Function.update_same]
  refine ⟨⟨?_, ?_, ?_, hp1, ?_, ?_⟩, ?_⟩
  · rw [e1]
  · rw [e1]
  · rw [e1]
  · intro hb
    rw [hp1]
    apply wrapInt_of_range <;> omega
  · rw [e1]
    refine ⟨?_, ?_, ?_, ?_, ?_, ?_,
      fun i hif => Function.update_noteq hif _ _, rfl, rfl, rfl, rfl, rfl⟩
    all_goals simp only [BufMgr.setDesc, Function.update_same]
  · rw [e2]
    refine ⟨rfl, rfl, rfl, ?_⟩
    intro hb
    simp only [BufMgr.setDesc, Function.update_same]
    rw [hp1, wrapInt_succ]
    have : (s.bufTable f).pinCnt + 1 + 1 = (s.bufTable f).pinCnt + 2 := by ring
    rw [this]
    apply wrapInt_of_range <;> omega

/-- Witness for C6: page 10 is resident in frame 2 with pin count 1; a second
and a third fetch leave it in frame 2 with pin count 3 and call the store not
at all. -/
theorem readPage_resident_witness :
    (Reachable true 3 (exA true) ∧ (exA true).hashTable.lookup (some 1) 10 = some 2 ∧
      ((exA true).bufTable 2).pinCnt < 2147483646) ∧
    ((exA true).readPage true Status.OK Status.OK 1 10).frame = some 2 ∧
    ((exA true).readPage true Status.OK Status.OK 1 10).calls = [] ∧
    ((((exA true).readPage true Status.OK Status.OK 1 10).st.readPage true Status.OK Status.OK
      1 10).st.bufTable 2).pinCnt = ((exA true).bufTable 2).pinCnt + 2 :=
  ⟨⟨exA_reachable true, by decide, by decide⟩,
    (readPage_resident true 3 (exA true) (exA_reachable true) Status.OK Status.OK Status.OK
      Status.OK 1 10 2 (by decide)).1.2.1,
    (readPage_resident true 3 (exA true) (exA_reachable true) Status.OK Status.OK Status.OK
      Status.OK 1 10 2 (by decide)).1.2.2.1,
    (readPage_resident true 3 (exA true) (exA_reachable true) Status.OK Status.OK Status.OK
      Status.OK 1 10 2 (by decide)).2.2.2.2 (by decide)⟩

/-- C7 (`readPage` of a page that is not resident).  In a reachable state, when
`readPage` of a page absent from the index returns `OK`, it returns a
reference to a frame `f` that is valid, holds (file, PageNo), has
`pinCnt = 1` and `dirty = false`, whose buffer equals the page store's
current content of that page, and to which the identity index maps
(file, PageNo); no other valid frame holds (file, PageNo). -/
theorem readPage_miss_installs (refInit : Bool) (bufs : Nat) (s : BufMgr)
    (h : Reachable refInit bufs s) (wr rd : Status) (file : Nat) (PageNo : Int)
    (hl : s.hashTable.lookup (some file) PageNo = none)
    (hok : (s.readPage refInit wr rd file PageNo).status = Status.OK) :
    ∃ f, (s.readPage refInit wr rd file PageNo).frame = some f ∧ f < s.numBufs ∧
      ((s.readPage refInit wr rd file PageNo).st.bufTable f).valid = true ∧
      ((s.readPage refInit wr rd file PageNo).st.bufTable f).file = some file ∧
      ((s.readPage refInit wr rd file PageNo).st.bufTable f).pageNo = PageNo ∧
      ((s.readPage refInit wr rd file PageNo).st.bufTable f).pinCnt = 1 ∧
      ((s.readPage refInit wr rd file PageNo).st.bufTable f).dirty = false ∧
      (s.readPage refInit wr rd file PageNo).st.bufPool f =
        (s.readPage refInit wr rd file PageNo).st.disk (some file) PageNo ∧
      (s.readPage refInit wr rd file PageNo).st.hashTable.lookup (some file) PageNo = some f ∧
      ∀ j, j < (s.readPage refInit wr rd file PageNo).st.numBufs →
        ((s.readPage refInit wr rd file PageNo).st.bufTable j).valid = true →
        ((s.readPage refInit wr rd file PageNo).st.bufTable j).file = some file →
        ((s.readPage refInit wr rd file PageNo).st.bufTable j).pageNo = PageNo → j = f := by
  have hi := h.toInv
  have hpost := readPage_inv s refInit wr rd file PageNo hi
  rcases allocBuf_outcome s wr hi with ⟨a1, -⟩ | ⟨f, a1, a2, a3, -, -, -, a7⟩
  · rw [readPage_miss_fail s refInit wr rd file PageNo hl a1] at hok
    exact absurd hok a1
  · by_cases hrd : rd = Status.OK
    · subst hrd
      have hnone : (s.allocBuf wr).st.hashTable.lookup (some file) PageNo = none := by
        rw [a7, hl]; simp
      have hlk : (s.readPage refInit wr Status.OK file PageNo).st.hashTable.lookup (some file)
          PageNo = some f := by
        rw [readPage_miss_ok s refInit wr file PageNo f hl a1 a2]
        simp only []
        rw [(BufHashTbl.insert_of_none _ _ _ f hnone).2, if_pos ⟨rfl, rfl⟩]
      refine ⟨f, ?_, a3, ?_, ?_, ?_, ?_, ?_, ?_, hlk, ?_⟩
      · rw [readPage_miss_ok s refInit wr file PageNo f hl a1 a2]
      · rw [readPage_miss_ok s refInit wr file PageNo f hl a1 a2]
        simp only [Function.update_same]
        rfl
      · rw [readPage_miss_ok s refInit wr file PageNo f hl a1 a2]
        simp only [Function.update_same]
        rfl
      · rw [readPage_miss_ok s refInit wr file PageNo f hl a1 a2]
        simp only [Function.update_same]
        rfl
      · rw [readPage_miss_ok s refInit wr file PageNo f hl a1 a2]
        simp only [Function.update_same]
        rfl
      · rw [readPage_miss_ok s refInit wr file PageNo f hl a1 a2]
        simp only [Function.update_same]
        rfl
      · rw [readPage_miss_ok s refInit wr file PageNo f hl a1 a2]
        simp only [Function.update_same]
      · intro j _ hv hf hp
        have h1 := hpost.resident j hv
        rw [hf, hp, hlk] at h1
        exact (Option.some.inj h1).symm
    · rw [readPage_miss_rdfail s refInit wr rd file PageNo f hl a1 a2 hrd] at hok
      exact absurd hok hrd

/-- Witness for C7: in the pool that holds page 10 in frame 2, the fetch of
page 11 succeeds in frame 0, whose buffer then holds the stored content 111. -/
theorem readPage_miss_installs_witness :
    (Reachable true 3 (exA true) ∧ (exA true).hashTable.lookup (some 1) 11 = none ∧
      ((exA true).readPage true Status.OK Status.OK 1 11).status = Status.OK) ∧
    ∃ f, ((exA true).readPage true Status.OK Status.OK 1 11).frame = some f ∧
      ((exA true).readPage true Status.OK Status.OK 1 11).st.bufPool f =
        ((exA true).readPage true Status.OK Status.OK 1 11).st.disk (some 1) 11 :=
  ⟨⟨exA_reachable true, by decide, by decide⟩,
    (readPage_miss_installs true 3 (exA true) (exA_reachable true) Status.OK Status.OK 1 11
      (by decide) (by decide)).imp (fun _ hf => ⟨hf.1, hf.2.2.2.2.2.2.2.1⟩)⟩

theorem exTwo_reachable (refInit : Bool) : Reachable refInit 2 (exTwo refInit) :=
  Reachable.unPinPage 1 12 false (Reachable.unPinPage 1 11 false
    (Reachable.readPage Status.OK Status.OK 1 12
      (Reachable.readPage Status.OK Status.OK 1 11 (Reachable.init exDisk))))

theorem ex3_reachable (refInit : Bool) : Reachable refInit 3 ex3 := Reachable.init exDisk

theorem exRoundEvicted_run :
    FetchUnpin true (exRoundDirty true) (exRoundEvicted true) :=
  FetchUnpin.fetch 1 10 (FetchUnpin.unpin 1 11 false (FetchUnpin.fetch 1 13
    (FetchUnpin.fetch 1 12 (FetchUnpin.fetch 1 11 (FetchUnpin.refl _)))))

theorem exRoundOne_run :
    FetchUnpin true
      (((((BufMgr.init 1 exDisk).allocPage true Status.OK 10 Status.OK 1).st.writeFrame 0
        77).unPinPage 1 10 true).st) exRoundOne :=
  FetchUnpin.fetch 1 10 (FetchUnpin.unpin 1 11 false (FetchUnpin.fetch 1 11
    (FetchUnpin.fetch 1 11 (FetchUnpin.refl _))))

/-- C8 (round trip through eviction).  From any reachable state, for every
pool size: `allocPage` returns page `p` of file `F` in frame `f`, the caller
writes the content `c` into that frame and unpins the page with `dirty = true`
(which succeeds); then any sequence of fetches and unpins of any pages follows,
every call to the page store succeeding.  A later successful `readPage(F, p)`
returns a frame whose content is `c`, in particular when the fetches in
between have evicted the page. -/
theorem round_trip_through_eviction (refInit : Bool) (bufs : Nat) (s0 : BufMgr)
    (h0 : Reachable refInit bufs s0) (al wr0 : Status) (F : Nat) (p : Int) (c : Page) (f : Nat)
    (ha : (s0.allocPage refInit al p wr0 F).status = Status.OK)
    (hf : (s0.allocPage refInit al p wr0 F).frame = some f)
    (t : BufMgr)
    (hseq : FetchUnpin refInit
      (((s0.allocPage refInit al p wr0 F).st.writeFrame f c).unPinPage F p true).st t)
    (g : Nat)
    (hr : (t.readPage refInit Status.OK Status.OK F p).status = Status.OK)
    (hg : (t.readPage refInit Status.OK Status.OK F p).frame = some g) :
    1 ≤ s0.numBufs ∧
    (((s0.allocPage refInit al p wr0 F).st.writeFrame f c).unPinPage F p true).status =
      Status.OK ∧
    (t.readPage refInit Status.OK Status.OK F p).st.bufPool g = c := by
  have hi0 := h0.toInv
  have hi1 := allocPage_inv s0 refInit al p wr0 F hi0
  obtain ⟨p1, p2, p3, p4, p5, -, p7⟩ := allocPage_ok_post s0 refInit al p wr0 F f hi0 ha hf
  have hi2 := writeFrame_inv _ f c hi1
  have hl2 : ((s0.allocPage refInit al p wr0 F).st.writeFrame f c).hashTable.lookup (some F) p =
      some f := p7
  have hp2 : 0 < (((s0.allocPage refInit al p wr0 F).st.writeFrame f c).bufTable f).pinCnt := by
    show 0 < ((s0.allocPage refInit al p wr0 F).st.bufTable f).pinCnt
    rw [p5]
    exact Int.one_pos
  have hu := unPinPage_dirty_eq _ F p f hl2 hp2
  have hi3 := unPinPage_inv _ F p true hi2
  have hh3 : Holds F p c
      (((s0.allocPage refInit al p wr0 F).st.writeFrame f c).unPinPage F p true).st := by
    rw [hu]
    refine Or.inl ⟨f, ?_, ?_, ?_, ?_, Or.inl ?_⟩
    · simp only [BufMgr.setDesc, Function.update_same]
      exact p2
    · simp only [BufMgr.setDesc, Function.update_same]
      exact p3
    · simp only [BufMgr.setDesc, Function.update_same]
      exact p4
    · simp only [BufMgr.setDesc, BufMgr.writeFrame, Function.update_same]
    · simp only [BufMgr.setDesc, Function.update_same]
  obtain ⟨hit, hht⟩ := hseq.keeps F p c hi3 hh3
  refine ⟨Nat.lt_of_le_of_lt (Nat.zero_le _) p1, ?_, readPage_of_holds t refInit F p c g hit hht hr hg⟩
  rw [hu]

/-- Witness for C8.  In a fresh pool of three frames page 10 is allocated,
filled with 77 and unpinned dirty; the pool is filled by the fetches of pages
11, 12 and 13, the last of which evicts page 10 (the index has no entry for it
afterwards, the page store holds 77); with all three frames pinned a fetch of
page 10 fails, so page 11 is unpinned; the fetch of page 10 after that still
fails (it only clears reference bits), and the one after it returns frame 0
with content 77.  In a fresh pool of one frame the same round trip returns
frame 0 with content 77. -/
theorem round_trip_through_eviction_witness :
    (Reachable true 3 ex3 ∧
      (ex3.allocPage true Status.OK 10 Status.OK 1).status = Status.OK ∧
      (ex3.allocPage true Status.OK 10 Status.OK 1).frame = some 2 ∧
      FetchUnpin true (exRoundDirty true) (exRoundEvicted true) ∧
      (exRoundFull true).hashTable.lookup (some 1) 10 = none ∧
      (exRoundFull true).disk (some 1) 10 = 77 ∧
      ((exRoundFull true).readPage true Status.OK Status.OK 1 10).status =
        Status.BUFFEREXCEEDED ∧
      (exRoundEvicted true).hashTable.lookup (some 1) 10 = none ∧
      ((exRoundEvicted true).readPage true Status.OK Status.OK 1 10).status = Status.OK ∧
      ((exRoundEvicted true).readPage true Status.OK Status.OK 1 10).frame = some 0) ∧
    ((exRoundEvicted true).readPage true Status.OK Status.OK 1 10).st.bufPool 0 = 77 ∧
    (exRoundOne.hashTable.lookup (some 1) 10 = none ∧
      (exRoundOne.readPage true Status.OK Status.OK 1 10).status = Status.OK ∧
      (exRoundOne.readPage true Status.OK Status.OK 1 10).frame = some 0) ∧
    (exRoundOne.readPage true Status.OK Status.OK 1 10).st.bufPool 0 = 77 :=
  ⟨⟨ex3_reachable true, by decide, by decide, exRoundEvicted_run, by decide, by decide,
      by decide, by decide, by decide, by decide⟩,
    (round_trip_through_eviction true 3 ex3 (ex3_reachable true) Status.OK Status.OK 1
      10 77 2 (by decide) (by decide) (exRoundEvicted true) exRoundEvicted_run 0
      (by decide) (by decide)).2.2,
    ⟨by decide, by decide, by decide⟩,
    (round_trip_through_eviction true 1 (BufMgr.init 1 exDisk) (Reachable.init exDisk)
      Status.OK Status.OK 1 10 77 0 (by decide) (by decide) exRoundOne exRoundOne_run 0
      (by decide) (by decide)).2.2⟩

theorem exTwoDirty_reachable (refInit : Bool) : Reachable refInit 2 (exTwoDirty refInit) :=
  Reachable.unPinPage 1 10 true (Reachable.writeFrame 1 77
    (Reachable.allocPage Status.OK 10 Status.OK 1 (exTwo_reachable refInit)))

/-- C9 (write-back on eviction).  In a reachable state, when `allocBuf` returns
`OK` with frame `f`: if frame `f` was valid and dirty, the call made exactly
one call to the page store, a `writePage` addressed to the victim's file (not
`NULL`) and pageNo and carrying the content of the victim's buffer, all as
they were before the descriptor was cleared; if frame `f` was not valid or not
dirty, the call made no call to the page store.  Afterwards the descriptor
of `f` is cleared. -/
theorem writeback_on_eviction (refInit : Bool) (bufs : Nat) (s : BufMgr)
    (h : Reachable refInit bufs s) (wr : Status) (f : Nat)
    (hok : (s.allocBuf wr).status = Status.OK) (hf : (s.allocBuf wr).frame = some f) :
    ((s.bufTable f).valid = true → (s.bufTable f).dirty = true →
      (s.allocBuf wr).calls =
        [StoreCall.writePage (s.bufTable f).file (s.bufTable f).pageNo (s.bufPool f)] ∧
      (s.bufTable f).file ≠ none) ∧
    ((s.bufTable f).valid = false ∨ (s.bufTable f).dirty = false → (s.allocBuf wr).calls = []) ∧
    (s.allocBuf wr).st.bufTable f = (s.bufTable f).Clear := by
  have hi := h.toInv
  rcases Nat.eq_zero_or_pos s.numBufs with h0 | hpos
  · rw [allocBuf_zero s wr h0] at hok
    exact absurd hok (by simp)
  · obtain ⟨-, -, -, h4⟩ := allocBuf_post s wr hi hpos
    rcases h4 with ⟨a1, -⟩ | ⟨a1, -⟩ | ⟨f1, -, a2, -, a4, a5, -, -, a8, -⟩ |
      ⟨f1, -, a2, -, a4, -, -, a7, -, -, a10, -⟩
    · rw [a1] at hok
      exact absurd hok (by simp)
    · rw [a1] at hok
      exact absurd hok (by simp)
    · rw [a2] at hf
      have hff : f1 = f := Option.some.inj hf
      subst hff
      exact ⟨fun hv => absurd (a4.symm.trans hv) (by simp), fun _ => a5, a8⟩
    · rw [a2] at hf
      have hff : f1 = f := Option.some.inj hf
      subst hff
      refine ⟨fun _ hd => ⟨by rw [a7, if_pos hd], hi.owned f1 a4⟩, fun hd => ?_, a10⟩
      rcases hd with hd | hd
      · exact absurd (a4.symm.trans hd) (by simp)
      · rw [a7, hd]
        simp

/-- Witness for C9: the dirty, unpinned page 10 with content 77 is evicted
from frame 1 and written back exactly once. -/
theorem writeback_on_eviction_witness :
    (Reachable true 2 (exVictim true) ∧
      ((exVictim true).allocBuf Status.OK).status = Status.OK ∧
      ((exVictim true).allocBuf Status.OK).frame = some 1 ∧
      ((exVictim true).bufTable 1).valid = true ∧ ((exVictim true).bufTable 1).dirty = true) ∧
    ((exVictim true).allocBuf Status.OK).calls =
      [StoreCall.writePage ((exVictim true).bufTable 1).file ((exVictim true).bufTable 1).pageNo
        ((exVictim true).bufPool 1)] :=
  ⟨⟨exTwoDirty_reachable true, by decide, by decide, by decide, by decide⟩,
    ((writeback_on_eviction true 2 (exVictim true) (exTwoDirty_reachable true) Status.OK 1
      (by decide) (by decide)).1 (by decide) (by decide)).1⟩

/-- C10 (the code fails the claim).  A failed write-back that reports a status
other than `UNIXERR` is not propagated: in the reachable state `exVictim`
frame 1 holds the unpinned dirty page 10 of file 1 with content 77; when the
page store answers the `writePage` with the failure `OTHER 5`, `allocBuf`
returns `OK` and hands out frame 1, the page is no longer valid nor in the
index, and the page store still holds the old content 110, so the dirty page
is lost.  With the answer `UNIXERR` the failure is returned and the page stays
resident and dirty. -/
theorem allocBuf_loses_dirty_page :
    ∀ refInit : Bool,
      Reachable refInit 2 (exVictim refInit) ∧
      (((exVictim refInit).bufTable 1).valid = true ∧
        ((exVictim refInit).bufTable 1).dirty = true ∧
        ((exVictim refInit).bufTable 1).pinCnt = 0 ∧
        ((exVictim refInit).bufTable 1).file = some 1 ∧
        ((exVictim refInit).bufTable 1).pageNo = 10 ∧
        (exVictim refInit).bufPool 1 = 77 ∧
        ((exVictim refInit).allocBuf (Status.OTHER 5)).status = Status.OK ∧
        ((exVictim refInit).allocBuf (Status.OTHER 5)).frame = some 1 ∧
        ((exVictim refInit).allocBuf (Status.OTHER 5)).calls =
          [StoreCall.writePage (some 1) 10 77] ∧
        (((exVictim refInit).allocBuf (Status.OTHER 5)).st.bufTable 1).valid = false ∧
        ((exVictim refInit).allocBuf (Status.OTHER 5)).st.hashTable.lookup (some 1) 10 = none ∧
        ((exVictim refInit).allocBuf (Status.OTHER 5)).st.disk (some 1) 10 = 110 ∧
        ((exVictim refInit).allocBuf Status.UNIXERR).status = Status.UNIXERR ∧
        (((exVictim refInit).allocBuf Status.UNIXERR).st.bufTable 1).valid = true ∧
        (((exVictim refInit).allocBuf Status.UNIXERR).st.bufTable 1).dirty = true ∧
        ((exVictim refInit).allocBuf Status.UNIXERR).st.hashTable.lookup (some 1) 10 =
          some 1) := by
  intro refInit
  refine ⟨exTwoDirty_reachable refInit, ?_⟩
  cases refInit <;> decide

/-- C11 (`readPage` with a failing store read).  In a reachable state, when the
page is not resident, `allocBuf` hands out frame `f` and the page store's
`readPage` returns the failure `rd`, then `readPage` returns `rd` and no page
reference, frame `f` is left fully cleared (not valid, `pinCnt = 0`,
`dirty = false`, no file, pageNo `-1`, refbit clear), and (file, PageNo) is in
neither the identity index nor any valid frame. -/
theorem readPage_read_failure (refInit : Bool) (bufs : Nat) (s : BufMgr)
    (h : Reachable refInit bufs s) (wr rd : Status) (file : Nat) (PageNo : Int) (f : Nat)
    (hl : s.hashTable.lookup (some file) PageNo = none)
    (hok : (s.allocBuf wr).status = Status.OK) (hf : (s.allocBuf wr).frame = some f)
    (hrd : rd ≠ Status.OK) :
    (s.readPage refInit wr rd file PageNo).status = rd ∧
    (s.readPage refInit wr rd file PageNo).frame = none ∧
    (s.readPage refInit wr rd file PageNo).calls =
      (s.allocBuf wr).calls ++ [StoreCall.readPage (some file) PageNo] ∧
    ((s.readPage refInit wr rd file PageNo).st.bufTable f).valid = false ∧
    ((s.readPage refInit wr rd file PageNo).st.bufTable f).pinCnt = 0 ∧
    ((s.readPage refInit wr rd file PageNo).st.bufTable f).dirty = false ∧
    ((s.readPage refInit wr rd file PageNo).st.bufTable f).file = none ∧
    ((s.readPage refInit wr rd file PageNo).st.bufTable f).pageNo = -1 ∧
    ((s.readPage refInit wr rd file PageNo).st.bufTable f).refbit = false ∧
    (s.readPage refInit wr rd file PageNo).st.hashTable.lookup (some file) PageNo = none ∧
    (∀ i, ((s.readPage refInit wr rd file PageNo).st.bufTable i).valid = true →
      ¬ (((s.readPage refInit wr rd file PageNo).st.bufTable i).file = some file ∧
        ((s.readPage refInit wr rd file PageNo).st.bufTable i).pageNo = PageNo)) := by
  have hi := h.toInv
  have hpost := allocBuf_inv s wr hi
  rcases allocBuf_outcome s wr hi with ⟨a1, -⟩ | ⟨f1, -, a2, -, a4, -, -, a7⟩
  · exact absurd hok a1
  · rw [a2] at hf
    have hff : f1 = f := Option.some.inj hf
    subst hff
    have hnone : (s.allocBuf wr).st.hashTable.lookup (some file) PageNo = none := by
      rw [a7, hl]; simp
    rw [readPage_miss_rdfail s refInit wr rd file PageNo f1 hl hok a2 hrd]
    refine ⟨rfl, rfl, rfl, ?_, ?_, ?_, ?_, ?_, ?_, hnone, ?_⟩
    · simp only []; rw [a4]; rfl
    · simp only []; rw [a4]; rfl
    · simp only []; rw [a4]; rfl
    · simp only []; rw [a4]; rfl
    · simp only []; rw [a4]; rfl
    · simp only []; rw [a4]; rfl
    · intro i hv hk
      have hres := hpost.resident i hv
      rw [hk.1, hk.2, hnone] at hres
      exact absurd hres (by simp)

/-- Witness for C11: with page 10 in frame 2, the fetch of page 11 obtains
frame 0; the store read fails with `UNIXERR`, which is returned, and frame 0
stays invalid. -/
theorem readPage_read_failure_witness :
    (Reachable true 3 (exA true) ∧ (exA true).hashTable.lookup (some 1) 11 = none ∧
      ((exA true).allocBuf Status.OK).status = Status.OK ∧
      ((exA true).allocBuf Status.OK).frame = some 0 ∧ Status.UNIXERR ≠ Status.OK) ∧
    ((exA true).readPage true Status.OK Status.UNIXERR 1 11).status = Status.UNIXERR ∧
    (((exA true).readPage true Status.OK Status.UNIXERR 1 11).st.bufTable 0).valid = false :=
  ⟨⟨exA_reachable true, by decide, by decide, by decide, by decide⟩,
    (readPage_read_failure true 3 (exA true) (exA_reachable true) Status.OK Status.UNIXERR 1 11 0
      (by decide) (by decide) (by decide) (by decide)).1,
    (readPage_read_failure true 3 (exA true) (exA_reachable true) Status.OK Status.UNIXERR 1 11 0
      (by decide) (by decide) (by decide) (by decide)).2.2.2.1⟩

/-- C12 (`allocPage`).  In a reachable state: if the page store's
`allocatePage` fails, `allocPage` returns the failure `UNIXERR` and leaves the
whole state (frame table, index, clock hand) unchanged; if `allocBuf` fails,
`allocPage` returns `allocBuf`'s status; otherwise, the page store having
reserved a new page number (no resident page of the file has it, so the index
has no entry for it), `allocPage` returns `OK` with `pageNo` equal to the number
handed out by the page store, and afterwards exactly one valid frame holds
(file, pageNo), the index maps (file, pageNo) to it, and that frame has
`pinCnt = 1`, `dirty = false`, `valid = true` and is the frame whose content
reference is returned. -/
theorem allocPage_spec (refInit : Bool) (bufs : Nat) (s : BufMgr)
    (h : Reachable refInit bufs s) (al : Status) (newPage : Int) (wr : Status) (file : Nat) :
    (al ≠ Status.OK →
      (s.allocPage refInit al newPage wr file).status = Status.UNIXERR ∧
      (s.allocPage refInit al newPage wr file).frame = none ∧
      (s.allocPage refInit al newPage wr file).st = s) ∧
    (al = Status.OK → (s.allocBuf wr).status ≠ Status.OK →
      (s.allocPage refInit al newPage wr file).status = (s.allocBuf wr).status ∧
      (s.allocPage refInit al newPage wr file).frame = none ∧
      (s.allocPage refInit al newPage wr file).st = (s.allocBuf wr).st) ∧
    (al = Status.OK → (s.allocBuf wr).status = Status.OK →
      s.hashTable.lookup (some file) newPage = none →
      (s.allocPage refInit al newPage wr file).status = Status.OK ∧
      (s.allocPage refInit al newPage wr file).pageNo = newPage ∧
      ∃ f, (s.allocPage refInit al newPage wr file).frame = some f ∧
        (s.allocBuf wr).frame = some f ∧ f < s.numBufs ∧
        ((s.allocPage refInit al newPage wr file).st.bufTable f).valid = true ∧
        ((s.allocPage refInit al newPage wr file).st.bufTable f).file = some file ∧
        ((s.allocPage refInit al newPage wr file).st.bufTable f).pageNo = newPage ∧
        ((s.allocPage refInit al newPage wr file).st.bufTable f).pinCnt = 1 ∧
        ((s.allocPage refInit al newPage wr file).st.bufTable f).dirty = false ∧
        (s.allocPage refInit al newPage wr file).st.hashTable.lookup (some file) newPage =
          some f ∧
        ∀ j, j < (s.allocPage refInit al newPage wr file).st.numBufs →
          ((s.allocPage refInit al newPage wr file).st.bufTable j).valid = true →
          ((s.allocPage refInit al newPage wr file).st.bufTable j).file = some file →
          ((s.allocPage refInit al newPage wr file).st.bufTable j).pageNo = newPage → j = f) := by
  have hi := h.toInv
  have hpost := allocPage_inv s refInit al newPage wr file hi
  refine ⟨?_, ?_, ?_⟩
  · intro hal
    unfold BufMgr.allocPage
    simp only []
    rw [if_pos hal]
    exact ⟨rfl, rfl, rfl⟩
  · intro hal hst
    unfold BufMgr.allocPage
    simp only []
    rw [if_neg (not_not.mpr hal)]
    split
    · next h1 _ => exact absurd h1 hst
    · exact ⟨rfl, rfl, rfl⟩
  · intro hal hst hfresh
    rcases allocBuf_outcome s wr hi with ⟨a1, -⟩ | ⟨f, -, a2, a3, -, -, -, a7⟩
    · exact absurd hst a1
    · have hnone : (s.allocBuf wr).st.hashTable.lookup (some file) newPage = none := by
        rw [a7, hfresh]
        exact ite_self none
      obtain ⟨i1, -⟩ := BufHashTbl.insert_of_none _ (some file) newPage f hnone
      have hres : (s.allocPage refInit al newPage wr file).status = Status.OK ∧
          (s.allocPage refInit al newPage wr file).pageNo = newPage ∧
          (s.allocPage refInit al newPage wr file).frame = some f := by
        unfold BufMgr.allocPage
        simp only []
        rw [if_neg (not_not.mpr hal), hst, a2]
        simp only []
        rw [i1]
        simp only [ne_eq, not_true_eq_false, if_false, and_self]
      obtain ⟨-, p2, p3, p4, p5, p6, p7⟩ :=
        allocPage_ok_post s refInit al newPage wr file f hi hres.1 hres.2.2
      refine ⟨hres.1, hres.2.1, f, hres.2.2, a2, a3, p2, p3, p4, p5, p6, p7, ?_⟩
      intro j _ hv hf hp
      have h1 := hpost.resident j hv
      rw [hf, hp, p7] at h1
      exact (Option.some.inj h1).symm

/-- Witness for C12: with page 10 resident, the store hands out the new page
number 11; `allocPage` returns `OK` with that number. -/
theorem allocPage_spec_witness :
    (Reachable true 3 (exA true) ∧ ((exA true).allocBuf Status.OK).status = Status.OK ∧
      (exA true).hashTable.lookup (some 1) 11 = none) ∧
    ((exA true).allocPage true Status.OK 11 Status.OK 1).status = Status.OK ∧
    ((exA true).allocPage true Status.OK 11 Status.OK 1).pageNo = 11 :=
  ⟨⟨exA_reachable true, by decide, by decide⟩,
    ((allocPage_spec true 3 (exA true) (exA_reachable true) Status.OK 11 Status.OK 1).2.2 rfl
      (by decide) (by decide)).1,
    ((allocPage_spec true 3 (exA true) (exA_reachable true) Status.OK 11 Status.OK 1).2.2 rfl
      (by decide) (by decide)).2.1⟩

/-- C13 (`disposePage`).  In a reachable state, whatever the page's pin count
and dirty flag: after `disposePage(file, pageNo)` no valid frame holds
(file, pageNo) and the index has no entry for it; the only call to the page
store is `disposePage(pageNo)`, so no write-back is made; the frame that held
the page is cleared, every other frame and every other index entry is
unchanged, as are clock hand, page buffers and store content; and the status
returned is the status of the page store's `disposePage`, whether or not the
page was resident. -/
theorem disposePage_spec (refInit : Bool) (bufs : Nat) (s : BufMgr)
    (h : Reachable refInit bufs s) (dp : Status) (file : Nat) (pageNo : Int) :
    (s.disposePage dp file pageNo).status = dp ∧
    (s.disposePage dp file pageNo).calls = [StoreCall.disposePage (some file) pageNo] ∧
    (s.disposePage dp file pageNo).st.hashTable.lookup (some file) pageNo = none ∧
    (∀ i, ((s.disposePage dp file pageNo).st.bufTable i).valid = true →
      ¬ (((s.disposePage dp file pageNo).st.bufTable i).file = some file ∧
        ((s.disposePage dp file pageNo).st.bufTable i).pageNo = pageNo)) ∧
    (∀ f, s.hashTable.lookup (some file) pageNo = some f →
      (s.disposePage dp file pageNo).st.bufTable f = (s.bufTable f).Clear) ∧
    (∀ i, s.hashTable.lookup (some file) pageNo ≠ some i →
      (s.disposePage dp file pageNo).st.bufTable i = s.bufTable i) ∧
    (∀ g q, ¬ (g = some file ∧ q = pageNo) →
      (s.disposePage dp file pageNo).st.hashTable.lookup g q = s.hashTable.lookup g q) ∧
    (s.disposePage dp file pageNo).st.clockHand = s.clockHand ∧
    (s.disposePage dp file pageNo).st.bufPool = s.bufPool ∧
    (s.disposePage dp file pageNo).st.disk = s.disk ∧
    (s.disposePage dp file pageNo).st.numBufs = s.numBufs := by
  have hi := h.toInv
  have hpost := disposePage_inv s dp file pageNo hi
  have hlk : ∀ g q, (s.disposePage dp file pageNo).st.hashTable.lookup g q =
      if g = some file ∧ q = pageNo then none else s.hashTable.lookup g q := by
    intro g q
    unfold BufMgr.disposePage
    cases s.hashTable.lookup (some file) pageNo with
    | none =>
      simp only []
      rw [BufHashTbl.lookup_remove]
    | some f =>
      simp only []
      rw [BufHashTbl.lookup_remove]
      rfl
  have hnone : (s.disposePage dp file pageNo).st.hashTable.lookup (some file) pageNo = none := by
    rw [hlk, if_pos ⟨rfl, rfl⟩]
  refine ⟨rfl, rfl, hnone, ?_, ?_, ?_, ?_, ?_, ?_, ?_, ?_⟩
  · intro i hv hk
    have hres := hpost.resident i hv
    rw [hk.1, hk.2, hnone] at hres
    exact absurd hres (by simp)
  · intro f hl
    unfold BufMgr.disposePage
    rw [hl]
    simp only [BufMgr.setDesc, Function.update_same]
  · intro i hl
    unfold BufMgr.disposePage
    cases hl1 : s.hashTable.lookup (some file) pageNo with
    | none => rfl
    | some f =>
      have hif : i ≠ f := by
        intro hif
        rw [hl1, hif] at hl
        exact hl rfl
      simp only [BufMgr.setDesc, Function.update_noteq hif]
  · intro g q hk
    rw [hlk, if_neg hk]
  · unfold BufMgr.disposePage
    split <;> rfl
  · unfold BufMgr.disposePage
    split <;> rfl
  · unfold BufMgr.disposePage
    split <;> rfl
  · unfold BufMgr.disposePage
    split <;> rfl

/-- Witness for C13: disposing the pinned page 10 returns the store's status
and removes the page from the index and from frame 2. -/
theorem disposePage_spec_witness :
    Reachable true 3 (exA true) ∧
      ((exA true).disposePage Status.UNIXERR 1 10).status = Status.UNIXERR ∧
      ((exA true).disposePage Status.UNIXERR 1 10).st.hashTable.lookup (some 1) 10 = none ∧
      ((exA true).disposePage Status.UNIXERR 1 10).st.bufTable 2 = ((exA true).bufTable 2).Clear :=
  ⟨exA_reachable true,
    (disposePage_spec true 3 (exA true) (exA_reachable true) Status.UNIXERR 1 10).1,
    (disposePage_spec true 3 (exA true) (exA_reachable true) Status.UNIXERR 1 10).2.2.1,
    (disposePage_spec true 3 (exA true) (exA_reachable true) Status.UNIXERR 1 10).2.2.2.2.1 2
      (by decide)⟩

theorem exSecondSet_reachable : Reachable true 2 exSecondSet :=
  Reachable.unPinPage 1 12 false (Reachable.unPinPage 1 11 false
    (Reachable.readPage Status.OK Status.OK 1 13
      (Reachable.readPage Status.OK Status.OK 1 12
        (Reachable.readPage Status.OK Status.OK 1 11 (Reachable.init exDisk)))))

theorem exSecondClear_reachable : Reachable false 2 exSecondClear :=
  Reachable.unPinPage 1 12 false (Reachable.unPinPage 1 11 false
    (Reachable.unPinPage 1 11 false
      (Reachable.readPage Status.OK Status.OK 1 11
        (Reachable.readPage Status.OK Status.OK 1 12
          (Reachable.readPage Status.OK Status.OK 1 11 (Reachable.init exDisk))))))

theorem exOne_reachable (refInit : Bool) : Reachable refInit 1 (exOne refInit) :=
  Reachable.unPinPage 1 10 false (Reachable.unPinPage 1 10 false
    (Reachable.readPage Status.OK Status.OK 1 10
      (Reachable.readPage Status.OK Status.OK 1 10 (Reachable.init exDisk))))

theorem exOver_numBufs : exOver.numBufs = 3 := by
  have h := (fetchTimes_spec (exA true) true 1 10 2 exA_facts.1
    (by rw [exA_facts.2.1]; exact pin_one_range) 2147483647).2.1
  rw [show exOver = (exA true).fetchTimes true 1 10 2147483647 from rfl, h]
  exact exA_facts.2.2.2.2.2.1

theorem exOver_valid : (exOver.bufTable 2).valid = true := by
  have h := (fetchTimes_spec (exA true) true 1 10 2 exA_facts.1
    (by rw [exA_facts.2.1]; exact pin_one_range) 2147483647).2.2.2.1
  rw [show exOver = (exA true).fetchTimes true 1 10 2147483647 from rfl, h]
  exact exA_facts.2.2.1

theorem exOver_file : (exOver.bufTable 2).file = some 1 := by
  have h := (fetchTimes_spec (exA true) true 1 10 2 exA_facts.1
    (by rw [exA_facts.2.1]; exact pin_one_range) 2147483647).2.2.2.2.1
  rw [show exOver = (exA true).fetchTimes true 1 10 2147483647 from rfl, h]
  exact exA_facts.2.2.2.1

theorem exOver_others :
    (exOver.bufTable 0).valid = false ∧ (exOver.bufTable 1).valid = false := by
  have h := (fetchTimes_spec (exA true) true 1 10 2 exA_facts.1
    (by rw [exA_facts.2.1]; exact pin_one_range) 2147483647).2.2.1
  rw [show exOver = (exA true).fetchTimes true 1 10 2147483647 from rfl, h 0 (by decide),
    h 1 (by decide)]
  exact ⟨exA_facts.2.2.2.2.2.2.1, exA_facts.2.2.2.2.2.2.2.2.1⟩

theorem flushFile_overflowed (X : BufMgr) (hreach : Reachable true 3 X)
    (hp : (X.bufTable 2).pinCnt = -2147483648) (hn3 : X.numBufs = 3)
    (hv2 : (X.bufTable 2).valid = true) (hf2 : (X.bufTable 2).file = some 1)
    (h0 : (X.bufTable 0).valid = false) (h1 : (X.bufTable 1).valid = false) :
    ((X.flushFile (fun _ => Status.OK) (some 1)).st.bufTable 2).valid = false ∧
      ((X.flushFile (fun _ => Status.OK) (some 1)).st.bufTable 2).pinCnt = -2147483648 := by
  obtain ⟨t, ht, -, hrel⟩ := flushLoop_prefix (fun _ => Status.OK) 1 3 0 [] X 0 hreach.toInv
    (fun j _ c2 c3 _ => by
      have hj : j = 0 ∨ j = 1 ∨ j = 2 := by omega
      rcases hj with e | e | e
      · rw [e, h0] at c3
        exact absurd c3 (by simp)
      · rw [e, h1] at c3
        exact absurd c3 (by simp)
      · rw [e, hp]
        exact ⟨by omega, fun _ => rfl⟩)
  have hres : X.flushFile (fun _ => Status.OK) (some 1) =
      ⟨Status.OK, none, [] ++ flushWrites 1 X 0 3, t⟩ := by
    show BufMgr.flushLoop (fun _ => Status.OK) (some 1) X.numBufs 0 [] X = _
    rw [hn3]
    exact ht
  have hfl : t.bufTable 2 = (X.bufTable 2).flushed :=
    hrel.2.2.2.1 2 (by decide) (by decide) hv2 hf2
  rw [hres]
  constructor
  · show (t.bufTable 2).valid = false
    rw [hfl]
    rfl
  · show (t.bufTable 2).pinCnt = -2147483648
    rw [hfl]
    exact hp

theorem exOver_flushed :
    ((exOver.flushFile (fun _ => Status.OK) (some 1)).st.bufTable 2).valid = false ∧
      ((exOver.flushFile (fun _ => Status.OK) (some 1)).st.bufTable 2).pinCnt = -2147483648 :=
  flushFile_overflowed exOver exOver_reachable exOver_pinCnt exOver_numBufs exOver_valid
    exOver_file exOver_others.1 exOver_others.2

/-- Counterexample for C16 as stated: in the freshly constructed pool of three
frames, frame 0 is not valid and its pageNo is 0, not the sentinel `-1`; after
`flushFile` has dropped the page of the one-frame pool `exOne`, whose refbit
was set by a second fetch, frame 0 is not valid and its refbit is still set;
and after `flushFile` has dropped the page whose pin count had wrapped to
`-2147483648` (pool `exOver`), frame 2 is not valid and its `pinCnt` is not
0. -/
theorem cleared_frame_counterexample :
    (Reachable true 3 ex3 ∧ (ex3.bufTable 0).valid = false ∧ (ex3.bufTable 0).pageNo = 0 ∧
      ¬ (ex3.bufTable 0).pageNo = -1) ∧
    (Reachable true 1 ((exOne true).flushFile (fun _ => Status.OK) (some 1)).st ∧
      (((exOne true).flushFile (fun _ => Status.OK) (some 1)).st.bufTable 0).valid = false ∧
      ¬ (((exOne true).flushFile (fun _ => Status.OK) (some 1)).st.bufTable 0).refbit = false) ∧
    (Reachable false 1 ((exOne false).flushFile (fun _ => Status.OK) (some 1)).st ∧
      (((exOne false).flushFile (fun _ => Status.OK) (some 1)).st.bufTable 0).valid = false ∧
      ¬ (((exOne false).flushFile (fun _ => Status.OK) (some 1)).st.bufTable 0).refbit =
        false) ∧
    (Reachable true 3 (exOver.flushFile (fun _ => Status.OK) (some 1)).st ∧
      ((exOver.flushFile (fun _ => Status.OK) (some 1)).st.bufTable 2).valid = false ∧
      ¬ ((exOver.flushFile (fun _ => Status.OK) (some 1)).st.bufTable 2).pinCnt = 0) :=
  ⟨⟨Reachable.init exDisk, by decide, by decide, by decide⟩,
    ⟨Reachable.flushFile _ _ (exOne_reachable true), by decide, by decide⟩,
    ⟨Reachable.flushFile _ _ (exOne_reachable false), by decide, by decide⟩,
    ⟨Reachable.flushFile _ _ exOver_reachable, exOver_flushed.1, by
      rw [exOver_flushed.2]
      decide⟩⟩

/-- C16, amended (invalid frames).  In every reachable state every frame that
is not valid has no file and `dirty = false`; its `pinCnt` is not positive
(it is 0 unless `flushFile` dropped the frame after its 32-bit pin count had
wrapped to a negative value), and its pageNo is the sentinel `-1` or the `0`
left by the constructor.  (Its refbit is not constrained: `flushFile` leaves
it as it was.) -/
theorem invalid_frame_cleared (refInit : Bool) (bufs : Nat) (s : BufMgr)
    (h : Reachable refInit bufs s) (i : Nat) (_hi : i < s.numBufs)
    (hv : (s.bufTable i).valid = false) :
    (s.bufTable i).file = none ∧ (s.bufTable i).pinCnt ≤ 0 ∧ (s.bufTable i).dirty = false ∧
      ((s.bufTable i).pageNo = -1 ∨ (s.bufTable i).pageNo = 0) :=
  h.toInv.free i hv

/-- Witness for C16: frame 0 of the pool that holds page 10 in frame 2. -/
theorem invalid_frame_cleared_witness :
    (Reachable true 3 (exA true) ∧ 0 < (exA true).numBufs ∧
      ((exA true).bufTable 0).valid = false) ∧
    ((exA true).bufTable 0).file = none ∧ ((exA true).bufTable 0).pinCnt ≤ 0 ∧
      ((exA true).bufTable 0).dirty = false ∧
      (((exA true).bufTable 0).pageNo = -1 ∨ ((exA true).bufTable 0).pageNo = 0) :=
  ⟨⟨exA_reachable true, by decide, by decide⟩,
    invalid_frame_cleared true 3 (exA true) (exA_reachable true) 0 (by decide) (by decide)⟩

/-- C17 (the code fails the claim).  After evicting a valid victim the clock
hand stays on the frame handed out: in the reachable pool `exVictim` of two
frames, `allocBuf` returns `OK` with frame 1, which was valid, and the clock
hand afterwards is 1.  When the frame handed out was invalid the hand has
been advanced: in `exA`, three frames, frame 0 is handed out and the hand
afterwards is 1. -/
theorem allocBuf_hand_stays_on_victim :
    ∀ refInit : Bool,
      Reachable refInit 2 (exVictim refInit) ∧
      (2 ≤ (exVictim refInit).numBufs ∧
        ((exVictim refInit).bufTable 1).valid = true ∧
        ((exVictim refInit).allocBuf Status.OK).status = Status.OK ∧
        ((exVictim refInit).allocBuf Status.OK).frame = some 1 ∧
        ((exVictim refInit).allocBuf Status.OK).st.clockHand = 1) ∧
      (((exA refInit).bufTable 0).valid = false ∧
        ((exA refInit).allocBuf Status.OK).frame = some 0 ∧
        ((exA refInit).allocBuf Status.OK).st.clockHand = 1) := by
  intro refInit
  refine ⟨exTwoDirty_reachable refInit, ?_, ?_⟩
  · cases refInit <;> decide
  · cases refInit <;> decide

/-- C18 (the code fails the claim).  No second chance.  In the reachable pool
`exSecondSet` of two frames the frame under the clock hand (frame 0, page 12)
is valid and unpinned with its refbit set, and the next frame (frame 1,
page 11) is valid and unpinned with its refbit clear; `allocBuf` returns `OK`
with frame 0, not frame 1: it has cleared the refbit without advancing the
hand and evicted the referenced page 12, which is no longer valid nor in the
index, while page 11 stays in frame 1.  The same happens in `exSecondClear`,
where `Set` installs a clear refbit: the hand is on the referenced frame 1
(page 11), the next frame 0 (page 12) is not referenced, and `allocBuf`
hands out frame 1. -/
theorem allocBuf_no_second_chance :
    (Reachable true 2 exSecondSet ∧
      2 ≤ exSecondSet.numBufs ∧ exSecondSet.clockHand = 0 ∧
      (exSecondSet.bufTable 0).valid = true ∧ (exSecondSet.bufTable 0).pinCnt = 0 ∧
      (exSecondSet.bufTable 0).refbit = true ∧ (exSecondSet.bufTable 0).pageNo = 12 ∧
      (exSecondSet.bufTable 1).valid = true ∧ (exSecondSet.bufTable 1).pinCnt = 0 ∧
      (exSecondSet.bufTable 1).refbit = false ∧
      (exSecondSet.allocBuf Status.OK).status = Status.OK ∧
      (exSecondSet.allocBuf Status.OK).frame = some 0 ∧
      ((exSecondSet.allocBuf Status.OK).st.bufTable 0).valid = false ∧
      (exSecondSet.allocBuf Status.OK).st.hashTable.lookup (some 1) 12 = none ∧
      (exSecondSet.allocBuf Status.OK).st.hashTable.lookup (some 1) 11 = some 1) ∧
    (Reachable false 2 exSecondClear ∧
      2 ≤ exSecondClear.numBufs ∧ exSecondClear.clockHand = 1 ∧
      (exSecondClear.bufTable 1).valid = true ∧ (exSecondClear.bufTable 1).pinCnt = 0 ∧
      (exSecondClear.bufTable 1).refbit = true ∧ (exSecondClear.bufTable 1).pageNo = 11 ∧
      (exSecondClear.bufTable 0).valid = true ∧ (exSecondClear.bufTable 0).pinCnt = 0 ∧
      (exSecondClear.bufTable 0).refbit = false ∧
      (exSecondClear.allocBuf Status.OK).status = Status.OK ∧
      (exSecondClear.allocBuf Status.OK).frame = some 1 ∧
      ((exSecondClear.allocBuf Status.OK).st.bufTable 1).valid = false ∧
      (exSecondClear.allocBuf Status.OK).st.hashTable.lookup (some 1) 11 = none ∧
      (exSecondClear.allocBuf Status.OK).st.hashTable.lookup (some 1) 12 = some 0) :=
  ⟨⟨exSecondSet_reachable, by decide⟩, ⟨exSecondClear_reachable, by decide⟩⟩

/-- C19 (retrying `allocBuf` makes progress).  In a reachable state in which
some frame `c` below `numBufs` is not valid or has `pinCnt = 0`, and with the
page store's writes succeeding, among three consecutive calls of `allocBuf`
at least one returns `OK`; in fact, if the first call fails the second one
returns `OK`, because a failed call keeps the refbits it has cleared and the
position the hand has reached. -/
theorem allocBuf_retry_progress (refInit : Bool) (bufs : Nat) (s : BufMgr)
    (h : Reachable refInit bufs s) (c : Nat) (hc : c < s.numBufs)
    (hfree : (s.bufTable c).valid = false ∨ (s.bufTable c).pinCnt = 0) :
    ((s.allocBuf Status.OK).status = Status.OK ∨
      ((s.allocBuf Status.OK).st.allocBuf Status.OK).status = Status.OK ∨
      (((s.allocBuf Status.OK).st.allocBuf Status.OK).st.allocBuf Status.OK).status =
        Status.OK) ∧
    ((s.allocBuf Status.OK).status ≠ Status.OK →
      ((s.allocBuf Status.OK).st.allocBuf Status.OK).status = Status.OK) := by
  have hi := h.toInv
  have hpos : 0 < s.numBufs := Nat.lt_of_le_of_lt (Nat.zero_le _) hc
  have hh := hi.hand hpos
  have hsecond : (s.allocBuf Status.OK).status ≠ Status.OK →
      ((s.allocBuf Status.OK).st.allocBuf Status.OK).status = Status.OK := by
    intro hne
    have hst : (BufMgr.allocBufLoop Status.OK s.numBufs s).status = Status.BUFFEREXCEEDED := by
      obtain ⟨-, -, -, h4⟩ := allocBuf_post s Status.OK hi hpos
      rcases h4 with ⟨a1, -⟩ | ⟨-, a2, -⟩ | ⟨f, a1, -⟩ | ⟨f, a1, -⟩
      · exact a1
      · exact absurd a2 (by simp)
      · exact absurd a1 hne
      · exact absurd a1 hne
    have hadd := allocBufLoop_add Status.OK s.numBufs s.numBufs s hst
    have hprog := allocBufLoop_progress (s.numBufs + s.numBufs) s c hh hc hfree
      (by
        have h1 := refCount_le s
        have h2 := handDist_lt s c hh hc
        omega)
    rw [hadd] at hprog
    show (BufMgr.allocBufLoop Status.OK (s.allocBuf Status.OK).st.numBufs
      (s.allocBuf Status.OK).st).status = Status.OK
    rw [allocBuf_numBufs]
    exact hprog
  refine ⟨?_, hsecond⟩
  by_cases h1 : (s.allocBuf Status.OK).status = Status.OK
  · exact Or.inl h1
  · exact Or.inr (Or.inl (hsecond h1))

/-- Witness for C19: in the scenario of three frames with page 10 unpinned, the
first call of `allocBuf` fails and the second returns `OK`. -/
theorem allocBuf_retry_progress_witness :
    (Reachable true 3 (exScenario true) ∧ 2 < (exScenario true).numBufs ∧
      (((exScenario true).bufTable 2).valid = false ∨
        ((exScenario true).bufTable 2).pinCnt = 0) ∧
      ((exScenario true).allocBuf Status.OK).status ≠ Status.OK) ∧
    (((exScenario true).allocBuf Status.OK).st.allocBuf Status.OK).status = Status.OK :=
  ⟨⟨Reachable.unPinPage 1 10 false
      (Reachable.readPage Status.OK Status.OK 1 13 (exABC_reachable true)),
      by decide, by decide, by decide⟩,
    (allocBuf_retry_progress true 3 (exScenario true)
      (Reachable.unPinPage 1 10 false
        (Reachable.readPage Status.OK Status.OK 1 13 (exABC_reachable true)))
      2 (by decide) (by decide)).2 (by decide)⟩

/-- C20 (the `BADBUFFER` branch of `flushFile` is never taken).  In every
reachable state every frame that is not valid has `file = NULL`; therefore
`flushFile` called with a file that is not `NULL` returns `OK`, `PAGEPINNED`
or the failure status that the page store gave to a `writePage`, never the
`BADBUFFER` of its own consistency check: whenever the page store does not
itself answer a `writePage` with `BADBUFFER`, `flushFile` does not return
`BADBUFFER`. -/
theorem flushFile_never_badbuffer (refInit : Bool) (bufs : Nat) (s : BufMgr)
    (h : Reachable refInit bufs s) :
    (∀ i, i < s.numBufs → (s.bufTable i).valid = false → (s.bufTable i).file = none) ∧
    (∀ (wr : Nat → Status) (file : Nat),
      (s.flushFile wr (some file)).status = Status.OK ∨
      (s.flushFile wr (some file)).status = Status.PAGEPINNED ∨
      ∃ j, (s.flushFile wr (some file)).status = wr j ∧ wr j ≠ Status.OK) ∧
    (∀ (wr : Nat → Status) (file : Nat), (∀ j, wr j ≠ Status.BADBUFFER) →
      (s.flushFile wr (some file)).status ≠ Status.BADBUFFER) := by
  have hi := h.toInv
  have hst : ∀ (wr : Nat → Status) (file : Nat),
      (s.flushFile wr (some file)).status = Status.OK ∨
      (s.flushFile wr (some file)).status = Status.PAGEPINNED ∨
      ∃ j, (s.flushFile wr (some file)).status = wr j ∧ wr j ≠ Status.OK :=
    fun wr file => flushLoop_status wr file s.numBufs 0 [] s hi
  refine ⟨fun i _ hv => (hi.free i hv).1, hst, ?_⟩
  intro wr file hwr hbad
  rcases hst wr file with h1 | h1 | ⟨j, h1, -⟩
  · rw [h1] at hbad
    exact absurd hbad (by simp)
  · rw [h1] at hbad
    exact absurd hbad (by simp)
  · rw [h1] at hbad
    exact hwr j hbad

/-- Witness for C20: the pool `exA` has the invalid frames 0 and 1, both with
`file = NULL`; flushing file 2 there does not return `BADBUFFER`. -/
theorem flushFile_never_badbuffer_witness :
    (Reachable true 3 (exA true) ∧ ∀ j : Nat, (fun _ => Status.OK) j ≠ Status.BADBUFFER) ∧
    ((exA true).flushFile (fun _ => Status.OK) (some 2)).status ≠ Status.BADBUFFER ∧
    ((exA true).bufTable 0).file = none :=
  ⟨⟨exA_reachable true, fun _ h => Status.noConfusion h⟩,
    (flushFile_never_badbuffer true 3 (exA true) (exA_reachable true)).2.2 (fun _ => Status.OK) 2
      (fun _ h => Status.noConfusion h),
    (flushFile_never_badbuffer true 3 (exA true) (exA_reachable true)).1 0 (by decide)
      (by decide)⟩
end Buf
